import Mathlib

/-! filecloud: the HTTP handlers of `server/handler.go`

A shallow embedding of the request handlers `fileList`, `fileDelete`, `fileMkdir`,
`fileCheck`, `fileUpload` and `fileAction`, and of the state they act on: the virtual tree
hanging off `filePtr` and the content store index `filePtr.MD5Files`.

* Go maps are association lists with unique keys (`mapGet`, `mapSet`, `mapDel`).
* A `*fileInfo` pointer into the tree is the list of child names leading to the node from the
  root; reading through the pointer is `getNode`, writing through it is `modifyAt`.
* The outcome of the external collaborators of one request (clock, `CopyFile`, `FormFile`,
  `WriteFile`) is the `Env` argument; the calls made are recorded in `Result.io`.
* A handler returns the state it leaves behind, the envelopes it wrote to the response
  writer, and whether it stopped on a run-time error (nil dereference, index out of range).
-/

namespace Server

/-! ## Go maps -/

/-- Map read `m[k]`: the value and the comma-ok flag are folded into an `Option`. -/
def mapGet {α : Type} : List (String × α) → String → Option α
  | [], _ => none
  | (a, v) :: t, k => if a = k then some v else mapGet t k

/-- Map write `m[k] = v`: an existing key keeps its place, a new key goes last. -/
def mapSet {α : Type} : List (String × α) → String → α → List (String × α)
  | [], k, v => [(k, v)]
  | (a, b) :: t, k, v => if a = k then (k, v) :: t else (a, b) :: mapSet t k v

/-- Map removal `delete(m, k)`. -/
def mapDel {α : Type} : List (String × α) → String → List (String × α)
  | [], _ => []
  | (a, b) :: t, k => if a = k then mapDel t k else (a, b) :: mapDel t k

/-- Keys of a map. -/
def mapKeys {α : Type} (m : List (String × α)) : List String := m.map Prod.fst

/-! ## Data model -/

/-- Modelled from the spec: the type `upload`, declared outside `handler.go`, the spec's
UploadState: "target content hash, target total byte size, total expected chunk count, set
of chunk indices already received (a mapping from chunk-index-string to an opaque
placeholder)". The field names are those of the literal at handler.go 214-219. -/
structure upload where
  Size : Int
  MD5 : String
  SliceCnt : Int
  UpSlice : List (String × String)
deriving DecidableEq, Repr

/-- Modelled from the spec: the scalar fields of the type `fileInfo`, declared outside
`handler.go`, the spec's FileRecord: "name, is-directory flag, absolute physical path,
content hash, finished byte size, completion timestamp, completion flag (FileOk), and an
optional owned UploadState". The field names are those the handlers read and assign; the
defaults are Go's zero values, so that a structure instance reads like the composite
literal `&fileInfo{...}` of the handlers. -/
structure fileFields where
  Path : String := ""
  Name : String := ""
  AbsPath : String := ""
  IsDir : Bool := false
  FileMD5 : String := ""
  FileOk : Bool := false
  FileSize : Int := 0
  FileDate : String := ""
  Upload : Option upload := none
deriving DecidableEq, Repr

/-- Modelled from the spec: the type `fileInfo`, declared outside `handler.go`: a node of
the virtual tree, "a hierarchy of directory nodes, each holding a mapping from child name to
either a subdirectory or a file record". The handlers use one type both for what `findPath`
returns and for the values of `FileInfos`, so a node is its scalar fields and its child
mapping `FileInfos`. -/
inductive fileInfo where
  | mk (fields : fileFields) (FileInfos : List (String × fileInfo)) : fileInfo
deriving Repr

/-- Scalar fields of a node. -/
def fileInfo.fields : fileInfo → fileFields
  | .mk f _ => f

/-- Child mapping of a node. -/
def fileInfo.FileInfos : fileInfo → List (String × fileInfo)
  | .mk _ k => k

/-- Assignment to scalar fields of a node, the child mapping being kept. -/
def fileInfo.withFields (n : fileInfo) (f : fileFields) : fileInfo := .mk f n.FileInfos

/-- Assignment `n.FileInfos[k] = c`. -/
def fileInfo.setChild (n : fileInfo) (k : String) (c : fileInfo) : fileInfo :=
  .mk n.fields (mapSet n.FileInfos k c)

/-- Removal `delete(n.FileInfos, k)`. -/
def fileInfo.delChild (n : fileInfo) (k : String) : fileInfo :=
  .mk n.fields (mapDel n.FileInfos k)

/-- Modelled from the spec: the type of the values of `filePtr.MD5Files`, declared outside
`handler.go`, the spec's ContentStoreEntry: "holds total byte size and an ordered list of
at least one physical file path (the first entry is the canonical physical copy)". The
handlers read `Size`, `Ptr[0]` (the source of physical copies) and `File`. -/
structure md5File where
  File : String
  Size : Int
  Ptr : List String
deriving DecidableEq, Repr

/-- Modelled from the spec: the state behind the global `filePtr`, declared outside
`handler.go`: the root of the Virtual Tree and the Content Store Index `MD5Files`. The lock
`filePtr.mtx` serialises the handlers and is not represented. -/
structure fileHandle where
  root : fileInfo
  MD5Files : List (String × md5File)
deriving Repr

/-- Modelled from the spec: the global `config`, declared outside `handler.go`: "one
boolean controlling whether identical content gets an independent physical copy per virtual
file or a single shared physical copy". -/
structure Config where
  SaveFileMultiple : Bool

/-- Outcome of the external collaborators during one request: the clock `nowFormat()`, and
the error (if any) of `CopyFile`, of `r.FormFile("file")` and of `WriteFile`. -/
structure Env where
  now : String
  copyErr : Option String
  formErr : Option String
  writeErr : Option String

/-- Calls to the file primitives made by a handler, in order: `CopyFile(src, dst)`;
`WriteFile(makeFilePart(absPath, current), ..)`, the part-file being named by the pair it is
derived from; the concatenation of the part-files by `mergeUpload`; their removal by
`clearUpload`. -/
inductive Effect where
  | copyFile (src dst : String)
  | writePart (absPath current : String)
  | mergeParts (absPath : String) (parts : List String)
  | removeParts (absPath : String) (parts : List String)
deriving DecidableEq, Repr

/-- What one handler call leaves behind: the state, the envelopes encoded to the response
writer in order, the file primitives called, and whether the call stopped on a run-time
error before responding. -/
structure Result (ρ : Type) where
  st : fileHandle
  out : List ρ
  io : List Effect
  crashed : Bool
deriving Repr

/-! ## Helpers that live outside `handler.go` -/

/-- Model of `filepath.Join` on two elements: an empty element is ignored, the others are
joined by the separator (cleaning of the result is not represented). -/
def filepathJoin (a b : String) : String :=
  if a = "" then b else if b = "" then a else a ++ "/" ++ b

/-- Splitting of a slash-delimited path, on the characters read so far (`cur`, reversed). -/
def splitAux : List Char → List Char → List String
  | [], cur => if cur = [] then [] else [String.mk cur.reverse]
  | c :: cs, cur =>
    if c = '/' then
      (if cur = [] then splitAux cs [] else String.mk cur.reverse :: splitAux cs [])
    else splitAux cs (c :: cur)

/-- Modelled from the spec: the first step of `findPath`, which is not in `handler.go`:
"splits the slash-delimited virtual path into segments"; empty segments are dropped. -/
def splitPath (p : String) : List String := splitAux p.toList []

/-- Modelled from the spec: the node `findPath` creates for a missing segment, "a new
DirectoryNode with physical path = parent's physical path joined with the segment name";
its `Path` is the virtual path of its parent, as in the records built by the handlers. -/
def newDir (parent : fileInfo) (seg : String) : fileInfo :=
  .mk { Path := filepathJoin parent.fields.Path parent.fields.Name, Name := seg,
        AbsPath := filepathJoin parent.fields.AbsPath seg, IsDir := true } []

/-- Modelled from the spec: the walk of `findPath`, which is not in `handler.go`. "At each
segment: if a child of that name exists and is a directory, descend; if it exists and is a
file, fail with a Conflict error; if it does not exist, then when autoCreate is true, create
a new DirectoryNode, register it, and descend; when autoCreate is false, fail with
NotFound." Returns the tree after the walk and the node reached. -/
def walk (create : Bool) : List String → fileInfo → Except String (fileInfo × fileInfo)
  | [], n => .ok (n, n)
  | s :: rest, n =>
    match mapGet n.FileInfos s with
    | some c =>
      if c.fields.IsDir then
        match walk create rest c with
        | .ok (c1, d) => .ok (n.setChild s c1, d)
        | .error e => .error e
      else .error "conflict"
    | none =>
      if create then
        match walk create rest (newDir n s) with
        | .ok (c1, d) => .ok (n.setChild s c1, d)
        | .error e => .error e
      else .error "not found"

/-- Modelled from the spec: `filePtr.findPath(path, autoCreate)`, which is not in
`handler.go`. Returns the state after the call, the pointer to the node (its address) and
the node itself. -/
def findPath (filePtr : fileHandle) (path : String) (create : Bool) :
    Except String (fileHandle × List String × fileInfo) :=
  match walk create (splitPath path) filePtr.root with
  | .ok (root1, d) => .ok ({ filePtr with root := root1 }, splitPath path, d)
  | .error e => .error e

/-- Read through a node pointer: the node at an address, descending through directories. -/
def getNode : List String → fileInfo → Option fileInfo
  | [], n => some n
  | s :: rest, n =>
    match mapGet n.FileInfos s with
    | some c => if c.fields.IsDir then getNode rest c else none
    | none => none

/-- Write through a node pointer: `f` is applied to the node at the address; a pointer whose
node is no longer in the tree writes nothing that the tree can see. -/
def modifyAt (f : fileInfo → fileInfo) : List String → fileInfo → fileInfo
  | [], n => f n
  | s :: rest, n =>
    match mapGet n.FileInfos s with
    | some c => if c.fields.IsDir then n.setChild s (modifyAt f rest c) else n
    | none => n

/-- Address `b` lies at or below the child named `k` of the node at address `a`: a write to
`a.FileInfos[k]` replaces or removes what `b` points into. -/
def passesThrough : List String → String → List String → Bool
  | [], _, [] => false
  | [], k, b :: _ => decide (b = k)
  | _ :: _, _, [] => false
  | a :: as, k, b :: bs => decide (a = b) && passesThrough as k bs

/-- Assignment `info.FileInfos[k] = c` through the pointer `info`. -/
def setChildAt (root : fileInfo) (info : List String) (k : String) (c : fileInfo) : fileInfo :=
  modifyAt (fun n => n.setChild k c) info root

/-- Modelled from the spec: `filePtr.addMD5File(md5, info)`, which is not in `handler.go`,
the spec's register(hash, physicalPath, size): "if the hash is unknown, create a new entry
with that single physical path; if known, append physicalPath to its path list", the entry
staying "at one physical path when the storage mode keeps a single shared physical copy". -/
def addMD5File (config : Config) (m : List (String × md5File)) (md5 : String)
    (info : fileFields) : List (String × md5File) :=
  match mapGet m md5 with
  | none => mapSet m md5 { File := info.AbsPath, Size := info.FileSize, Ptr := [info.AbsPath] }
  | some e =>
    if config.SaveFileMultiple then mapSet m md5 { e with Ptr := e.Ptr ++ [info.AbsPath] }
    else m

/-- Modelled from the spec: `file.mergeUpload()`, which is not in `handler.go`. "When the
count of received chunk indices equals the UploadState's total expected chunk count,
concatenate the part-files into the final physical file, set FileOk=true, stamp completion
time, clear UploadState to nil, and register the hash in the Content Store Index with this
physical path; merges before all chunks arrive are a no-op." The record takes the hash and
the size of the UploadState (the spec's scenario lists size 300 after the merge). The
part-files of the recorded merge are listed in the order in which their indices were
received; their ordering by chunk index and the verification of the result are not
represented. -/
def mergeUpload (config : Config) (now : String) (m : List (String × md5File))
    (file : fileInfo) : fileInfo × List (String × md5File) × List Effect :=
  match file.fields.Upload with
  | none => (file, m, [])
  | some u =>
    if (u.UpSlice.length : Int) = u.SliceCnt then
      let fields : fileFields :=
        { file.fields with
          FileMD5 := u.MD5, FileOk := true, FileSize := u.Size, FileDate := now, Upload := none }
      (file.withFields fields, addMD5File config m u.MD5 fields,
        [Effect.mergeParts file.fields.AbsPath (mapKeys u.UpSlice)])
    else (file, m, [])

/-- Modelled from the spec: `file.clearUpload()`, which is not in `handler.go`: "delete any
on-disk part-files for the existing UploadState and drop it". -/
def clearUpload (file : fileInfo) : fileInfo × List Effect :=
  match file.fields.Upload with
  | none => (file, [])
  | some u =>
    (file.withFields { file.fields with Upload := none },
      [Effect.removeParts file.fields.AbsPath (mapKeys u.UpSlice)])

/-- Modelled from the spec: `filePtr.remove(info, filename)`, which is not in `handler.go`:
"remove the named FileRecord (file or empty directory) from its parent's mapping"; it fails
when the name is absent, and a directory that still has children is not removed. -/
def remove (info : fileInfo) (filename : String) : Except String fileInfo :=
  match mapGet info.FileInfos filename with
  | none => .error "not found"
  | some c =>
    if c.fields.IsDir && !c.FileInfos.isEmpty then .error "directory not empty"
    else .ok (info.delChild filename)

/-! ## Responses -/

/-- Envelope `resultCode`. -/
structure resultCode where
  Ok : Bool
  Message : String
deriving DecidableEq, Repr

/-- The envelope `respResult` encodes: `Ok` is set exactly when the message is empty. -/
def respResult (message : String) : resultCode :=
  { Ok := decide (message = ""), Message := message }

/-- One entry of a listing, `item`. -/
structure item where
  Filename : String
  IsDir : Bool
  Size : Int
  Date : String
deriving DecidableEq, Repr

/-- Listing response `fileListResp`; the disk statistics and the path separator come from
external collaborators and are left out, `Total` is never assigned by the handler. -/
structure fileListResp where
  Ok : Bool
  Total : Int
  Count : Int
  Items : Option (List (String × item))
deriving DecidableEq, Repr

/-- The response `respFileList` encodes. -/
def respFileList (ok : Bool) (count : Int) (data : Option (List (String × item))) :
    fileListResp :=
  if ok then { Ok := true, Total := 0, Count := count, Items := data }
  else { Ok := false, Total := 0, Count := 0, Items := none }

/-- Request of the pre-upload check, `fileCheckReq`. -/
structure fileCheckReq where
  Path : String
  Filename : String
  MD5 : String
  Total : Int
  Size : Int
deriving DecidableEq, Repr

/-- Response of the pre-upload check, `fileCheckResp`; `Upload` is `none` for a nil map. -/
structure fileCheckResp where
  Ok : Bool
  Message : String
  Need : Bool
  Upload : Option (List (String × String))
deriving DecidableEq, Repr

/-- The response `respFileCheck` encodes. -/
def respFileCheck (err : Option String) (need : Bool) (up : Option (List (String × String))) :
    fileCheckResp :=
  match err with
  | some e => { Ok := false, Message := e, Need := false, Upload := none }
  | none => { Ok := true, Message := "", Need := need, Upload := up }

/-- Form values of a chunk request read by `fileUpload`. -/
structure fileUploadReq where
  path : String
  filename : String
  md5 : String
  current : String
deriving DecidableEq, Repr

/-- Query values read by `fileAction`. -/
structure fileActionReq where
  action : String
  filename : String
  src : String
  dest : String
deriving DecidableEq, Repr

/-! ## Handlers -/

/-- Handler `fileList` (handler.go 72-99). -/
def fileList (filePtr : fileHandle) (filePath : String) : Result fileListResp :=
  match findPath filePtr filePath false with
  | .error _ => ⟨filePtr, [respFileList false 0 none], [], false⟩
  | .ok (fp1, _, info) =>
    let data : List (String × item) :=
      info.FileInfos.foldl
        (fun data kv =>
          if kv.2.fields.IsDir || kv.2.fields.FileOk then
            mapSet data kv.2.fields.Name
              { Filename := kv.2.fields.Name, IsDir := kv.2.fields.IsDir,
                Size := kv.2.fields.FileSize, Date := kv.2.fields.FileDate }
          else data)
        []
    ⟨fp1, [respFileList true data.length (some data)], [], false⟩

/-- Removal `filePtr.remove(info, filename)` through the pointer `info`, the error being
returned and the tree kept as it is when the removal fails. -/
def removeAt (root : fileInfo) (info : List String) (filename : String) :
    Except String fileInfo :=
  match getNode info root with
  | none => .error "not found"
  | some n =>
    match remove n filename with
    | .ok n1 => .ok (modifyAt (fun _ => n1) info root)
    | .error e => .error e

/-- Handler `fileDelete` (handler.go 108-136). -/
def fileDelete (filePtr : fileHandle) (filePath filename : String) : Result resultCode :=
  if filename = "" then ⟨filePtr, [respResult "请求参数错误!"], [], false⟩
  else
    match findPath filePtr filePath false with
    | .error _ => ⟨filePtr, [respResult "文件不存在!"], [], false⟩
    | .ok (fp1, info, _) =>
      match removeAt fp1.root info filename with
      | .error _ => ⟨fp1, [respResult "文件不存在!"], [], false⟩
      | .ok root1 => ⟨{ fp1 with root := root1 }, [respResult ""], [], false⟩

/-- Handler `fileMkdir` (handler.go 144-163). -/
def fileMkdir (filePtr : fileHandle) (filePath : String) : Result resultCode :=
  if filePath = "" then ⟨filePtr, [respResult "请求参数错误!"], [], false⟩
  else
    match findPath filePtr filePath false with
    | .error _ => ⟨filePtr, [respResult "文件夹名错误，可能与文件名相同"], [], false⟩
    | .ok (fp1, _, _) => ⟨fp1, [respResult ""], [], false⟩

/-- Outcome of the guarded block `if config.SaveFileMultiple ( CopyFile(files.Ptr[0], dst) )`
shared by `fileCheck` (234-241) and `fileAction` (471-478). -/
inductive CopyStep where
  | done (io : List Effect)
  | failed (err : String) (io : List Effect)
  | nilDeref
deriving DecidableEq, Repr

/-- The guarded physical copy: nothing is read or copied when copies are shared; otherwise
`files.Ptr[0]` is read, which stops the handler when `files` is nil or `Ptr` is empty, and
`CopyFile` is called. -/
def copyIfMultiple (config : Config) (env : Env) (files : Option md5File) (dst : String) :
    CopyStep :=
  if config.SaveFileMultiple then
    match files with
    | none => .nilDeref
    | some fs =>
      match fs.Ptr.head? with
      | none => .nilDeref
      | some src =>
        match env.copyErr with
        | some err => .failed err [Effect.copyFile src dst]
        | none => .done [Effect.copyFile src dst]
  else .done []

/-- Handler `fileCheck` (handler.go 197-294). -/
def fileCheck (config : Config) (env : Env) (filePtr : fileHandle) (req : fileCheckReq) :
    Result fileCheckResp :=
  if req.Path = "" ∨ req.Filename = "" ∨ req.MD5 = "" ∨ req.Size = 0 ∨ req.Total = 0 then
    ⟨filePtr, [respFileCheck (some "参数请求错误！") false none], [], false⟩
  else
    match findPath filePtr req.Path true with
    | .error err => ⟨filePtr, [respFileCheck (some err) false none], [], false⟩
    | .ok (fp1, info, dir) =>
      let up : upload :=
        { Size := req.Size, MD5 := req.MD5, SliceCnt := req.Total, UpSlice := [] }
      let absPath := filepathJoin dir.fields.AbsPath req.Filename
      match mapGet dir.FileInfos req.Filename with
      | none =>
        let newInfo : fileFields :=
          { Path := filepathJoin dir.fields.Path dir.fields.Name, Name := req.Filename,
            AbsPath := absPath, FileMD5 := req.MD5 }
        match mapGet fp1.MD5Files req.MD5 with
        | some files =>
          match copyIfMultiple config env (some files) absPath with
          | .nilDeref => ⟨fp1, [], [], true⟩
          | .failed err io => ⟨fp1, [respFileCheck (some err) false none], io, false⟩
          | .done io =>
            let newInfo : fileFields :=
              { newInfo with FileOk := true, FileSize := files.Size, FileDate := env.now }
            ⟨{ root := setChildAt fp1.root info newInfo.Name (.mk newInfo []),
               MD5Files := addMD5File config fp1.MD5Files newInfo.FileMD5 newInfo },
             [respFileCheck none false none], io, false⟩
        | none =>
          let newInfo : fileFields := { newInfo with Upload := some up }
          ⟨{ fp1 with root := setChildAt fp1.root info newInfo.Name (.mk newInfo []) },
           [respFileCheck none true none], [], false⟩
      | some file =>
        if file.fields.IsDir then
          ⟨fp1, [respFileCheck (some "已存在同名文件夹") false none], [], false⟩
        else if file.fields.FileMD5 ≠ req.MD5 then
          match file.fields.Upload with
          | none =>
            let file1 := file.withFields { file.fields with Upload := some up }
            ⟨{ fp1 with root := setChildAt fp1.root info req.Filename file1 },
             [respFileCheck none true none], [], false⟩
          | some u =>
            if u.MD5 = req.MD5 then
              match mergeUpload config env.now fp1.MD5Files file with
              | (file1, md5s, io) =>
                let st : fileHandle :=
                  { root := setChildAt fp1.root info req.Filename file1, MD5Files := md5s }
                match file1.fields.Upload with
                | none => ⟨st, [], io, true⟩
                | some u1 => ⟨st, [respFileCheck none true (some u1.UpSlice)], io, false⟩
            else
              match clearUpload file with
              | (file1, io) =>
                let file2 := file1.withFields { file1.fields with Upload := some up }
                ⟨{ fp1 with root := setChildAt fp1.root info req.Filename file2 },
                 [respFileCheck none true none], io, false⟩
        else
          match file.fields.Upload with
          | none => ⟨fp1, [respFileCheck none false none], [], false⟩
          | some u =>
            if u.MD5 = req.MD5 then
              ⟨fp1, [respFileCheck none true (some u.UpSlice)], [], false⟩
            else
              match clearUpload file with
              | (file1, io) =>
                let file2 := file1.withFields { file1.fields with Upload := some up }
                ⟨{ fp1 with root := setChildAt fp1.root info req.Filename file2 },
                 [respFileCheck none true none], io, false⟩

/-- The record after `file.Upload.UpSlice[current] = ""` (handler.go 357), `u` being the
UploadState the record holds. -/
def markReceived (file : fileInfo) (u : upload) (current : String) : fileInfo :=
  file.withFields
    { file.fields with Upload := some { u with UpSlice := mapSet u.UpSlice current "" } }

/-- Handler `fileUpload` (handler.go 307-361). -/
def fileUpload (config : Config) (env : Env) (filePtr : fileHandle) (req : fileUploadReq) :
    Result resultCode :=
  if req.path = "" ∨ req.filename = "" ∨ req.md5 = "" ∨ req.current = "" then
    ⟨filePtr, [respResult "参数请求错误！"], [], false⟩
  else
    match findPath filePtr req.path false with
    | .error _ => ⟨filePtr, [respResult "路径不存在"], [], false⟩
    | .ok (fp1, info, dir) =>
      match mapGet dir.FileInfos req.filename with
      | none => ⟨fp1, [respResult "上传流程错误，check！"], [], false⟩
      | some file =>
        match file.fields.Upload with
        | none => ⟨fp1, [respResult "上传流程错误，check！"], [], false⟩
        | some u =>
          if u.MD5 ≠ req.md5 then ⟨fp1, [respResult "上传流程错误，check！"], [], false⟩
          else
            match mapGet u.UpSlice req.current with
            | some _ => ⟨fp1, [respResult ""], [], false⟩
            | none =>
              match env.formErr with
              | some err => ⟨fp1, [respResult err], [], false⟩
              | none =>
                match env.writeErr with
                | some err =>
                  ⟨fp1, [respResult err],
                    [Effect.writePart file.fields.AbsPath req.current], false⟩
                | none =>
                  let file1 := markReceived file u req.current
                  match mergeUpload config env.now fp1.MD5Files file1 with
                  | (file2, md5s, io) =>
                    ⟨{ root := setChildAt fp1.root info req.filename file2, MD5Files := md5s },
                     [respResult ""],
                     Effect.writePart file.fields.AbsPath req.current :: io, false⟩

/-- Handler `fileAction` (handler.go 433-492). The mapping of `srcInfo` is read through the
pointer after the destination has been resolved, and the removal of a move goes through the
same pointer after the destination record has been installed. -/
def fileAction (config : Config) (env : Env) (filePtr : fileHandle) (req : fileActionReq) :
    Result resultCode :=
  match findPath filePtr req.src false with
  | .error err => ⟨filePtr, [respResult ("request argument failed, " ++ err)], [], false⟩
  | .ok (fp1, srcInfo, srcDir) =>
    match findPath fp1 req.dest true with
    | .error err => ⟨fp1, [respResult ("request argument failed, " ++ err)], [], false⟩
    | .ok (fp2, destInfo, destDir) =>
      match mapGet ((getNode srcInfo fp2.root).getD srcDir).FileInfos req.filename with
      | none => ⟨fp2, [respResult "request argument failed"], [], false⟩
      | some srcFile =>
        let newInfo : fileFields :=
          { Path := filepathJoin destDir.fields.Path destDir.fields.Name,
            Name := req.filename,
            AbsPath := filepathJoin destDir.fields.AbsPath req.filename,
            FileMD5 := srcFile.fields.FileMD5, FileOk := true,
            FileSize := srcFile.fields.FileSize, FileDate := env.now }
        match copyIfMultiple config env (mapGet fp2.MD5Files srcFile.fields.FileMD5)
            newInfo.AbsPath with
        | .nilDeref => ⟨fp2, [], [], true⟩
        | .failed err io => ⟨fp2, [respResult ("copy file failed, " ++ err)], io, false⟩
        | .done io =>
          let root3 := setChildAt fp2.root destInfo newInfo.Name (.mk newInfo [])
          let md5s := addMD5File config fp2.MD5Files newInfo.FileMD5 newInfo
          if req.action = "move" then
            match removeAt root3 srcInfo req.filename with
            | .ok root4 => ⟨{ root := root4, MD5Files := md5s }, [respResult ""], io, false⟩
            | .error _ => ⟨{ root := root3, MD5Files := md5s }, [respResult ""], io, false⟩
          else if req.action = "copy" then
            ⟨{ root := root3, MD5Files := md5s }, [respResult ""], io, false⟩
          else
            ⟨{ root := root3, MD5Files := md5s },
             [respResult "request argument failed", respResult ""], io, false⟩

/-- Successive chunk submissions for one file: `fileUpload` is called for each chunk index
in turn, each call starting from the state the previous call left. -/
def ingestAll (config : Config) (env : Env) (path filename md5 : String) :
    fileHandle → List String → fileHandle
  | filePtr, [] => filePtr
  | filePtr, c :: cs =>
    ingestAll config env path filename md5
      (fileUpload config env filePtr
        { path := path, filename := filename, md5 := md5, current := c }).st cs

/-! ## Reachable states and record invariants -/

/-- Every record below a node (its children, their children, and so on) has scalar fields
satisfying `P`. -/
inductive AllRecs (P : fileFields → Prop) : fileInfo → Prop
  | mk (f : fileFields) (kids : List (String × fileInfo)) :
      (∀ kv ∈ kids, P kv.2.fields) → (∀ kv ∈ kids, AllRecs P kv.2) → AllRecs P (.mk f kids)

/-- A record with FileOk = true has a content hash that is a key of the index `m`. -/
def hashKnown (m : List (String × md5File)) (r : fileFields) : Prop :=
  r.FileOk = true → r.FileMD5 ∈ mapKeys m

/-- A non-directory record has FileOk = true or a non-nil UploadState. -/
def settled (_m : List (String × md5File)) (r : fileFields) : Prop :=
  r.IsDir = false → r.FileOk = true ∨ r.Upload ≠ none

/-- An UploadState of a record is open: its chunk count is not zero, its received indices
are distinct non-empty strings, and their number differs from the chunk count. -/
def openUpload (_m : List (String × md5File)) (r : fileFields) : Prop :=
  ∀ u, r.Upload = some u →
    u.SliceCnt ≠ 0 ∧ (u.UpSlice.length : Int) ≠ u.SliceCnt
      ∧ (mapKeys u.UpSlice).Nodup ∧ ∀ k ∈ mapKeys u.UpSlice, k ≠ ""

/-- What the handlers need of a property of records, relative to the index, to keep it true
of every record of the tree. It survives the growth of the index, the attachment of a fresh
UploadState (empty received set, non-zero chunk count) and the marking of a new non-empty
chunk index that does not fill the received set; and it holds of a record with FileOk = true,
no UploadState and a hash that is an index key, of a record with FileOk = false that has a
fresh UploadState, and of a directory record without UploadState. -/
structure RecordInvariant (P : List (String × md5File) → fileFields → Prop) : Prop where
  mono : ∀ m m1 r, (∀ k, k ∈ mapKeys m → k ∈ mapKeys m1) → P m r → P m1 r
  complete : ∀ m r, r.FileOk = true → r.Upload = none → r.FileMD5 ∈ mapKeys m → P m r
  pending : ∀ m r u, r.FileOk = false → r.Upload = some u → u.UpSlice = [] →
    u.SliceCnt ≠ 0 → P m r
  attach : ∀ m r u, u.UpSlice = [] → u.SliceCnt ≠ 0 → P m r → P m { r with Upload := some u }
  mark : ∀ m r u c, r.Upload = some u → c ≠ "" → mapGet u.UpSlice c = none →
    ((mapSet u.UpSlice c "").length : Int) ≠ u.SliceCnt → P m r →
    P m { r with Upload := some { u with UpSlice := mapSet u.UpSlice c "" } }
  directory : ∀ m r, r.FileOk = false → r.IsDir = true → r.Upload = none → P m r

/-- Every record of the tree of a state satisfies `P`, relative to the index of the state. -/
def TreeInv (P : List (String × md5File) → fileFields → Prop) (st : fileHandle) : Prop :=
  AllRecs (P st.MD5Files) st.root

/-- States reachable from the empty tree (a root without children, an empty index) through
the handlers, under one process configuration. -/
inductive Reachable (config : Config) : fileHandle → Prop
  | empty (f : fileFields) : Reachable config ⟨.mk f [], []⟩
  | list (st : fileHandle) (filePath : String) :
      Reachable config st → Reachable config (fileList st filePath).st
  | delete (st : fileHandle) (filePath filename : String) :
      Reachable config st → Reachable config (fileDelete st filePath filename).st
  | mkdir (st : fileHandle) (filePath : String) :
      Reachable config st → Reachable config (fileMkdir st filePath).st
  | check (st : fileHandle) (env : Env) (req : fileCheckReq) :
      Reachable config st → Reachable config (fileCheck config env st req).st
  | upload (st : fileHandle) (env : Env) (req : fileUploadReq) :
      Reachable config st → Reachable config (fileUpload config env st req).st
  | action (st : fileHandle) (env : Env) (req : fileActionReq) :
      Reachable config st → Reachable config (fileAction config env st req).st

/-! ## Example states -/

/-- Example directory `/docs`: a finished file `a.txt`, a pending upload `b.bin` with chunks
0 and 2 of 4 received, and a subdirectory `sub`. -/
def exDocs : fileInfo :=
  .mk { Path := "", Name := "docs", AbsPath := "/data/docs", IsDir := true }
    [("a.txt", .mk { Path := "docs", Name := "a.txt", AbsPath := "/data/docs/a.txt",
                     FileMD5 := "h1", FileOk := true, FileSize := 10, FileDate := "t0" } []),
     ("b.bin", .mk { Path := "docs", Name := "b.bin", AbsPath := "/data/docs/b.bin",
                     FileMD5 := "h2",
                     Upload := some { Size := 40, MD5 := "h2", SliceCnt := 4,
                                      UpSlice := [("0", ""), ("2", "")] } } []),
     ("sub", .mk { Path := "docs", Name := "sub", AbsPath := "/data/docs/sub",
                   IsDir := true } [])]

/-- Example state: a root holding `/docs`, and the index entry of `a.txt`. -/
def exState : fileHandle :=
  { root := .mk { AbsPath := "/data", IsDir := true } [("docs", exDocs)],
    MD5Files := [("h1", { File := "/data/docs/a.txt", Size := 10, Ptr := ["/data/docs/a.txt"] })] }

/-- Example state: the empty tree and the empty index. -/
def exEmpty : fileHandle :=
  { root := .mk { AbsPath := "/data", IsDir := true } [], MD5Files := [] }

/-- Example environment: every external call succeeds, the clock reads `t1`. -/
def exEnv : Env := { now := "t1", copyErr := none, formErr := none, writeErr := none }

/-- Example state: on the empty tree, a pre-upload check of `/docs/a.txt` (hash `deadbeef`,
1 chunk) followed by the ingestion of its chunk 0: `a.txt` is Complete. -/
def exUploaded : fileHandle :=
  (fileUpload { SaveFileMultiple := false } exEnv
    (fileCheck { SaveFileMultiple := false } exEnv exEmpty
      { Path := "/docs", Filename := "a.txt", MD5 := "deadbeef", Total := 1, Size := 10 }).st
    { path := "/docs", filename := "a.txt", md5 := "deadbeef", current := "0" }).st

/-- Example state: on the empty tree, a pre-upload check of `/docs/b.bin` (hash `h2`,
4 chunks) followed by the ingestion of its chunks 0 and 2. -/
def exResume : fileHandle :=
  (fileUpload { SaveFileMultiple := false } exEnv
    (fileUpload { SaveFileMultiple := false } exEnv
      (fileCheck { SaveFileMultiple := false } exEnv exEmpty
        { Path := "/docs", Filename := "b.bin", MD5 := "h2", Total := 4, Size := 40 }).st
      { path := "/docs", filename := "b.bin", md5 := "h2", current := "0" }).st
    { path := "/docs", filename := "b.bin", md5 := "h2", current := "2" }).st

/-- Example state: after `exUploaded`, a pre-upload check of `/docs/a.txt` declaring the
other hash `cafe` (2 chunks) followed by the ingestion of chunk 1 of the new content: the
record's stored hash is still `deadbeef`, its UploadState targets `cafe`. -/
def exChanged : fileHandle :=
  (fileUpload { SaveFileMultiple := false } exEnv
    (fileCheck { SaveFileMultiple := false } exEnv exUploaded
      { Path := "/docs", Filename := "a.txt", MD5 := "cafe", Total := 2, Size := 20 }).st
    { path := "/docs", filename := "a.txt", md5 := "cafe", current := "1" }).st

/-- Example state: in shared-copy mode, on the empty tree, a pre-upload check of
`/docs/a.txt` (hash `deadbeef`, 3 chunks, none of which is ever sent) followed by a copy of
`a.txt` from `/docs` to `/x`. -/
def exCopied : fileHandle :=
  (fileAction { SaveFileMultiple := false } exEnv
    (fileCheck { SaveFileMultiple := false } exEnv exEmpty
      { Path := "/docs", Filename := "a.txt", MD5 := "deadbeef", Total := 3, Size := 300 }).st
    { action := "copy", filename := "a.txt", src := "/docs", dest := "/x" }).st

/-! ## Go maps: lemmas -/

theorem mapGet_eq_none_iff {α : Type} (m : List (String × α)) (k : String) :
    mapGet m k = none ↔ k ∉ mapKeys m := by
  induction m with
  | nil => simp [mapGet, mapKeys]
  | cons h t ih =>
    obtain ⟨a, v⟩ := h
    by_cases hak : a = k
    · simp [mapGet, mapKeys, hak]
    · have hka : ¬ k = a := fun h => hak h.symm
      simpa [mapGet, mapKeys, hak, hka] using ih

theorem mapGet_mapSet_self {α : Type} (m : List (String × α)) (k : String) (v : α) :
    mapGet (mapSet m k v) k = some v := by
  induction m with
  | nil => simp [mapGet, mapSet]
  | cons h t ih =>
    obtain ⟨a, b⟩ := h
    by_cases hak : a = k
    · simp [mapGet, mapSet, hak]
    · simp [mapGet, mapSet, hak, ih]

theorem mapGet_mapSet_ne {α : Type} (m : List (String × α)) (k k1 : String) (v : α)
    (h : k1 ≠ k) : mapGet (mapSet m k v) k1 = mapGet m k1 := by
  induction m with
  | nil =>
    have hk : ¬ k = k1 := fun e => h e.symm
    simp [mapGet, mapSet, hk]
  | cons hd t ih =>
    obtain ⟨a, b⟩ := hd
    by_cases hak : a = k
    · have hk : ¬ k = k1 := fun e => h e.symm
      subst hak
      simp [mapGet, mapSet, hk]
    · by_cases hak1 : a = k1
      · subst hak1
        simp [mapGet, mapSet, hak]
      · simp [mapGet, mapSet, hak, hak1, ih]

theorem mapSet_of_mapGet {α : Type} (m : List (String × α)) (k : String) (v : α)
    (h : mapGet m k = some v) : mapSet m k v = m := by
  induction m with
  | nil => simp [mapGet] at h
  | cons hd t ih =>
    obtain ⟨a, b⟩ := hd
    by_cases hak : a = k
    · simp [mapGet, hak] at h
      simp [mapSet, hak, h]
    · simp [mapGet, hak] at h
      simp [mapSet, hak, ih h]

theorem mapSet_of_not_mem {α : Type} (m : List (String × α)) (k : String) (v : α)
    (h : k ∉ mapKeys m) : mapSet m k v = m ++ [(k, v)] := by
  induction m with
  | nil => simp [mapSet]
  | cons hd t ih =>
    obtain ⟨a, b⟩ := hd
    simp only [mapKeys, List.map_cons, List.mem_cons, not_or] at h
    have hak : ¬ a = k := fun e => h.1 e.symm
    simp [mapSet, hak, ih h.2]

theorem mapSet_mapSet {α : Type} (m : List (String × α)) (k : String) (v w : α) :
    mapSet (mapSet m k v) k w = mapSet m k w := by
  induction m with
  | nil => simp [mapSet]
  | cons hd t ih =>
    obtain ⟨a, b⟩ := hd
    by_cases hak : a = k
    · simp [mapSet, hak]
    · simp [mapSet, hak, ih]

theorem mapGet_mapDel_self {α : Type} (m : List (String × α)) (k : String) :
    mapGet (mapDel m k) k = none := by
  induction m with
  | nil => simp [mapGet, mapDel]
  | cons hd t ih =>
    obtain ⟨a, b⟩ := hd
    by_cases hak : a = k
    · simp [mapDel, hak, ih]
    · simp [mapGet, mapDel, hak, ih]

theorem mapGet_mapDel_ne {α : Type} (m : List (String × α)) (k k1 : String) (h : k1 ≠ k) :
    mapGet (mapDel m k) k1 = mapGet m k1 := by
  induction m with
  | nil => simp [mapGet, mapDel]
  | cons hd t ih =>
    obtain ⟨a, b⟩ := hd
    by_cases hak : a = k
    · subst hak
      have hak1 : ¬ a = k1 := fun e => h e.symm
      simp [mapGet, mapDel, hak1, ih]
    · by_cases hak1 : a = k1
      · subst hak1
        simp [mapGet, mapDel, hak]
      · simp [mapGet, mapDel, hak, hak1, ih]

theorem mapKeys_mapSet_of_mem {α : Type} (m : List (String × α)) (k : String) (v : α)
    (h : k ∈ mapKeys m) : mapKeys (mapSet m k v) = mapKeys m := by
  induction m with
  | nil => simp [mapKeys] at h
  | cons hd t ih =>
    obtain ⟨a, b⟩ := hd
    by_cases hak : a = k
    · simp [mapSet, mapKeys, hak]
    · have hka : ¬ k = a := fun e => hak e.symm
      simp only [mapKeys, List.map_cons, List.mem_cons, hka, false_or] at h
      have := ih h
      simp only [mapKeys] at this
      simp [mapSet, mapKeys, hak, this]

/-! ## The virtual tree: lemmas -/

@[simp] theorem fields_mk (f : fileFields) (k : List (String × fileInfo)) :
    (fileInfo.mk f k).fields = f := rfl

@[simp] theorem FileInfos_mk (f : fileFields) (k : List (String × fileInfo)) :
    (fileInfo.mk f k).FileInfos = k := rfl

@[simp] theorem fields_setChild (n : fileInfo) (k : String) (c : fileInfo) :
    (n.setChild k c).fields = n.fields := rfl

@[simp] theorem FileInfos_setChild (n : fileInfo) (k : String) (c : fileInfo) :
    (n.setChild k c).FileInfos = mapSet n.FileInfos k c := rfl

@[simp] theorem fields_delChild (n : fileInfo) (k : String) :
    (n.delChild k).fields = n.fields := rfl

@[simp] theorem FileInfos_delChild (n : fileInfo) (k : String) :
    (n.delChild k).FileInfos = mapDel n.FileInfos k := rfl

@[simp] theorem fields_withFields (n : fileInfo) (f : fileFields) :
    (n.withFields f).fields = f := rfl

@[simp] theorem FileInfos_withFields (n : fileInfo) (f : fileFields) :
    (n.withFields f).FileInfos = n.FileInfos := rfl

theorem fileInfo_eta (n : fileInfo) : fileInfo.mk n.fields n.FileInfos = n := by
  cases n; rfl

theorem setChild_of_mapGet (n : fileInfo) (k : String) (c : fileInfo)
    (h : mapGet n.FileInfos k = some c) : n.setChild k c = n := by
  cases n with
  | mk f kids =>
    simp only [fileInfo.setChild, fields_mk, FileInfos_mk] at h ⊢
    rw [mapSet_of_mapGet kids k c h]

/-- A walk hands back a tree in which its address resolves to the node it reached. -/
theorem walk_getNode (create : Bool) (segs : List String) :
    ∀ (n n1 d : fileInfo), walk create segs n = .ok (n1, d) →
      getNode segs n1 = some d ∧ n1.fields = n.fields := by
  induction segs with
  | nil =>
    intro n n1 d h
    simp only [walk, Except.ok.injEq, Prod.mk.injEq] at h
    obtain ⟨h1, h2⟩ := h
    subst h1; subst h2
    simp [getNode]
  | cons s rest ih =>
    intro n n1 d h
    simp only [walk] at h
    cases hc : mapGet n.FileInfos s with
    | some c =>
      simp only [hc] at h
      by_cases hd : c.fields.IsDir = true
      · simp only [hd, if_true] at h
        cases hw : walk create rest c with
        | error e => simp [hw] at h
        | ok p =>
          obtain ⟨c1, d1⟩ := p
          simp only [hw, Except.ok.injEq, Prod.mk.injEq] at h
          obtain ⟨h1, h2⟩ := h
          subst h1; subst h2
          obtain ⟨ihg, ihf⟩ := ih c c1 d1 hw
          simp [getNode, mapGet_mapSet_self, ihf, hd, ihg]
      · simp [hd] at h
    | none =>
      simp only [hc] at h
      cases create with
      | false => simp at h
      | true =>
        simp only [if_true] at h
        cases hw : walk true rest (newDir n s) with
        | error e => simp [hw] at h
        | ok p =>
          obtain ⟨c1, d1⟩ := p
          simp only [hw, Except.ok.injEq, Prod.mk.injEq] at h
          obtain ⟨h1, h2⟩ := h
          subst h1; subst h2
          obtain ⟨ihg, ihf⟩ := ih (newDir n s) c1 d1 hw
          simp [getNode, mapGet_mapSet_self, ihf, newDir, ihg]

/-- A walk over an address that resolves changes nothing and reaches the resolved node. -/
theorem walk_of_getNode (create : Bool) (segs : List String) :
    ∀ (n d : fileInfo), getNode segs n = some d → walk create segs n = .ok (n, d) := by
  induction segs with
  | nil =>
    intro n d h
    simp only [getNode, Option.some.injEq] at h
    subst h
    simp [walk]
  | cons s rest ih =>
    intro n d h
    simp only [getNode] at h
    cases hc : mapGet n.FileInfos s with
    | none => simp [hc] at h
    | some c =>
      simp only [hc] at h
      by_cases hd : c.fields.IsDir = true
      · simp only [hd, if_true] at h
        simp [walk, hc, hd, ih c d h, setChild_of_mapGet n s c hc]
      · simp [hd] at h

/-- A walk without auto-create leaves the tree as it is. -/
theorem walk_false (segs : List String) :
    ∀ (n n1 d : fileInfo), walk false segs n = .ok (n1, d) →
      n1 = n ∧ getNode segs n = some d := by
  induction segs with
  | nil =>
    intro n n1 d h
    simp only [walk, Except.ok.injEq, Prod.mk.injEq] at h
    obtain ⟨h1, h2⟩ := h
    subst h1; subst h2
    simp [getNode]
  | cons s rest ih =>
    intro n n1 d h
    simp only [walk] at h
    cases hc : mapGet n.FileInfos s with
    | none => simp [hc] at h
    | some c =>
      simp only [hc] at h
      by_cases hd : c.fields.IsDir = true
      · simp only [hd, if_true] at h
        cases hw : walk false rest c with
        | error e => simp [hw] at h
        | ok p =>
          obtain ⟨c1, d1⟩ := p
          simp only [hw, Except.ok.injEq, Prod.mk.injEq] at h
          obtain ⟨h1, h2⟩ := h
          subst h1; subst h2
          obtain ⟨ih1, ih2⟩ := ih c c1 d1 hw
          subst ih1
          exact ⟨setChild_of_mapGet n s c1 hc, by simp [getNode, hc, hd, ih2]⟩
      · simp [hd] at h

/-- Resolution without auto-create: the state is unchanged and the address resolves. -/
theorem findPath_false (filePtr fp1 : fileHandle) (path : String) (info : List String)
    (dir : fileInfo) (h : findPath filePtr path false = .ok (fp1, info, dir)) :
    fp1 = filePtr ∧ info = splitPath path ∧ getNode info filePtr.root = some dir := by
  simp only [findPath] at h
  cases hw : walk false (splitPath path) filePtr.root with
  | error e => simp [hw] at h
  | ok p =>
    obtain ⟨r1, d1⟩ := p
    simp only [hw, Except.ok.injEq, Prod.mk.injEq] at h
    obtain ⟨h1, h2, h3⟩ := h
    obtain ⟨hr, hg⟩ := walk_false _ _ _ _ hw
    subst h1; subst h2; subst h3; subst hr
    exact ⟨rfl, rfl, hg⟩

/-- Resolution with or without auto-create: the index is untouched and the address returned
resolves, in the tree returned, to the node returned. -/
theorem findPath_ok (create : Bool) (filePtr fp1 : fileHandle) (path : String)
    (info : List String) (dir : fileInfo)
    (h : findPath filePtr path create = .ok (fp1, info, dir)) :
    fp1.MD5Files = filePtr.MD5Files ∧ info = splitPath path ∧
      getNode info fp1.root = some dir := by
  simp only [findPath] at h
  cases hw : walk create (splitPath path) filePtr.root with
  | error e => simp [hw] at h
  | ok p =>
    obtain ⟨r1, d1⟩ := p
    simp only [hw, Except.ok.injEq, Prod.mk.injEq] at h
    obtain ⟨h1, h2, h3⟩ := h
    obtain ⟨hg, _⟩ := walk_getNode _ _ _ _ _ hw
    subst h1; subst h2; subst h3
    exact ⟨rfl, rfl, hg⟩

/-- Resolution of an address that already resolves: nothing is created. -/
theorem findPath_of_getNode (create : Bool) (filePtr : fileHandle) (path : String)
    (dir : fileInfo) (h : getNode (splitPath path) filePtr.root = some dir) :
    findPath filePtr path create = .ok (filePtr, splitPath path, dir) := by
  simp [findPath, walk_of_getNode create _ _ _ h]

/-- A write through a pointer keeps the scalar fields of the root of the walk, when the
written node keeps its own. -/
theorem modifyAt_fields (f : fileInfo → fileInfo) (segs : List String) (n d : fileInfo)
    (hg : getNode segs n = some d) (hf : (f d).fields = d.fields) :
    (modifyAt f segs n).fields = n.fields := by
  cases segs with
  | nil =>
    simp only [getNode, Option.some.injEq] at hg
    subst hg
    simpa [modifyAt] using hf
  | cons s rest =>
    simp only [modifyAt]
    cases hc : mapGet n.FileInfos s with
    | none => simp
    | some c =>
      by_cases hd : c.fields.IsDir = true
      · simp [hd]
      · simp [hd]

/-- Reading back through the pointer that was written through. -/
theorem getNode_modifyAt (f : fileInfo → fileInfo) (segs : List String) :
    ∀ (n d : fileInfo), getNode segs n = some d → (f d).fields = d.fields →
      getNode segs (modifyAt f segs n) = some (f d) := by
  induction segs with
  | nil =>
    intro n d hg _
    simp only [getNode, Option.some.injEq] at hg
    subst hg
    simp [getNode, modifyAt]
  | cons s rest ih =>
    intro n d hg hf
    simp only [getNode] at hg
    cases hc : mapGet n.FileInfos s with
    | none => simp [hc] at hg
    | some c =>
      simp only [hc] at hg
      by_cases hd : c.fields.IsDir = true
      · simp only [hd, if_true] at hg
        have h1 := modifyAt_fields f rest c d hg hf
        simp [getNode, modifyAt, hc, hd, mapGet_mapSet_self, h1, ih c d hg hf]
      · simp [hd] at hg

/-- Reading the directory back after `info.FileInfos[k] = c`. -/
theorem getNode_setChildAt (root : fileInfo) (info : List String) (k : String)
    (c dir : fileInfo) (hg : getNode info root = some dir) :
    getNode info (setChildAt root info k c) = some (dir.setChild k c) :=
  getNode_modifyAt _ info root dir hg rfl

/-! ## C1: listing -/

/-- The loop of `fileList` over a child mapping whose records sit under their own names:
the visible records are appended to the items collected so far, in order. -/
theorem fileList_loop (l : List (String × fileInfo)) :
    ∀ (acc : List (String × item)),
      (∀ kv ∈ l, kv.2.fields.Name = kv.1) → (mapKeys l).Nodup →
      (∀ k ∈ mapKeys l, k ∉ mapKeys acc) →
      l.foldl
        (fun data kv =>
          if kv.2.fields.IsDir || kv.2.fields.FileOk then
            mapSet data kv.2.fields.Name
              { Filename := kv.2.fields.Name, IsDir := kv.2.fields.IsDir,
                Size := kv.2.fields.FileSize, Date := kv.2.fields.FileDate }
          else data) acc
      = acc ++ (l.filter (fun kv => kv.2.fields.IsDir || kv.2.fields.FileOk)).map
          (fun kv => (kv.1,
            { Filename := kv.1, IsDir := kv.2.fields.IsDir,
              Size := kv.2.fields.FileSize, Date := kv.2.fields.FileDate })) := by
  induction l with
  | nil => intro acc _ _ _; simp
  | cons hd t ih =>
    intro acc hk hnd hdisj
    have hname : hd.2.fields.Name = hd.1 := hk hd (List.mem_cons_self _ _)
    have hk1 : ∀ kv ∈ t, kv.2.fields.Name = kv.1 :=
      fun kv hkv => hk kv (List.mem_cons_of_mem _ hkv)
    simp only [mapKeys, List.map_cons, List.nodup_cons] at hnd
    have hacc : hd.1 ∉ mapKeys acc := hdisj hd.1 (by simp [mapKeys])
    have hdisj1 : ∀ k ∈ mapKeys t, k ∉ mapKeys acc :=
      fun k hk => hdisj k (by simp only [mapKeys, List.map_cons, List.mem_cons]; exact Or.inr hk)
    simp only [List.foldl_cons, hname]
    by_cases hv : (hd.2.fields.IsDir || hd.2.fields.FileOk) = true
    · simp only [hv, if_true]
      rw [mapSet_of_not_mem acc _ _ hacc]
      rw [ih _ hk1 hnd.2]
      · simp [List.filter_cons, hv]
      · intro k hkt hmem
        simp only [mapKeys, List.map_append, List.map_cons, List.map_nil, List.mem_append,
          List.mem_singleton] at hmem
        rcases hmem with hmem | hmem
        · exact hdisj1 k hkt hmem
        · subst hmem; exact hnd.1 hkt
    · simp only [hv, Bool.false_eq_true, if_false]
      rw [ih _ hk1 hnd.2 hdisj1]
      simp [List.filter_cons, hv]

/-- C1. For a directory node that `fileList` resolves, whose child mapping holds each record
under its own name, the response is a success whose items are exactly the child records
with IsDir = true or FileOk = true, each under its name with that record's name,
is-directory flag, FileSize and FileDate; the count is the number of items; a non-directory
child with FileOk = false has no item, whatever its UploadState holds; and the state is left
as it was. -/
theorem C1_fileList_visible_records (filePtr fp1 : fileHandle) (filePath : String)
    (info : List String) (dir : fileInfo)
    (hres : findPath filePtr filePath false = .ok (fp1, info, dir))
    (hname : ∀ kv ∈ dir.FileInfos, kv.2.fields.Name = kv.1)
    (hkeys : (mapKeys dir.FileInfos).Nodup) :
    (fileList filePtr filePath).out =
        [{ Ok := true, Total := 0,
           Count := ((dir.FileInfos.filter
              (fun kv => kv.2.fields.IsDir || kv.2.fields.FileOk)).length : Int),
           Items := some ((dir.FileInfos.filter
              (fun kv => kv.2.fields.IsDir || kv.2.fields.FileOk)).map
              (fun kv => (kv.1,
                { Filename := kv.2.fields.Name, IsDir := kv.2.fields.IsDir,
                  Size := kv.2.fields.FileSize, Date := kv.2.fields.FileDate }))) }]
      ∧ (∀ kv ∈ dir.FileInfos, kv.2.fields.IsDir = false → kv.2.fields.FileOk = false →
          mapGet ((dir.FileInfos.filter
              (fun kv => kv.2.fields.IsDir || kv.2.fields.FileOk)).map
              (fun kv => (kv.1,
                ({ Filename := kv.2.fields.Name, IsDir := kv.2.fields.IsDir,
                   Size := kv.2.fields.FileSize, Date := kv.2.fields.FileDate } : item))))
            kv.1 = none)
      ∧ (fileList filePtr filePath).st = filePtr
      ∧ (fileList filePtr filePath).crashed = false := by
  obtain ⟨hfp, _, _⟩ := findPath_false _ _ _ _ _ hres
  subst hfp
  have hloop := fileList_loop dir.FileInfos [] hname hkeys (by simp [mapKeys])
  have hmap : (dir.FileInfos.filter (fun kv => kv.2.fields.IsDir || kv.2.fields.FileOk)).map
        (fun kv => (kv.1,
          ({ Filename := kv.2.fields.Name, IsDir := kv.2.fields.IsDir,
             Size := kv.2.fields.FileSize, Date := kv.2.fields.FileDate } : item)))
      = (dir.FileInfos.filter (fun kv => kv.2.fields.IsDir || kv.2.fields.FileOk)).map
        (fun kv => (kv.1,
          ({ Filename := kv.1, IsDir := kv.2.fields.IsDir,
             Size := kv.2.fields.FileSize, Date := kv.2.fields.FileDate } : item))) := by
    apply List.map_congr_left
    intro kv hkv
    rw [hname kv (List.mem_of_mem_filter hkv)]
  refine ⟨?_, ?_, ?_, ?_⟩
  · simp only [fileList, hres]
    rw [hloop, hmap]
    simp [respFileList]
  · intro kv hkv hdir hok
    rw [mapGet_eq_none_iff]
    intro hmem
    simp only [mapKeys, List.map_map, List.mem_map, List.mem_filter, Function.comp] at hmem
    obtain ⟨kv1, ⟨hkv1, hvis⟩, hk1⟩ := hmem
    have hinj := List.inj_on_of_nodup_map hkeys hkv1 hkv hk1
    subst hinj
    simp [hdir, hok] at hvis
  · simp [fileList, hres]
  · simp [fileList, hres]

theorem C1_fileList_visible_records_witness :
    (fileList exState "/docs").out =
        [{ Ok := true, Total := 0, Count := 2,
           Items := some [("a.txt", { Filename := "a.txt", IsDir := false, Size := 10, Date := "t0" }),
                          ("sub", { Filename := "sub", IsDir := true, Size := 0, Date := "" })] }]
      ∧ mapGet [("a.txt", ({ Filename := "a.txt", IsDir := false, Size := 10, Date := "t0" } : item)),
                ("sub", { Filename := "sub", IsDir := true, Size := 0, Date := "" })] "b.bin" = none :=
  have h := C1_fileList_visible_records exState exState "/docs" ["docs"] exDocs
    (by rfl) (by decide) (by decide)
  ⟨h.1, h.2.1 _ (List.mem_cons_of_mem _ (List.mem_cons_self _ _)) rfl rfl⟩

/-! ## C2: dedup short-circuit -/

/-- The guarded physical copy goes through when copies are shared, or when the entry has a
canonical path and `CopyFile` succeeds; it never writes a part-file. -/
theorem copyIfMultiple_done (config : Config) (env : Env) (fs : md5File) (dst : String)
    (h : config.SaveFileMultiple = true → fs.Ptr ≠ [] ∧ env.copyErr = none) :
    ∃ io, copyIfMultiple config env (some fs) dst = .done io ∧
      ∀ a c, Effect.writePart a c ∉ io := by
  unfold copyIfMultiple
  cases hm : config.SaveFileMultiple with
  | false => exact ⟨[], by simp, by simp⟩
  | true =>
    obtain ⟨hp, he⟩ := h hm
    cases hptr : fs.Ptr with
    | nil => exact absurd hptr hp
    | cons p t => exact ⟨[Effect.copyFile p dst], by simp [hptr, he], by simp⟩

/-- C2. Dedup short-circuit: for an accepted pre-upload check whose destination directory
has no child named filename and whose hash H is a key of the content store index (the
physical copy succeeding in independent-copy mode), `fileCheck` responds ok = true,
need = false with no resume data, writes no part-file, and the directory afterwards holds
for filename a record with FileOk = true, Upload = nil, FileMD5 = H and FileSize equal to the
index entry's size, every other child being as it was. -/
theorem C2_fileCheck_dedup (config : Config) (env : Env) (filePtr fp1 : fileHandle)
    (req : fileCheckReq) (info : List String) (dir : fileInfo) (files : md5File)
    (hacc : ¬ (req.Path = "" ∨ req.Filename = "" ∨ req.MD5 = "" ∨ req.Size = 0 ∨ req.Total = 0))
    (hres : findPath filePtr req.Path true = .ok (fp1, info, dir))
    (hnew : mapGet dir.FileInfos req.Filename = none)
    (hidx : mapGet filePtr.MD5Files req.MD5 = some files)
    (hcopy : config.SaveFileMultiple = true → files.Ptr ≠ [] ∧ env.copyErr = none) :
    (fileCheck config env filePtr req).out =
        [{ Ok := true, Message := "", Need := false, Upload := none }]
      ∧ (fileCheck config env filePtr req).crashed = false
      ∧ (∀ a c, Effect.writePart a c ∉ (fileCheck config env filePtr req).io)
      ∧ ∃ dir1 rec, getNode info (fileCheck config env filePtr req).st.root = some dir1
          ∧ mapGet dir1.FileInfos req.Filename = some (.mk rec [])
          ∧ rec.Name = req.Filename ∧ rec.IsDir = false ∧ rec.FileOk = true
          ∧ rec.Upload = none ∧ rec.FileMD5 = req.MD5 ∧ rec.FileSize = files.Size
          ∧ ∀ k, k ≠ req.Filename → mapGet dir1.FileInfos k = mapGet dir.FileInfos k := by
  obtain ⟨hmd5, _, hnode⟩ := findPath_ok _ _ _ _ _ _ hres
  rw [← hmd5] at hidx
  obtain ⟨io, hio, hnw⟩ := copyIfMultiple_done config env files
    (filepathJoin dir.fields.AbsPath req.Filename) hcopy
  have hrun : fileCheck config env filePtr req =
      ⟨{ root := setChildAt fp1.root info req.Filename
            (.mk { Path := filepathJoin dir.fields.Path dir.fields.Name, Name := req.Filename,
                   AbsPath := filepathJoin dir.fields.AbsPath req.Filename,
                   FileMD5 := req.MD5, FileOk := true, FileSize := files.Size,
                   FileDate := env.now } []),
         MD5Files := addMD5File config fp1.MD5Files req.MD5
            { Path := filepathJoin dir.fields.Path dir.fields.Name, Name := req.Filename,
              AbsPath := filepathJoin dir.fields.AbsPath req.Filename,
              FileMD5 := req.MD5, FileOk := true, FileSize := files.Size,
              FileDate := env.now } },
       [respFileCheck none false none], io, false⟩ := by
    simp only [fileCheck, hacc, if_false, hres, hnew, hidx, hio]
  rw [hrun]
  refine ⟨by simp [respFileCheck], rfl, hnw, _, _, getNode_setChildAt _ _ _ _ _ hnode,
    mapGet_mapSet_self _ _ _, rfl, rfl, rfl, rfl, rfl, rfl, ?_⟩
  intro k hk
  simp [mapGet_mapSet_ne _ _ _ _ hk]

theorem C2_fileCheck_dedup_witness :
    (fileCheck { SaveFileMultiple := true } exEnv exState
        { Path := "/pics", Filename := "c.txt", MD5 := "h1", Total := 1, Size := 10 }).out =
        [{ Ok := true, Message := "", Need := false, Upload := none }] :=
  (C2_fileCheck_dedup { SaveFileMultiple := true } exEnv exState
    { root := .mk { AbsPath := "/data", IsDir := true }
        [("docs", exDocs), ("pics", .mk { Name := "pics", AbsPath := "/data/pics", IsDir := true } [])],
      MD5Files := exState.MD5Files }
    { Path := "/pics", Filename := "c.txt", MD5 := "h1", Total := 1, Size := 10 }
    ["pics"] (.mk { Name := "pics", AbsPath := "/data/pics", IsDir := true } [])
    { File := "/data/docs/a.txt", Size := 10, Ptr := ["/data/docs/a.txt"] }
    (by decide) (by rfl) (by rfl) (by rfl) (fun _ => ⟨by decide, rfl⟩)).1

/-! ## Resume: lemmas -/

/-- A write through a pointer that leaves the node as it is leaves the tree as it is. -/
theorem modifyAt_id (f : fileInfo → fileInfo) (segs : List String) :
    ∀ (n d : fileInfo), getNode segs n = some d → f d = d → modifyAt f segs n = n := by
  induction segs with
  | nil =>
    intro n d hg hf
    simp only [getNode, Option.some.injEq] at hg
    subst hg
    simpa [modifyAt] using hf
  | cons s rest ih =>
    intro n d hg hf
    simp only [getNode] at hg
    cases hc : mapGet n.FileInfos s with
    | none => simp [hc] at hg
    | some c =>
      simp only [hc] at hg
      by_cases hd : c.fields.IsDir = true
      · simp only [hd, if_true] at hg
        simp only [modifyAt, hc, hd, if_true, ih c d hg hf]
        exact setChild_of_mapGet n s c hc
      · simp [hd] at hg

/-- Storing under a name the record that is already there changes nothing. -/
theorem setChildAt_same (root : fileInfo) (info : List String) (k : String) (c dir : fileInfo)
    (hg : getNode info root = some dir) (hc : mapGet dir.FileInfos k = some c) :
    setChildAt root info k c = root :=
  modifyAt_id _ info root dir hg (setChild_of_mapGet dir k c hc)

/-- The merge is a no-op while the received count differs from the expected count. -/
theorem mergeUpload_pending (config : Config) (now : String) (m : List (String × md5File))
    (file : fileInfo) (u : upload) (hu : file.fields.Upload = some u)
    (hcnt : (u.UpSlice.length : Int) ≠ u.SliceCnt) :
    mergeUpload config now m file = (file, m, []) := by
  simp [mergeUpload, hu, hcnt]

/-! ## C4: hash-change discard -/

/-- C4. Hash-change discard: for a non-directory record holding an UploadState for hash A
and an accepted pre-upload check declaring a different hash B, `fileCheck` calls
`clearUpload` on the stale state (the part-files of A's received chunks are removed),
replaces the record's UploadState by the fresh one with MD5 = B, the declared size and chunk
count and an empty received set, and responds ok = true, need = true without resume data;
the other fields of the record and the index are unchanged. -/
theorem C4_fileCheck_hash_change_discard (config : Config) (env : Env)
    (filePtr fp1 : fileHandle) (req : fileCheckReq) (info : List String)
    (dir file : fileInfo) (u : upload)
    (hacc : ¬ (req.Path = "" ∨ req.Filename = "" ∨ req.MD5 = "" ∨ req.Size = 0 ∨ req.Total = 0))
    (hres : findPath filePtr req.Path true = .ok (fp1, info, dir))
    (hfile : mapGet dir.FileInfos req.Filename = some file)
    (hdir : file.fields.IsDir = false)
    (hup : file.fields.Upload = some u)
    (hmd5 : u.MD5 ≠ req.MD5) :
    (fileCheck config env filePtr req).out =
        [{ Ok := true, Message := "", Need := true, Upload := none }]
      ∧ (fileCheck config env filePtr req).crashed = false
      ∧ (fileCheck config env filePtr req).io =
          [Effect.removeParts file.fields.AbsPath (mapKeys u.UpSlice)]
      ∧ (fileCheck config env filePtr req).st.MD5Files = filePtr.MD5Files
      ∧ ∃ dir1, getNode info (fileCheck config env filePtr req).st.root = some dir1
          ∧ mapGet dir1.FileInfos req.Filename =
              some (file.withFields { file.fields with
                Upload := some { Size := req.Size, MD5 := req.MD5, SliceCnt := req.Total,
                                 UpSlice := [] } })
          ∧ ∀ k, k ≠ req.Filename → mapGet dir1.FileInfos k = mapGet dir.FileInfos k := by
  obtain ⟨hidx, _, hnode⟩ := findPath_ok _ _ _ _ _ _ hres
  have hclear : clearUpload file =
      (file.withFields { file.fields with Upload := none },
        [Effect.removeParts file.fields.AbsPath (mapKeys u.UpSlice)]) := by
    simp [clearUpload, hup]
  have hrun : fileCheck config env filePtr req =
      ⟨⟨setChildAt fp1.root info req.Filename
            (file.withFields { file.fields with
              Upload := some { Size := req.Size, MD5 := req.MD5, SliceCnt := req.Total,
                               UpSlice := [] } }), fp1.MD5Files⟩,
        [respFileCheck none true none],
        [Effect.removeParts file.fields.AbsPath (mapKeys u.UpSlice)], false⟩ := by
    by_cases hsame : file.fields.FileMD5 = req.MD5
    · simp only [fileCheck, hacc, if_false, hres, hfile, hdir, hup, hmd5, hclear]
      simp [hsame, fileInfo.withFields]
    · simp only [fileCheck, hacc, if_false, hres, hfile, hdir, hup, hmd5, hclear]
      simp [hsame, fileInfo.withFields]
  rw [hrun]
  refine ⟨by simp [respFileCheck], rfl, rfl, hidx, _, getNode_setChildAt _ _ _ _ _ hnode,
    mapGet_mapSet_self _ _ _, ?_⟩
  intro k hk
  simp [mapGet_mapSet_ne _ _ _ _ hk]

theorem C4_fileCheck_hash_change_discard_witness :
    (fileCheck { SaveFileMultiple := false } exEnv exState
        { Path := "/docs", Filename := "b.bin", MD5 := "h3", Total := 5, Size := 50 }).out =
        [{ Ok := true, Message := "", Need := true, Upload := none }]
      ∧ (fileCheck { SaveFileMultiple := false } exEnv exState
        { Path := "/docs", Filename := "b.bin", MD5 := "h3", Total := 5, Size := 50 }).io =
        [Effect.removeParts "/data/docs/b.bin" ["0", "2"]] :=
  have h := C4_fileCheck_hash_change_discard { SaveFileMultiple := false } exEnv exState exState
    { Path := "/docs", Filename := "b.bin", MD5 := "h3", Total := 5, Size := 50 }
    ["docs"] exDocs
    (.mk { Path := "docs", Name := "b.bin", AbsPath := "/data/docs/b.bin", FileMD5 := "h2",
           Upload := some { Size := 40, MD5 := "h2", SliceCnt := 4,
                            UpSlice := [("0", ""), ("2", "")] } } [])
    { Size := 40, MD5 := "h2", SliceCnt := 4, UpSlice := [("0", ""), ("2", "")] }
    (by decide) (by rfl) (by rfl) (by rfl) (by rfl) (by decide)
  ⟨h.1, h.2.2.1⟩

/-! ## C6: fresh upload -/

/-- C6. Fresh upload: for an accepted pre-upload check whose destination directory has no
child named filename and whose hash H is not a key of the content store index, `fileCheck`
responds ok = true, need = true with no resume data and installs for filename a record with
FileOk = false and the fresh UploadState with MD5 = H, the declared size and chunk count and
an empty received set; every other child and the content store index are unchanged. -/
theorem C6_fileCheck_fresh_upload (config : Config) (env : Env) (filePtr fp1 : fileHandle)
    (req : fileCheckReq) (info : List String) (dir : fileInfo)
    (hacc : ¬ (req.Path = "" ∨ req.Filename = "" ∨ req.MD5 = "" ∨ req.Size = 0 ∨ req.Total = 0))
    (hres : findPath filePtr req.Path true = .ok (fp1, info, dir))
    (hnew : mapGet dir.FileInfos req.Filename = none)
    (hidx : mapGet filePtr.MD5Files req.MD5 = none) :
    (fileCheck config env filePtr req).out =
        [{ Ok := true, Message := "", Need := true, Upload := none }]
      ∧ (fileCheck config env filePtr req).crashed = false
      ∧ (fileCheck config env filePtr req).io = []
      ∧ (fileCheck config env filePtr req).st.MD5Files = filePtr.MD5Files
      ∧ ∃ dir1 rec, getNode info (fileCheck config env filePtr req).st.root = some dir1
          ∧ mapGet dir1.FileInfos req.Filename = some (.mk rec [])
          ∧ rec.Name = req.Filename ∧ rec.IsDir = false ∧ rec.FileOk = false
          ∧ rec.Upload = some { Size := req.Size, MD5 := req.MD5, SliceCnt := req.Total,
                                UpSlice := [] }
          ∧ ∀ k, k ≠ req.Filename → mapGet dir1.FileInfos k = mapGet dir.FileInfos k := by
  obtain ⟨hmd5, _, hnode⟩ := findPath_ok _ _ _ _ _ _ hres
  rw [← hmd5] at hidx
  have hrun : fileCheck config env filePtr req =
      ⟨⟨setChildAt fp1.root info req.Filename
          (.mk { Path := filepathJoin dir.fields.Path dir.fields.Name, Name := req.Filename,
                 AbsPath := filepathJoin dir.fields.AbsPath req.Filename, FileMD5 := req.MD5,
                 Upload := some { Size := req.Size, MD5 := req.MD5, SliceCnt := req.Total,
                                  UpSlice := [] } } []), fp1.MD5Files⟩,
       [respFileCheck none true none], [], false⟩ := by
    simp only [fileCheck, hacc, if_false, hres, hnew, hidx]
  rw [hrun]
  refine ⟨by simp [respFileCheck], rfl, rfl, hmd5, _, _, getNode_setChildAt _ _ _ _ _ hnode,
    mapGet_mapSet_self _ _ _, rfl, rfl, rfl, rfl, ?_⟩
  intro k hk
  simp [mapGet_mapSet_ne _ _ _ _ hk]

theorem C6_fileCheck_fresh_upload_witness :
    (fileCheck { SaveFileMultiple := false } exEnv exEmpty
        { Path := "/docs", Filename := "a.txt", MD5 := "deadbeef", Total := 3, Size := 300 }).out =
        [{ Ok := true, Message := "", Need := true, Upload := none }]
      ∧ (fileCheck { SaveFileMultiple := false } exEnv exEmpty
        { Path := "/docs", Filename := "a.txt", MD5 := "deadbeef", Total := 3, Size := 300 }
          ).st.MD5Files = [] :=
  have h := C6_fileCheck_fresh_upload { SaveFileMultiple := false } exEnv exEmpty
    { root := .mk { AbsPath := "/data", IsDir := true }
        [("docs", .mk { Name := "docs", AbsPath := "/data/docs", IsDir := true } [])],
      MD5Files := [] }
    { Path := "/docs", Filename := "a.txt", MD5 := "deadbeef", Total := 3, Size := 300 }
    ["docs"] (.mk { Name := "docs", AbsPath := "/data/docs", IsDir := true } [])
    (by decide) (by rfl) (by rfl) (by rfl)
  ⟨h.1, h.2.2.2.1⟩

/-! ## C7: protocol sequencing -/

/-- C7. Protocol sequencing: for a chunk request with non-empty fields whose directory
resolves, whenever the named record is absent, or its UploadState is nil, or its
UploadState's target hash differs from the declared hash, `fileUpload` responds with the
failure envelope (ok = false), makes no call to a file primitive and leaves the whole state
(tree, every UploadState, index) unchanged; and when none of the three holds it goes past
this check, the response being that of the later steps: a success for an index already
received, the error of a failing `FormFile` or `WriteFile`, and a success otherwise. -/
theorem C7_fileUpload_sequencing (config : Config) (env : Env) (filePtr fp1 : fileHandle)
    (req : fileUploadReq) (info : List String) (dir : fileInfo)
    (hacc : ¬ (req.path = "" ∨ req.filename = "" ∨ req.md5 = "" ∨ req.current = ""))
    (hres : findPath filePtr req.path false = .ok (fp1, info, dir)) :
    ((mapGet dir.FileInfos req.filename = none
        ∨ (∃ file, mapGet dir.FileInfos req.filename = some file ∧ file.fields.Upload = none)
        ∨ (∃ file u, mapGet dir.FileInfos req.filename = some file
              ∧ file.fields.Upload = some u ∧ u.MD5 ≠ req.md5)) →
      (fileUpload config env filePtr req).out = [{ Ok := false, Message := "上传流程错误，check！" }]
        ∧ (fileUpload config env filePtr req).io = []
        ∧ (fileUpload config env filePtr req).crashed = false
        ∧ (fileUpload config env filePtr req).st = filePtr)
    ∧ (∀ file u, mapGet dir.FileInfos req.filename = some file →
        file.fields.Upload = some u → u.MD5 = req.md5 →
        (fileUpload config env filePtr req).out =
          [respResult (match mapGet u.UpSlice req.current with
            | some _ => ""
            | none =>
              match env.formErr with
              | some err => err
              | none =>
                match env.writeErr with
                | some err => err
                | none => "")]) := by
  obtain ⟨hfp, _, _⟩ := findPath_false _ _ _ _ _ hres
  subst hfp
  refine ⟨?_, ?_⟩
  · rintro (hnone | ⟨file, hfile, hup⟩ | ⟨file, u, hfile, hup, hmd5⟩)
    · simp [fileUpload, hacc, hres, hnone, respResult]
    · simp [fileUpload, hacc, hres, hfile, hup, respResult]
    · simp [fileUpload, hacc, hres, hfile, hup, hmd5, respResult]
  · intro file u hfile hup hmd5
    simp only [fileUpload, hacc, if_false, hres, hfile, hup, hmd5]
    cases hrec : mapGet u.UpSlice req.current with
    | some v => simp
    | none =>
      cases hform : env.formErr with
      | some e => simp
      | none =>
        cases hwrite : env.writeErr with
        | some e => simp
        | none => simp

theorem C7_fileUpload_sequencing_witness :
    (fileUpload { SaveFileMultiple := false } exEnv exState
        { path := "/docs", filename := "a.txt", md5 := "h1", current := "0" }).out =
        [{ Ok := false, Message := "上传流程错误，check！" }]
      ∧ (fileUpload { SaveFileMultiple := false } exEnv exState
        { path := "/docs", filename := "a.txt", md5 := "h1", current := "0" }).io = [] :=
  have h := (C7_fileUpload_sequencing { SaveFileMultiple := false } exEnv exState exState
    { path := "/docs", filename := "a.txt", md5 := "h1", current := "0" } ["docs"] exDocs
    (by decide) (by rfl)).1
    (Or.inr (Or.inl ⟨_, by rfl, by rfl⟩))
  ⟨h.1, h.2.1⟩

/-! ## C10: unrecognised action -/

/-- C10 (evaluation at a failing input). For the action `rename`, which is neither `move`
nor `copy`, `fileAction` on the example state writes the failure envelope followed by a
success envelope, and by then it has created the destination directory `/pics` and installed
a finished record for `a.txt` in it: the tree after the call differs from the tree before;
in independent-copy mode the new physical path is registered in the index as well. -/
theorem C10_fileAction_unknown_action_mutates :
    (fileAction { SaveFileMultiple := false } exEnv exState
        { action := "rename", filename := "a.txt", src := "/docs", dest := "/pics" }).out =
        [{ Ok := false, Message := "request argument failed" }, { Ok := true, Message := "" }]
      ∧ getNode ["pics"] exState.root = none
      ∧ ((getNode ["pics"] (fileAction { SaveFileMultiple := false } exEnv exState
          { action := "rename", filename := "a.txt", src := "/docs", dest := "/pics" }).st.root).bind
            (fun d => mapGet d.FileInfos "a.txt")).map (fun f => f.fields) =
          some { Path := "pics", Name := "a.txt", AbsPath := "/data/pics/a.txt", FileMD5 := "h1",
                 FileOk := true, FileSize := 10, FileDate := "t1" }
      ∧ (fileAction { SaveFileMultiple := true } exEnv exState
          { action := "rename", filename := "a.txt", src := "/docs", dest := "/pics" }).st.MD5Files =
          [("h1", { File := "/data/docs/a.txt", Size := 10,
                    Ptr := ["/data/docs/a.txt", "/data/pics/a.txt"] })] := by
  refine ⟨by rfl, by rfl, by rfl, by rfl⟩

/-! ## C8: idempotent chunk retry -/

/-- The merge either leaves the record as it is or clears its UploadState. -/
theorem mergeUpload_cases (config : Config) (now : String) (m : List (String × md5File))
    (file : fileInfo) :
    (mergeUpload config now m file).1 = file
      ∨ (mergeUpload config now m file).1.fields.Upload = none := by
  unfold mergeUpload
  cases hu : file.fields.Upload with
  | none => simp
  | some u =>
    by_cases hc : (u.UpSlice.length : Int) = u.SliceCnt
    · simp [hc]
    · simp [hc]

/-- What `fileUpload` does when it ingests: the request is well-formed, the directory
resolves, the record holds an UploadState for the declared hash that lacks the index, and
the chunk stream is read and written without error. -/
theorem fileUpload_ingest (config : Config) (env : Env) (filePtr : fileHandle)
    (req : fileUploadReq) (info : List String) (dir file : fileInfo) (u : upload)
    (file2 : fileInfo) (md5s : List (String × md5File)) (io : List Effect)
    (hacc : ¬ (req.path = "" ∨ req.filename = "" ∨ req.md5 = "" ∨ req.current = ""))
    (hres : findPath filePtr req.path false = .ok (filePtr, info, dir))
    (hfile : mapGet dir.FileInfos req.filename = some file)
    (hup : file.fields.Upload = some u) (hmd5 : u.MD5 = req.md5)
    (hrec : mapGet u.UpSlice req.current = none)
    (hform : env.formErr = none) (hwrite : env.writeErr = none)
    (hmerge : mergeUpload config env.now filePtr.MD5Files (markReceived file u req.current)
      = (file2, md5s, io)) :
    fileUpload config env filePtr req =
      ⟨⟨setChildAt filePtr.root info req.filename file2, md5s⟩, [respResult ""],
       Effect.writePart file.fields.AbsPath req.current :: io, false⟩ := by
  simp only [fileUpload, hacc, if_false, hres, hfile, hup, hmd5, hrec, hform, hwrite, hmerge]
  simp

/-- Unless it ingests, `fileUpload` leaves the state as it is. -/
theorem fileUpload_st_eq_or_ingest (config : Config) (env : Env) (filePtr : fileHandle)
    (req : fileUploadReq) :
    (fileUpload config env filePtr req).st = filePtr
      ∨ (¬ (req.path = "" ∨ req.filename = "" ∨ req.md5 = "" ∨ req.current = "")
          ∧ ∃ info dir file u,
            findPath filePtr req.path false = .ok (filePtr, info, dir)
            ∧ mapGet dir.FileInfos req.filename = some file
            ∧ file.fields.Upload = some u ∧ u.MD5 = req.md5
            ∧ mapGet u.UpSlice req.current = none
            ∧ env.formErr = none ∧ env.writeErr = none) := by
  by_cases hacc : req.path = "" ∨ req.filename = "" ∨ req.md5 = "" ∨ req.current = ""
  · left; simp [fileUpload, hacc]
  · cases hres : findPath filePtr req.path false with
    | error e => left; simp [fileUpload, hacc, hres]
    | ok p =>
      obtain ⟨fp1, info, dir⟩ := p
      obtain ⟨hfp, _, _⟩ := findPath_false _ _ _ _ _ hres
      subst hfp
      cases hfile : mapGet dir.FileInfos req.filename with
      | none => left; simp [fileUpload, hacc, hres, hfile]
      | some file =>
        cases hup : file.fields.Upload with
        | none => left; simp [fileUpload, hacc, hres, hfile, hup]
        | some u =>
          by_cases hmd5 : u.MD5 = req.md5
          · cases hrec : mapGet u.UpSlice req.current with
            | some v => left; simp [fileUpload, hacc, hres, hfile, hup, hmd5, hrec]
            | none =>
              cases hform : env.formErr with
              | some e => left; simp [fileUpload, hacc, hres, hfile, hup, hmd5, hrec, hform]
              | none =>
                cases hwrite : env.writeErr with
                | some e =>
                  left; simp [fileUpload, hacc, hres, hfile, hup, hmd5, hrec, hform, hwrite]
                | none =>
                  right
                  exact ⟨hacc, info, dir, file, u, rfl, hfile, hup, hmd5, hrec, rfl, rfl⟩
          · left; simp [fileUpload, hacc, hres, hfile, hup, hmd5]

/-- A chunk request on a record whose UploadState is nil or already holds the index leaves
the state as it is. -/
theorem fileUpload_st_of_settled (config : Config) (env : Env) (filePtr : fileHandle)
    (req : fileUploadReq) (info : List String) (dir file : fileInfo)
    (hres : findPath filePtr req.path false = .ok (filePtr, info, dir))
    (hfile : mapGet dir.FileInfos req.filename = some file)
    (h : file.fields.Upload = none
      ∨ ∃ u, file.fields.Upload = some u ∧ mapGet u.UpSlice req.current ≠ none) :
    (fileUpload config env filePtr req).st = filePtr := by
  rcases fileUpload_st_eq_or_ingest config env filePtr req with
    hst | ⟨_, i, d, f, u, h1, h2, h3, _, h5, _⟩
  · exact hst
  · rw [hres] at h1
    simp only [Except.ok.injEq, Prod.mk.injEq, true_and] at h1
    obtain ⟨_, hd⟩ := h1
    subst hd
    rw [hfile] at h2
    simp only [Option.some.injEq] at h2
    subst h2
    rcases h with hn | ⟨u1, hu1, hne⟩
    · rw [hn] at h3; simp at h3
    · rw [hu1] at h3
      simp only [Option.some.injEq] at h3
      subst h3
      exact absurd h5 hne

/-- After an ingestion the same chunk request is settled: the record it installed has a nil
UploadState (merged) or holds the index. -/
theorem fileUpload_after_ingest (config : Config) (env : Env) (now : String)
    (filePtr : fileHandle) (req : fileUploadReq) (info : List String) (dir file : fileInfo)
    (u : upload) (file2 : fileInfo) (md5s : List (String × md5File)) (io : List Effect)
    (hres : findPath filePtr req.path false = .ok (filePtr, info, dir))
    (hmerge : mergeUpload config now filePtr.MD5Files (markReceived file u req.current)
      = (file2, md5s, io)) :
    (fileUpload config env ⟨setChildAt filePtr.root info req.filename file2, md5s⟩ req).st
      = ⟨setChildAt filePtr.root info req.filename file2, md5s⟩ := by
  obtain ⟨_, hinfo, hnode⟩ := findPath_ok _ _ _ _ _ _ hres
  have hback := getNode_setChildAt filePtr.root info req.filename file2 dir hnode
  rw [hinfo] at hback
  have hres2 := findPath_of_getNode false
    ⟨setChildAt filePtr.root (splitPath req.path) req.filename file2, md5s⟩ req.path _ hback
  rw [hinfo]
  apply fileUpload_st_of_settled config env _ req _ _ file2 hres2
    (by simp [mapGet_mapSet_self])
  have hcases := mergeUpload_cases config now filePtr.MD5Files (markReceived file u req.current)
  rw [hmerge] at hcases
  rcases hcases with hm | hm
  · right
    simp only at hm
    subst hm
    exact ⟨_, rfl, by simp [mapGet_mapSet_self]⟩
  · left; exact hm

/-- C8. Idempotent chunk retry: for every state and every chunk request, submitting the
request a second time right after the first (the chunk stream being read and written with
the same outcome both times, whatever the clock) leaves the state (tree, received-chunk
sets, content store index) as the first submission left it; and when the index is already
marked received in the UploadState that the request targets, `fileUpload` reports success,
calls no file primitive (no part-file is written, no merge is run) and leaves the state
unchanged. -/
theorem C8_fileUpload_idempotent (config : Config) (env1 env2 : Env) (filePtr : fileHandle)
    (req : fileUploadReq)
    (hform : env2.formErr = env1.formErr) (hwrite : env2.writeErr = env1.writeErr) :
    (fileUpload config env2 (fileUpload config env1 filePtr req).st req).st
        = (fileUpload config env1 filePtr req).st
      ∧ (∀ info dir file u,
          ¬ (req.path = "" ∨ req.filename = "" ∨ req.md5 = "" ∨ req.current = "") →
          findPath filePtr req.path false = .ok (filePtr, info, dir) →
          mapGet dir.FileInfos req.filename = some file →
          file.fields.Upload = some u → u.MD5 = req.md5 →
          req.current ∈ mapKeys u.UpSlice →
          (fileUpload config env1 filePtr req).out = [{ Ok := true, Message := "" }]
            ∧ (fileUpload config env1 filePtr req).io = []
            ∧ (fileUpload config env1 filePtr req).crashed = false
            ∧ (fileUpload config env1 filePtr req).st = filePtr) := by
  refine ⟨?_, ?_⟩
  · by_cases hing : ¬ (req.path = "" ∨ req.filename = "" ∨ req.md5 = "" ∨ req.current = "")
          ∧ ∃ info dir file u,
            findPath filePtr req.path false = .ok (filePtr, info, dir)
            ∧ mapGet dir.FileInfos req.filename = some file
            ∧ file.fields.Upload = some u ∧ u.MD5 = req.md5
            ∧ mapGet u.UpSlice req.current = none
            ∧ env1.formErr = none ∧ env1.writeErr = none
    · obtain ⟨hacc, info, dir, file, u, hres, hfile, hup, hmd5, hrec, hf, hw⟩ := hing
      rcases hmerge : mergeUpload config env1.now filePtr.MD5Files
        (markReceived file u req.current) with ⟨file2, md5s, io⟩
      rw [fileUpload_ingest config env1 filePtr req info dir file u file2 md5s io
        hacc hres hfile hup hmd5 hrec hf hw hmerge]
      exact fileUpload_after_ingest config env2 env1.now filePtr req info dir file u
        file2 md5s io hres hmerge
    · have h1 : (fileUpload config env1 filePtr req).st = filePtr := by
        rcases fileUpload_st_eq_or_ingest config env1 filePtr req with hst | h
        · exact hst
        · exact absurd h hing
      rw [h1]
      rcases fileUpload_st_eq_or_ingest config env2 filePtr req with hst | h
      · exact hst
      · rw [hform, hwrite] at h
        exact absurd h hing
  · intro info dir file u hacc hres hfile hup hmd5 hmem
    cases hrec : mapGet u.UpSlice req.current with
    | none => exact absurd hmem ((mapGet_eq_none_iff _ _).1 hrec)
    | some v => simp [fileUpload, hacc, hres, hfile, hup, hmd5, hrec, respResult]

theorem C8_fileUpload_idempotent_witness :
    (fileUpload { SaveFileMultiple := false } exEnv
        (fileUpload { SaveFileMultiple := false } exEnv exState
          { path := "/docs", filename := "b.bin", md5 := "h2", current := "1" }).st
        { path := "/docs", filename := "b.bin", md5 := "h2", current := "1" }).st
      = (fileUpload { SaveFileMultiple := false } exEnv exState
          { path := "/docs", filename := "b.bin", md5 := "h2", current := "1" }).st :=
  (C8_fileUpload_idempotent { SaveFileMultiple := false } exEnv exEnv exState
    { path := "/docs", filename := "b.bin", md5 := "h2", current := "1" } rfl rfl).1

/-! ## C5: upload completion -/

/-- Two writes through the same pointer compose. -/
theorem modifyAt_modifyAt (f g : fileInfo → fileInfo) (segs : List String) :
    ∀ (n d : fileInfo), getNode segs n = some d → (g d).fields = d.fields →
      modifyAt f segs (modifyAt g segs n) = modifyAt (fun x => f (g x)) segs n := by
  induction segs with
  | nil => intro n d _ _; simp [modifyAt]
  | cons s rest ih =>
    intro n d hg hf
    simp only [getNode] at hg
    cases hc : mapGet n.FileInfos s with
    | none => simp [hc] at hg
    | some c =>
      simp only [hc] at hg
      by_cases hd : c.fields.IsDir = true
      · simp only [hd, if_true] at hg
        have h1 := modifyAt_fields g rest c d hg hf
        simp only [modifyAt, hc, hd, if_true, FileInfos_setChild, mapGet_mapSet_self, h1,
          ih c d hg hf]
        simp [fileInfo.setChild, mapSet_mapSet]
      · simp [hd] at hg

/-- A second assignment to the same child through the same pointer overrides the first. -/
theorem setChildAt_setChildAt (root : fileInfo) (info : List String) (k : String)
    (c1 c2 dir : fileInfo) (hg : getNode info root = some dir) :
    setChildAt (setChildAt root info k c1) info k c2 = setChildAt root info k c2 := by
  unfold setChildAt
  rw [modifyAt_modifyAt _ _ info root dir hg rfl]
  congr 1
  funext x
  simp [fileInfo.setChild, mapSet_mapSet]

/-- What `fileCheck` does on a new filename with an unknown hash. -/
theorem fileCheck_fresh (config : Config) (env : Env) (filePtr fp1 : fileHandle)
    (req : fileCheckReq) (info : List String) (dir : fileInfo)
    (hacc : ¬ (req.Path = "" ∨ req.Filename = "" ∨ req.MD5 = "" ∨ req.Size = 0 ∨ req.Total = 0))
    (hres : findPath filePtr req.Path true = .ok (fp1, info, dir))
    (hnew : mapGet dir.FileInfos req.Filename = none)
    (hidx : mapGet filePtr.MD5Files req.MD5 = none) :
    fileCheck config env filePtr req =
      ⟨⟨setChildAt fp1.root info req.Filename
          (.mk { Path := filepathJoin dir.fields.Path dir.fields.Name, Name := req.Filename,
                 AbsPath := filepathJoin dir.fields.AbsPath req.Filename, FileMD5 := req.MD5,
                 Upload := some { Size := req.Size, MD5 := req.MD5, SliceCnt := req.Total,
                                  UpSlice := [] } } []), filePtr.MD5Files⟩,
       [respFileCheck none true none], [], false⟩ := by
  obtain ⟨hmd5, _, _⟩ := findPath_ok _ _ _ _ _ _ hres
  rw [← hmd5] at hidx
  simp only [fileCheck, hacc, if_false, hres, hnew, hidx]
  rw [hmd5]

/-- One ingestion on a pending record whose received indices are `ks`: the index is marked,
and the record is merged exactly when the count reaches the expected one. -/
theorem fileUpload_pending_step (config : Config) (env : Env) (root : fileInfo)
    (m : List (String × md5File)) (path filename c : String) (dir : fileInfo)
    (f : fileFields) (u : upload) (ks : List String)
    (hnode : getNode (splitPath path) root = some dir)
    (hpath : path ≠ "") (hfn : filename ≠ "") (hmd5 : u.MD5 ≠ "") (hc : c ≠ "")
    (hf : f.Upload = some u) (hks : u.UpSlice = ks.map (fun k => (k, ""))) (hck : c ∉ ks)
    (hform : env.formErr = none) (hwrite : env.writeErr = none) :
    (fileUpload config env ⟨setChildAt root (splitPath path) filename (.mk f []), m⟩
        { path := path, filename := filename, md5 := u.MD5, current := c }).st =
      if ((ks.length : Int) + 1) = u.SliceCnt then
        ⟨setChildAt root (splitPath path) filename
          (.mk { f with FileMD5 := u.MD5, FileOk := true, FileSize := u.Size,
                        FileDate := env.now, Upload := none } []),
         addMD5File config m u.MD5
          { f with FileMD5 := u.MD5, FileOk := true, FileSize := u.Size,
                   FileDate := env.now, Upload := none }⟩
      else
        ⟨setChildAt root (splitPath path) filename
          (.mk { f with Upload := some { u with UpSlice := (ks ++ [c]).map (fun k => (k, "")) } } []),
         m⟩ := by
  have hback := getNode_setChildAt root (splitPath path) filename (.mk f []) dir hnode
  have hres := findPath_of_getNode false
    ⟨setChildAt root (splitPath path) filename (.mk f []), m⟩ path _ hback
  have hkeys : c ∉ mapKeys u.UpSlice := by
    rw [hks]; simpa [mapKeys, Function.comp] using hck
  have hrec : mapGet u.UpSlice c = none := (mapGet_eq_none_iff _ _).2 hkeys
  have hset : mapSet u.UpSlice c "" = (ks ++ [c]).map (fun k => (k, "")) := by
    rw [mapSet_of_not_mem _ _ _ hkeys, hks]; simp
  have hlen : ((mapSet u.UpSlice c "").length : Int) = (ks.length : Int) + 1 := by
    rw [hset]; simp
  have hmark : markReceived (.mk f []) u c =
      .mk { f with Upload := some { u with UpSlice := mapSet u.UpSlice c "" } } [] := rfl
  by_cases hfull : ((ks.length : Int) + 1) = u.SliceCnt
  · have hmerge : mergeUpload config env.now m (markReceived (.mk f []) u c) =
        (.mk { f with FileMD5 := u.MD5, FileOk := true, FileSize := u.Size,
                      FileDate := env.now, Upload := none } [],
         addMD5File config m u.MD5
          { f with FileMD5 := u.MD5, FileOk := true, FileSize := u.Size,
                   FileDate := env.now, Upload := none },
         [Effect.mergeParts f.AbsPath (mapKeys (mapSet u.UpSlice c ""))]) := by
      rw [hmark]
      simp [mergeUpload, hlen, hfull, fileInfo.withFields]
    rw [fileUpload_ingest config env _ _ _ _ (.mk f []) u _ _ _
      (by simp [hpath, hfn, hmd5, hc]) hres (by simp [mapGet_mapSet_self]) hf rfl hrec
      hform hwrite hmerge]
    simp only [hfull, if_true]
    rw [setChildAt_setChildAt _ _ _ _ _ dir hnode]
  · have hmerge : mergeUpload config env.now m (markReceived (.mk f []) u c) =
        (.mk { f with Upload := some { u with UpSlice := mapSet u.UpSlice c "" } } [], m, []) := by
      rw [hmark]
      simp [mergeUpload, hlen, hfull]
    rw [fileUpload_ingest config env _ _ _ _ (.mk f []) u _ _ _
      (by simp [hpath, hfn, hmd5, hc]) hres (by simp [mapGet_mapSet_self]) hf rfl hrec
      hform hwrite hmerge]
    simp only [hfull, if_false]
    rw [setChildAt_setChildAt _ _ _ _ _ dir hnode, hset]

/-- Successive ingestions on a pending record whose received indices are `ks`: while the
count stays below the expected one the indices pile up in the received set, and the
ingestion that reaches the expected count merges the record. -/
theorem ingestAll_pending (config : Config) (env : Env) (root : fileInfo)
    (m : List (String × md5File)) (path filename : String) (dir : fileInfo)
    (f0 : fileFields) (u0 : upload)
    (hnode : getNode (splitPath path) root = some dir)
    (hpath : path ≠ "") (hfn : filename ≠ "") (hmd5 : u0.MD5 ≠ "")
    (hform : env.formErr = none) (hwrite : env.writeErr = none) :
    ∀ (cs ks : List String), (ks ++ cs).Nodup → (∀ c ∈ cs, c ≠ "") →
      (((ks.length : Int) + cs.length < u0.SliceCnt) →
        ingestAll config env path filename u0.MD5
          ⟨setChildAt root (splitPath path) filename
            (.mk { f0 with Upload := some { u0 with UpSlice := ks.map (fun k => (k, "")) } } []), m⟩
          cs =
        ⟨setChildAt root (splitPath path) filename
          (.mk { f0 with
            Upload := some { u0 with UpSlice := (ks ++ cs).map (fun k => (k, "")) } } []), m⟩)
      ∧ (((ks.length : Int) + cs.length = u0.SliceCnt) → cs ≠ [] →
        ingestAll config env path filename u0.MD5
          ⟨setChildAt root (splitPath path) filename
            (.mk { f0 with Upload := some { u0 with UpSlice := ks.map (fun k => (k, "")) } } []), m⟩
          cs =
        ⟨setChildAt root (splitPath path) filename
          (.mk { f0 with FileMD5 := u0.MD5, FileOk := true, FileSize := u0.Size,
                         FileDate := env.now, Upload := none } []),
         addMD5File config m u0.MD5
          { f0 with FileMD5 := u0.MD5, FileOk := true, FileSize := u0.Size,
                    FileDate := env.now, Upload := none }⟩) := by
  intro cs
  induction cs with
  | nil =>
    intro ks _ _
    exact ⟨fun _ => by simp [ingestAll], fun _ h => absurd rfl h⟩
  | cons c cs ih =>
    intro ks hnd hne
    have hck : c ∉ ks := by
      intro hmem
      have := List.nodup_append.1 hnd
      exact this.2.2 hmem (List.mem_cons_self _ _)
    have hc : c ≠ "" := hne c (List.mem_cons_self _ _)
    have hnd1 : ((ks ++ [c]) ++ cs).Nodup := by simpa using hnd
    have hne1 : ∀ x ∈ cs, x ≠ "" := fun x hx => hne x (List.mem_cons_of_mem _ hx)
    have hstep := fileUpload_pending_step config env root m path filename c dir
      { f0 with Upload := some { u0 with UpSlice := ks.map (fun k => (k, "")) } }
      { u0 with UpSlice := ks.map (fun k => (k, "")) } ks
      hnode hpath hfn hmd5 hc rfl rfl hck hform hwrite
    obtain ⟨ih1, ih2⟩ := ih (ks ++ [c]) hnd1 hne1
    have hlen : ((ks ++ [c]).length : Int) = (ks.length : Int) + 1 := by simp
    simp only [List.length_cons, Nat.cast_add, Nat.cast_one] at *
    refine ⟨?_, ?_⟩
    · intro hlt
      have hfull : ¬ ((ks.length : Int) + 1 = u0.SliceCnt) := by
        have : (0 : Int) ≤ (cs.length : Int) := Int.ofNat_nonneg _
        omega
      simp only [ingestAll]
      rw [hstep]
      simp only [hfull, if_false]
      rw [ih1 (by omega)]
      simp
    · intro heq _
      simp only [ingestAll]
      rw [hstep]
      cases cs with
      | nil =>
        have hfull : (ks.length : Int) + 1 = u0.SliceCnt := by simpa using heq
        simp only [hfull, if_true, ingestAll]
      | cons c1 cs1 =>
        have hfull : ¬ ((ks.length : Int) + 1 = u0.SliceCnt) := by
          have : (0 : Int) ≤ (cs1.length : Int) := Int.ofNat_nonneg _
          simp only [List.length_cons, Nat.cast_add, Nat.cast_one] at heq
          omega
        simp only [hfull, if_false]
        exact ih2 (by simp only [List.length_cons, Nat.cast_add, Nat.cast_one] at heq ⊢; omega)
          (by simp)

theorem mapGet_append_of_not_mem {α : Type} (a b : List (String × α)) (k : String)
    (h : k ∉ mapKeys a) : mapGet (a ++ b) k = mapGet b k := by
  induction a with
  | nil => rfl
  | cons hd t ih =>
    obtain ⟨x, v⟩ := hd
    simp only [mapKeys, List.map_cons, List.mem_cons, not_or] at h
    have hx : ¬ x = k := fun e => h.1 e.symm
    simp only [List.cons_append, mapGet, hx, if_false]
    exact ih h.2

/-- The listing of a directory to which a visible record was just added under a new name
holds the item of that record under that name. -/
theorem fileList_new_record (filePtr : fileHandle) (path : String) (dir : fileInfo)
    (k : String) (f : fileFields)
    (hnode : getNode (splitPath path) filePtr.root = some (dir.setChild k (.mk f [])))
    (hnew : mapGet dir.FileInfos k = none)
    (hname : ∀ kv ∈ dir.FileInfos, kv.2.fields.Name = kv.1)
    (hkeys : (mapKeys dir.FileInfos).Nodup)
    (hfname : f.Name = k) (hvis : (f.IsDir || f.FileOk) = true) :
    ∃ items, (fileList filePtr path).out =
        [{ Ok := true, Total := 0, Count := (items.length : Int), Items := some items }]
      ∧ mapGet items k =
          some { Filename := k, IsDir := f.IsDir, Size := f.FileSize, Date := f.FileDate } := by
  have hres := findPath_of_getNode false filePtr path _ hnode
  have hnot : k ∉ mapKeys dir.FileInfos := (mapGet_eq_none_iff _ _).1 hnew
  have hkids : (dir.setChild k (.mk f [])).FileInfos = dir.FileInfos ++ [(k, .mk f [])] := by
    simp [mapSet_of_not_mem _ _ _ hnot]
  have hname1 : ∀ kv ∈ dir.FileInfos ++ [(k, fileInfo.mk f [])], kv.2.fields.Name = kv.1 := by
    intro kv hkv
    rcases List.mem_append.1 hkv with h | h
    · exact hname kv h
    · simp only [List.mem_singleton] at h
      subst h
      exact hfname
  have hkeys1 : (mapKeys (dir.FileInfos ++ [(k, fileInfo.mk f [])])).Nodup := by
    simp only [mapKeys, List.map_append, List.map_cons, List.map_nil]
    refine List.Nodup.append hkeys (List.nodup_singleton _) ?_
    simpa [mapKeys] using hnot
  have hloop := fileList_loop (dir.FileInfos ++ [(k, fileInfo.mk f [])]) [] hname1 hkeys1
    (by simp [mapKeys])
  refine ⟨(List.filter (fun kv => kv.2.fields.IsDir || kv.2.fields.FileOk)
      (dir.FileInfos ++ [(k, fileInfo.mk f [])])).map
        (fun kv => (kv.1,
          ({ Filename := kv.1, IsDir := kv.2.fields.IsDir,
             Size := kv.2.fields.FileSize, Date := kv.2.fields.FileDate } : item))), ?_, ?_⟩
  · simp only [fileList, hres, hkids]
    rw [hloop]
    simp [respFileList]
  · simp only [List.filter_append, List.map_append]
    rw [mapGet_append_of_not_mem]
    · simp [List.filter_cons, hvis, mapGet]
    · intro hmem
      apply hnot
      simp only [mapKeys, List.map_map, List.mem_map, Function.comp, List.mem_filter] at hmem ⊢
      obtain ⟨kv, ⟨hkv, _⟩, hk⟩ := hmem
      exact ⟨kv, hkv, hk⟩

/-- C5. Upload completion: after an accepted pre-upload check for an unknown hash H with
chunk count n on a filename that did not exist, ingesting through `fileUpload` a list of
distinct chunk indices (each read and written without error) shorter than n leaves the
record Pending (FileOk = false, UploadState present, its received set being exactly the
ingested indices), and ingesting n distinct indices merges it: the record is Complete
(FileOk = true, UploadState = nil, hash H, the declared size), H is a key of the content
store index, and the listing of the directory holds the file's item. -/
theorem C5_upload_completion (config : Config) (env : Env) (filePtr fp1 : fileHandle)
    (req : fileCheckReq) (info : List String) (dir : fileInfo) (cs : List String)
    (hacc : ¬ (req.Path = "" ∨ req.Filename = "" ∨ req.MD5 = "" ∨ req.Size = 0 ∨ req.Total = 0))
    (hres : findPath filePtr req.Path true = .ok (fp1, info, dir))
    (hnew : mapGet dir.FileInfos req.Filename = none)
    (hidx : mapGet filePtr.MD5Files req.MD5 = none)
    (hname : ∀ kv ∈ dir.FileInfos, kv.2.fields.Name = kv.1)
    (hkeys : (mapKeys dir.FileInfos).Nodup)
    (hform : env.formErr = none) (hwrite : env.writeErr = none)
    (hne : ∀ c ∈ cs, c ≠ "") (hnd : cs.Nodup) :
    ((cs.length : Int) < req.Total →
      ∃ dir1 rec u,
        getNode info (ingestAll config env req.Path req.Filename req.MD5
          (fileCheck config env filePtr req).st cs).root = some dir1
        ∧ mapGet dir1.FileInfos req.Filename = some (.mk rec [])
        ∧ rec.FileOk = false ∧ rec.Upload = some u
        ∧ u.MD5 = req.MD5 ∧ u.SliceCnt = req.Total ∧ mapKeys u.UpSlice = cs)
    ∧ ((cs.length : Int) = req.Total →
      ∃ dir1 rec,
        getNode info (ingestAll config env req.Path req.Filename req.MD5
          (fileCheck config env filePtr req).st cs).root = some dir1
        ∧ mapGet dir1.FileInfos req.Filename = some (.mk rec [])
        ∧ rec.FileOk = true ∧ rec.Upload = none
        ∧ rec.FileMD5 = req.MD5 ∧ rec.FileSize = req.Size
        ∧ req.MD5 ∈ mapKeys (ingestAll config env req.Path req.Filename req.MD5
            (fileCheck config env filePtr req).st cs).MD5Files
        ∧ ∃ items,
            (fileList (ingestAll config env req.Path req.Filename req.MD5
              (fileCheck config env filePtr req).st cs) req.Path).out =
              [{ Ok := true, Total := 0, Count := (items.length : Int), Items := some items }]
            ∧ mapGet items req.Filename =
              some { Filename := req.Filename, IsDir := false, Size := req.Size,
                     Date := env.now }) := by
  obtain ⟨_, hinfo, hnode⟩ := findPath_ok _ _ _ _ _ _ hres
  subst hinfo
  simp only [not_or] at hacc
  obtain ⟨hpath, hfn, hmd5, _, htot⟩ := hacc
  rw [fileCheck_fresh config env filePtr fp1 req _ dir
    (by simp [hpath, hfn, hmd5, *]) hres hnew hidx]
  obtain ⟨hpend, hdone⟩ := ingestAll_pending config env fp1.root filePtr.MD5Files req.Path
    req.Filename dir
    { Path := filepathJoin dir.fields.Path dir.fields.Name, Name := req.Filename,
      AbsPath := filepathJoin dir.fields.AbsPath req.Filename, FileMD5 := req.MD5 }
    { Size := req.Size, MD5 := req.MD5, SliceCnt := req.Total, UpSlice := [] }
    hnode hpath hfn hmd5 hform hwrite cs [] (by simpa using hnd) hne
  simp only [List.length_nil, Nat.cast_zero, zero_add, List.map_nil, List.nil_append]
    at hpend hdone
  refine ⟨?_, ?_⟩
  · intro hlt
    have h := hpend hlt
    simp only at h
    rw [h]
    refine ⟨_, _, _, getNode_setChildAt _ _ _ _ _ hnode, mapGet_mapSet_self _ _ _,
      rfl, rfl, rfl, rfl, ?_⟩
    simp [mapKeys, Function.comp_def]
  · intro heq
    have hcs : cs ≠ [] := by
      intro h0
      subst h0
      exact htot (by simpa using heq.symm)
    have h := hdone heq hcs
    simp only at h
    rw [h]
    have hback := getNode_setChildAt fp1.root (splitPath req.Path) req.Filename
      (.mk { Path := filepathJoin dir.fields.Path dir.fields.Name, Name := req.Filename,
             AbsPath := filepathJoin dir.fields.AbsPath req.Filename, FileMD5 := req.MD5,
             FileOk := true, FileSize := req.Size, FileDate := env.now } []) dir hnode
    refine ⟨_, _, hback, mapGet_mapSet_self _ _ _, rfl, rfl, rfl, rfl, ?_, ?_⟩
    · by_contra habs
      have := (mapGet_eq_none_iff _ _).2 habs
      simp [addMD5File, hidx, mapGet_mapSet_self] at this
    · exact fileList_new_record _ req.Path dir req.Filename
        { Path := filepathJoin dir.fields.Path dir.fields.Name, Name := req.Filename,
          AbsPath := filepathJoin dir.fields.AbsPath req.Filename, FileMD5 := req.MD5,
          FileOk := true, FileSize := req.Size, FileDate := env.now }
        hback hnew hname hkeys rfl rfl

theorem C5_upload_completion_witness :
    "deadbeef" ∈ mapKeys (ingestAll { SaveFileMultiple := false } exEnv "/docs" "a.txt" "deadbeef"
        (fileCheck { SaveFileMultiple := false } exEnv exEmpty
          { Path := "/docs", Filename := "a.txt", MD5 := "deadbeef", Total := 3, Size := 300 }).st
        ["0", "1", "2"]).MD5Files
      ∧ ∃ items,
          (fileList (ingestAll { SaveFileMultiple := false } exEnv "/docs" "a.txt" "deadbeef"
            (fileCheck { SaveFileMultiple := false } exEnv exEmpty
              { Path := "/docs", Filename := "a.txt", MD5 := "deadbeef", Total := 3, Size := 300 }).st
            ["0", "1", "2"]) "/docs").out =
            [{ Ok := true, Total := 0, Count := (items.length : Int), Items := some items }]
          ∧ mapGet items "a.txt" =
            some { Filename := "a.txt", IsDir := false, Size := 300, Date := "t1" } := by
  obtain ⟨_, _, _, _, _, _, _, _, hidx, hlist⟩ :=
    (C5_upload_completion { SaveFileMultiple := false } exEnv exEmpty
      { root := .mk { AbsPath := "/data", IsDir := true }
          [("docs", .mk { Name := "docs", AbsPath := "/data/docs", IsDir := true } [])],
        MD5Files := [] }
      { Path := "/docs", Filename := "a.txt", MD5 := "deadbeef", Total := 3, Size := 300 }
      ["docs"] (.mk { Name := "docs", AbsPath := "/data/docs", IsDir := true } [])
      ["0", "1", "2"]
      (by decide) (by rfl) (by rfl) (by rfl) (by decide) (by decide) rfl rfl
      (by decide) (by decide)).2 (by decide)
  exact ⟨hidx, hlist⟩

/-! ## Move and copy: lemmas -/

/-- Frame of a write through a pointer `a` that only touches the child `k` of its node: a
node at an address `b` that does not lie at or below that child is still there, with its
scalar fields; each of its child records other than the written one keeps its scalar
fields, and is untouched altogether unless `a` lies at or below it. -/
theorem modifyAt_frame (g : fileInfo → fileInfo) (k : String) (d : fileInfo)
    (hgf : (g d).fields = d.fields)
    (hgo : ∀ f, f ≠ k → mapGet (g d).FileInfos f = mapGet d.FileInfos f) :
    ∀ (a b : List String) (root e : fileInfo),
      getNode a root = some d → getNode b root = some e → passesThrough a k b = false →
      ∃ e1, getNode b (modifyAt g a root) = some e1 ∧ e1.fields = e.fields ∧
        ∀ f, ¬ (b = a ∧ f = k) →
          (mapGet e1.FileInfos f).map fileInfo.fields = (mapGet e.FileInfos f).map fileInfo.fields
          ∧ (passesThrough b f a = false → mapGet e1.FileInfos f = mapGet e.FileInfos f) := by
  intro a
  induction a with
  | nil =>
    intro b root e ha hb hthru
    simp only [getNode, Option.some.injEq] at ha
    subst ha
    cases b with
    | nil =>
      simp only [getNode, Option.some.injEq] at hb
      subst hb
      refine ⟨g root, by simp [getNode, modifyAt], hgf, ?_⟩
      intro f hf
      have hfk : f ≠ k := fun h => hf ⟨rfl, h⟩
      exact ⟨by rw [hgo f hfk], fun _ => hgo f hfk⟩
    | cons s bs =>
      simp only [passesThrough, decide_eq_false_iff_not] at hthru
      refine ⟨e, ?_, rfl, fun f _ => ⟨rfl, fun _ => rfl⟩⟩
      simp only [getNode, modifyAt] at hb ⊢
      rw [hgo s hthru]
      exact hb
  | cons x as ih =>
    intro b root e ha hb hthru
    simp only [getNode] at ha
    cases hc : mapGet root.FileInfos x with
    | none => simp [hc] at ha
    | some c =>
      simp only [hc] at ha
      by_cases hd : c.fields.IsDir = true
      · simp only [hd, if_true] at ha
        have hcf := modifyAt_fields g as c d ha hgf
        have hmod : modifyAt g (x :: as) root = root.setChild x (modifyAt g as c) := by
          simp [modifyAt, hc, hd]
        rw [hmod]
        cases b with
        | nil =>
          simp only [getNode, Option.some.injEq] at hb
          subst hb
          refine ⟨root.setChild x (modifyAt g as c), by simp [getNode], rfl, ?_⟩
          intro f _
          by_cases hfx : f = x
          · subst hfx
            refine ⟨by simp [mapGet_mapSet_self, hc, hcf], ?_⟩
            intro h
            simp [passesThrough] at h
          · simp [mapGet_mapSet_ne _ _ _ _ hfx]
        | cons s bs =>
          by_cases hsx : s = x
          · subst hsx
            simp only [passesThrough, decide_True, Bool.true_and] at hthru
            simp only [getNode, hc, hd, if_true] at hb
            obtain ⟨e1, he1, hf1, hrest⟩ := ih bs c e ha hb hthru
            refine ⟨e1, by simp [getNode, mapGet_mapSet_self, hcf, hd, he1], hf1, ?_⟩
            intro f hf
            have hf2 : ¬ (bs = as ∧ f = k) := by
              rintro ⟨h1, h2⟩
              exact hf ⟨by rw [h1], h2⟩
            obtain ⟨hr1, hr2⟩ := hrest f hf2
            refine ⟨hr1, ?_⟩
            intro h
            simp only [passesThrough, decide_True, Bool.true_and] at h
            exact hr2 h
          · refine ⟨e, ?_, rfl, fun f _ => ⟨rfl, fun _ => rfl⟩⟩
            simp only [getNode, FileInfos_setChild, mapGet_mapSet_ne _ _ _ _ hsx] at hb ⊢
            exact hb
      · simp [hd] at ha

/-- The guarded physical copy of `fileAction` goes through when copies are shared, or when
the source's hash has an index entry with a canonical path and `CopyFile` succeeds. -/
theorem copyIfMultiple_done_of (config : Config) (env : Env) (files : Option md5File)
    (dst : String)
    (h : config.SaveFileMultiple = true →
      ∃ fs, files = some fs ∧ fs.Ptr ≠ [] ∧ env.copyErr = none) :
    ∃ io, copyIfMultiple config env files dst = .done io := by
  cases hm : config.SaveFileMultiple with
  | false => exact ⟨[], by simp [copyIfMultiple, hm]⟩
  | true =>
    obtain ⟨fs, hfs, hp, he⟩ := h hm
    subst hfs
    obtain ⟨io, hio, _⟩ := copyIfMultiple_done config env fs dst (fun _ => ⟨hp, he⟩)
    exact ⟨io, hio⟩

/-! ## C11: mkdir -/

/-- C11 (evaluation at a failing input). `fileMkdir` resolves its path without auto-create
(`findPath(filePath, false)`, handler.go 156): it never changes the state, and for the path
`/docs`, which has no segment naming a file and does not exist in the empty tree, it answers
the failure envelope and `/docs` still does not resolve. -/
theorem C11_fileMkdir_does_not_create :
    (∀ (filePtr : fileHandle) (filePath : String), (fileMkdir filePtr filePath).st = filePtr)
      ∧ (fileMkdir exEmpty "/docs").out =
          [{ Ok := false, Message := "文件夹名错误，可能与文件名相同" }]
      ∧ getNode ["docs"] (fileMkdir exEmpty "/docs").st.root = none := by
  refine ⟨?_, by rfl, by rfl⟩
  intro filePtr filePath
  by_cases hp : filePath = ""
  · simp [fileMkdir, hp]
  · cases hres : findPath filePtr filePath false with
    | error e => simp [fileMkdir, hp, hres]
    | ok p =>
      obtain ⟨fp1, info, dir⟩ := p
      obtain ⟨hfp, _, _⟩ := findPath_false _ _ _ _ _ hres
      simp [fileMkdir, hp, hres, hfp]

/-! ## C12: naming conflict -/

/-- A walk either changes nothing, its address resolving already, or ends in a node it has
just created, which has no children. -/
theorem walk_same_or_new (create : Bool) (segs : List String) :
    ∀ (n n1 d : fileInfo), walk create segs n = .ok (n1, d) →
      (n1 = n ∧ getNode segs n = some d) ∨ d.FileInfos = [] := by
  induction segs with
  | nil =>
    intro n n1 d h
    simp only [walk, Except.ok.injEq, Prod.mk.injEq] at h
    obtain ⟨h1, h2⟩ := h
    subst h1; subst h2
    exact Or.inl ⟨rfl, rfl⟩
  | cons s rest ih =>
    intro n n1 d h
    simp only [walk] at h
    cases hc : mapGet n.FileInfos s with
    | some c =>
      simp only [hc] at h
      by_cases hd : c.fields.IsDir = true
      · simp only [hd, if_true] at h
        cases hw : walk create rest c with
        | error e => simp [hw] at h
        | ok p =>
          obtain ⟨c1, d1⟩ := p
          simp only [hw, Except.ok.injEq, Prod.mk.injEq] at h
          obtain ⟨h1, h2⟩ := h
          subst h1; subst h2
          rcases ih c c1 d1 hw with ⟨hsame, hg⟩ | hnew
          · subst hsame
            exact Or.inl ⟨setChild_of_mapGet n s c1 hc, by simp [getNode, hc, hd, hg]⟩
          · exact Or.inr hnew
      · simp [hd] at h
    | none =>
      simp only [hc] at h
      cases create with
      | false => simp at h
      | true =>
        simp only [if_true] at h
        cases hw : walk true rest (newDir n s) with
        | error e => simp [hw] at h
        | ok p =>
          obtain ⟨c1, d1⟩ := p
          simp only [hw, Except.ok.injEq, Prod.mk.injEq] at h
          obtain ⟨h1, h2⟩ := h
          subst h1; subst h2
          rcases ih (newDir n s) c1 d1 hw with ⟨_, hg⟩ | hnew
          · cases rest with
            | nil =>
              simp only [getNode, Option.some.injEq] at hg
              subst hg
              exact Or.inr rfl
            | cons s1 r1 => simp [getNode, newDir, mapGet] at hg
          · exact Or.inr hnew

/-- A resolution that reaches a directory with a child has created nothing. -/
theorem findPath_same_of_child (create : Bool) (filePtr fp1 : fileHandle) (path : String)
    (info : List String) (dir : fileInfo) (k : String) (c : fileInfo)
    (hres : findPath filePtr path create = .ok (fp1, info, dir))
    (hc : mapGet dir.FileInfos k = some c) : fp1 = filePtr := by
  simp only [findPath] at hres
  cases hw : walk create (splitPath path) filePtr.root with
  | error e => simp [hw] at hres
  | ok p =>
    obtain ⟨r1, d1⟩ := p
    simp only [hw, Except.ok.injEq, Prod.mk.injEq] at hres
    obtain ⟨h1, _, h3⟩ := hres
    subst h1; subst h3
    rcases walk_same_or_new _ _ _ _ _ hw with ⟨hsame, _⟩ | hnew
    · rw [hsame]
    · rw [hnew] at hc
      simp [mapGet] at hc

/-- C12. Naming conflict: for an accepted pre-upload check whose filename names an existing
child of the destination directory that is a directory record, `fileCheck` fails with the
conflict error (ok = false, a non-empty message, need = false, no resume data), calls no
file primitive, and leaves the whole state unchanged: the directory's child mapping, every
UploadState and the content store index. -/
theorem C12_fileCheck_naming_conflict (config : Config) (env : Env) (filePtr fp1 : fileHandle)
    (req : fileCheckReq) (info : List String) (dir file : fileInfo)
    (hacc : ¬ (req.Path = "" ∨ req.Filename = "" ∨ req.MD5 = "" ∨ req.Size = 0 ∨ req.Total = 0))
    (hres : findPath filePtr req.Path true = .ok (fp1, info, dir))
    (hfile : mapGet dir.FileInfos req.Filename = some file)
    (hdir : file.fields.IsDir = true) :
    (fileCheck config env filePtr req).out =
        [{ Ok := false, Message := "已存在同名文件夹", Need := false, Upload := none }]
      ∧ "已存在同名文件夹" ≠ ""
      ∧ (fileCheck config env filePtr req).io = []
      ∧ (fileCheck config env filePtr req).crashed = false
      ∧ (fileCheck config env filePtr req).st = filePtr := by
  have hsame := findPath_same_of_child _ _ _ _ _ _ _ _ hres hfile
  have hrun : fileCheck config env filePtr req =
      ⟨fp1, [respFileCheck (some "已存在同名文件夹") false none], [], false⟩ := by
    simp only [fileCheck, hacc, if_false, hres, hfile, hdir, if_true]
  rw [hrun, hsame]
  exact ⟨by simp [respFileCheck], by decide, rfl, rfl, rfl⟩

theorem C12_fileCheck_naming_conflict_witness :
    (fileCheck { SaveFileMultiple := false } exEnv exState
        { Path := "/docs", Filename := "sub", MD5 := "h9", Total := 1, Size := 5 }).out =
        [{ Ok := false, Message := "已存在同名文件夹", Need := false, Upload := none }]
      ∧ (fileCheck { SaveFileMultiple := false } exEnv exState
        { Path := "/docs", Filename := "sub", MD5 := "h9", Total := 1, Size := 5 }).st.MD5Files
          = exState.MD5Files :=
  have h := C12_fileCheck_naming_conflict { SaveFileMultiple := false } exEnv exState exState
    { Path := "/docs", Filename := "sub", MD5 := "h9", Total := 1, Size := 5 }
    ["docs"] exDocs
    (.mk { Path := "docs", Name := "sub", AbsPath := "/data/docs/sub", IsDir := true } [])
    (by decide) (by rfl) (by rfl) (by rfl)
  ⟨h.1, by rw [h.2.2.2.2]⟩

/-! ## C17: argument validation -/

/-- Past its validation, `fileCheck` answers the validation failure only if the resolution
or `CopyFile` fails with that very text. -/
theorem fileCheck_out_of_accepted (config : Config) (env : Env) (filePtr : fileHandle)
    (req : fileCheckReq)
    (hacc : ¬ (req.Path = "" ∨ req.Filename = "" ∨ req.MD5 = "" ∨ req.Size = 0 ∨ req.Total = 0))
    (hfind : ∀ e, findPath filePtr req.Path true = .error e → e ≠ "参数请求错误！")
    (hcopy : env.copyErr ≠ some "参数请求错误！") :
    (fileCheck config env filePtr req).out ≠
      [{ Ok := false, Message := "参数请求错误！", Need := false, Upload := none }] := by
  simp only [fileCheck, hacc, if_false]
  cases hres : findPath filePtr req.Path true with
  | error e =>
    have := hfind e hres
    simp [respFileCheck, this]
  | ok p =>
    obtain ⟨fp1, info, dir⟩ := p
    simp only []
    cases hfile : mapGet dir.FileInfos req.Filename with
    | none =>
      simp only []
      cases hidx : mapGet fp1.MD5Files req.MD5 with
      | none => simp [respFileCheck]
      | some files =>
        simp only [copyIfMultiple]
        cases hm : config.SaveFileMultiple with
        | false => simp [respFileCheck]
        | true =>
          simp only [if_true]
          cases hp : files.Ptr.head? with
          | none => simp
          | some src =>
            simp only []
            cases he : env.copyErr with
            | none => simp [respFileCheck]
            | some err =>
              have : err ≠ "参数请求错误！" := fun h => hcopy (by rw [he, h])
              simp [respFileCheck, this]
    | some file =>
      simp only []
      by_cases hd : file.fields.IsDir = true
      · simp [hd, respFileCheck]
      · simp only [hd, Bool.false_eq_true, if_false]
        by_cases hsame : file.fields.FileMD5 = req.MD5
        · simp only [hsame, ne_eq, not_true_eq_false, if_false]
          cases hup : file.fields.Upload with
          | none => simp [respFileCheck]
          | some u =>
            by_cases hm : u.MD5 = req.MD5
            · simp [hm, respFileCheck]
            · simp [hm, respFileCheck]
        · simp only [ne_eq, hsame, not_false_eq_true, if_true]
          cases hup : file.fields.Upload with
          | none => simp [respFileCheck]
          | some u =>
            by_cases hm : u.MD5 = req.MD5
            · simp only [hm, if_true]
              cases hu1 : (mergeUpload config env.now fp1.MD5Files file).1.fields.Upload with
              | none => simp [hu1]
              | some u1 => simp [hu1, respFileCheck]
            · simp [hm, respFileCheck]

/-- Past its validation, `fileUpload` answers the validation failure only if `FormFile` or
`WriteFile` fails with that very text. -/
theorem fileUpload_out_of_accepted (config : Config) (env : Env) (filePtr : fileHandle)
    (req : fileUploadReq)
    (hacc : ¬ (req.path = "" ∨ req.filename = "" ∨ req.md5 = "" ∨ req.current = ""))
    (hform : env.formErr ≠ some "参数请求错误！") (hwrite : env.writeErr ≠ some "参数请求错误！") :
    (fileUpload config env filePtr req).out ≠ [{ Ok := false, Message := "参数请求错误！" }] := by
  simp only [fileUpload, hacc, if_false]
  cases hres : findPath filePtr req.path false with
  | error e => simp [respResult]
  | ok p =>
    obtain ⟨fp1, info, dir⟩ := p
    simp only []
    cases hfile : mapGet dir.FileInfos req.filename with
    | none => simp [respResult]
    | some file =>
      simp only []
      cases hup : file.fields.Upload with
      | none => simp [respResult]
      | some u =>
        simp only []
        by_cases hmd5 : u.MD5 = req.md5
        · simp only [hmd5, ne_eq, not_true_eq_false, if_false]
          cases hrec : mapGet u.UpSlice req.current with
          | some v => simp [respResult]
          | none =>
            simp only []
            cases hf : env.formErr with
            | some e =>
              have : e ≠ "参数请求错误！" := fun h => hform (by rw [hf, h])
              simp [respResult, this]
            | none =>
              simp only []
              cases hw : env.writeErr with
              | some e =>
                have : e ≠ "参数请求错误！" := fun h => hwrite (by rw [hw, h])
                simp [respResult, this]
              | none => simp [respResult]
        · simp [hmd5, respResult]

/-- C17. Argument validation. `fileCheck` answers the InvalidArgument failure (ok = false,
need = false, no resume data), without resolving any path, calling any file primitive or
changing the state, when path, filename or hash is empty or size or chunk count is zero, and
only then (no later step answers it, unless the resolution or `CopyFile` fails with that
very text); `fileUpload` likewise when path, filename, hash or chunk index is empty, and
only then (unless `FormFile` or `WriteFile` fails with that very text); `fileDelete` exactly
when filename is empty; `fileMkdir` exactly when path is empty. -/
theorem C17_argument_validation (config : Config) (env : Env) (filePtr : fileHandle) :
    (∀ req : fileCheckReq,
      ((req.Path = "" ∨ req.Filename = "" ∨ req.MD5 = "" ∨ req.Size = 0 ∨ req.Total = 0) →
        (fileCheck config env filePtr req).out =
            [{ Ok := false, Message := "参数请求错误！", Need := false, Upload := none }]
          ∧ (fileCheck config env filePtr req).io = []
          ∧ (fileCheck config env filePtr req).crashed = false
          ∧ (fileCheck config env filePtr req).st = filePtr)
      ∧ (¬ (req.Path = "" ∨ req.Filename = "" ∨ req.MD5 = "" ∨ req.Size = 0 ∨ req.Total = 0) →
        (∀ e, findPath filePtr req.Path true = .error e → e ≠ "参数请求错误！") →
        env.copyErr ≠ some "参数请求错误！" →
        (fileCheck config env filePtr req).out ≠
          [{ Ok := false, Message := "参数请求错误！", Need := false, Upload := none }]))
    ∧ (∀ req : fileUploadReq,
      ((req.path = "" ∨ req.filename = "" ∨ req.md5 = "" ∨ req.current = "") →
        (fileUpload config env filePtr req).out = [{ Ok := false, Message := "参数请求错误！" }]
          ∧ (fileUpload config env filePtr req).io = []
          ∧ (fileUpload config env filePtr req).crashed = false
          ∧ (fileUpload config env filePtr req).st = filePtr)
      ∧ (¬ (req.path = "" ∨ req.filename = "" ∨ req.md5 = "" ∨ req.current = "") →
        env.formErr ≠ some "参数请求错误！" → env.writeErr ≠ some "参数请求错误！" →
        (fileUpload config env filePtr req).out ≠
          [{ Ok := false, Message := "参数请求错误！" }]))
    ∧ (∀ filePath filename : String,
      (filename = "" →
        (fileDelete filePtr filePath filename).out = [{ Ok := false, Message := "请求参数错误!" }]
          ∧ (fileDelete filePtr filePath filename).st = filePtr)
      ∧ (filename ≠ "" →
        (fileDelete filePtr filePath filename).out ≠
          [{ Ok := false, Message := "请求参数错误!" }]))
    ∧ (∀ filePath : String,
      (filePath = "" →
        (fileMkdir filePtr filePath).out = [{ Ok := false, Message := "请求参数错误!" }]
          ∧ (fileMkdir filePtr filePath).st = filePtr)
      ∧ (filePath ≠ "" →
        (fileMkdir filePtr filePath).out ≠ [{ Ok := false, Message := "请求参数错误!" }])) := by
  refine ⟨?_, ?_, ?_, ?_⟩
  · intro req
    refine ⟨?_, fileCheck_out_of_accepted config env filePtr req⟩
    intro h
    simp [fileCheck, h, respFileCheck]
  · intro req
    refine ⟨?_, fileUpload_out_of_accepted config env filePtr req⟩
    intro h
    simp [fileUpload, h, respResult]
  · intro filePath filename
    refine ⟨?_, ?_⟩
    · intro h
      simp [fileDelete, h, respResult]
    · intro h
      simp only [fileDelete, h, if_false]
      cases hres : findPath filePtr filePath false with
      | error e => simp [respResult]
      | ok p =>
        obtain ⟨fp1, info, dir⟩ := p
        simp only []
        cases hrem : removeAt fp1.root info filename with
        | error e => simp [respResult]
        | ok r => simp [respResult]
  · intro filePath
    refine ⟨?_, ?_⟩
    · intro h
      simp [fileMkdir, h, respResult]
    · intro h
      simp only [fileMkdir, h, if_false]
      cases hres : findPath filePtr filePath false with
      | error e => simp [respResult]
      | ok p =>
        obtain ⟨fp1, info, dir⟩ := p
        simp [respResult]

theorem C17_argument_validation_witness :
    (fileCheck { SaveFileMultiple := false } exEnv exEmpty
        { Path := "/docs", Filename := "a.txt", MD5 := "h1", Total := 0, Size := 10 }).out =
        [{ Ok := false, Message := "参数请求错误！", Need := false, Upload := none }]
      ∧ (fileCheck { SaveFileMultiple := false } exEnv exEmpty
        { Path := "/docs", Filename := "a.txt", MD5 := "h1", Total := 0, Size := 10 }).st
          = exEmpty
      ∧ (fileUpload { SaveFileMultiple := false } exEnv exState
        { path := "/docs", filename := "b.bin", md5 := "h2", current := "" }).out =
        [{ Ok := false, Message := "参数请求错误！" }]
      ∧ (fileDelete exState "/docs" "").out = [{ Ok := false, Message := "请求参数错误!" }]
      ∧ (fileMkdir exState "").out = [{ Ok := false, Message := "请求参数错误!" }] :=
  have h := C17_argument_validation { SaveFileMultiple := false } exEnv
  have h1 := ((h exEmpty).1
    { Path := "/docs", Filename := "a.txt", MD5 := "h1", Total := 0, Size := 10 }).1 (by decide)
  ⟨h1.1, h1.2.2.2,
    (((h exState).2.1
      { path := "/docs", filename := "b.bin", md5 := "h2", current := "" }).1 (by decide)).1,
    (((h exState).2.2.1 "/docs" "").1 rfl).1,
    (((h exState).2.2.2 "").1 rfl).1⟩

/-! ## C14, C15: what a failed request leaves behind -/

/-- Frame of a walk: a node that resolved before the walk still resolves after it, with its
scalar fields, and each of its children is untouched unless the walk went through it. -/
theorem walk_frame (create : Bool) (a : List String) :
    ∀ (b : List String) (root root1 d e : fileInfo),
      walk create a root = .ok (root1, d) → getNode b root = some e →
      ∃ e1, getNode b root1 = some e1 ∧ e1.fields = e.fields ∧
        ∀ f, passesThrough b f a = false → mapGet e1.FileInfos f = mapGet e.FileInfos f := by
  induction a with
  | nil =>
    intro b root root1 d e hw hb
    simp only [walk, Except.ok.injEq, Prod.mk.injEq] at hw
    obtain ⟨h1, _⟩ := hw
    subst h1
    exact ⟨e, hb, rfl, fun _ _ => rfl⟩
  | cons x as ih =>
    intro b root root1 d e hw hb
    -- the walk replaces the child `x` of the root and nothing else
    have hroot : ∃ cx1, root1 = root.setChild x cx1 ∧
        (∀ cx, mapGet root.FileInfos x = some cx →
          cx.fields.IsDir = true ∧ walk create as cx = .ok (cx1, d)) := by
      simp only [walk] at hw
      cases hc : mapGet root.FileInfos x with
      | some c =>
        simp only [hc] at hw
        by_cases hd : c.fields.IsDir = true
        · simp only [hd, if_true] at hw
          cases hw1 : walk create as c with
          | error e => simp [hw1] at hw
          | ok p =>
            obtain ⟨c1, d1⟩ := p
            simp only [hw1, Except.ok.injEq, Prod.mk.injEq] at hw
            obtain ⟨h1, h2⟩ := hw
            subst h1; subst h2
            refine ⟨c1, rfl, ?_⟩
            intro cx hcx
            simp only [Option.some.injEq] at hcx
            subst hcx
            exact ⟨hd, hw1⟩
        · simp [hd] at hw
      | none =>
        simp only [hc] at hw
        cases create with
        | false => simp at hw
        | true =>
          simp only [if_true] at hw
          cases hw1 : walk true as (newDir root x) with
          | error e => simp [hw1] at hw
          | ok p =>
            obtain ⟨c1, d1⟩ := p
            simp only [hw1, Except.ok.injEq, Prod.mk.injEq] at hw
            obtain ⟨h1, _⟩ := hw
            subst h1
            exact ⟨c1, rfl, fun cx hcx => by simp at hcx⟩
    obtain ⟨cx1, hr1, hcx⟩ := hroot
    subst hr1
    cases b with
    | nil =>
      simp only [getNode, Option.some.injEq] at hb
      subst hb
      refine ⟨root.setChild x cx1, by simp [getNode], rfl, ?_⟩
      intro f hf
      have hfx : f ≠ x := by
        intro h
        subst h
        simp [passesThrough] at hf
      simp [mapGet_mapSet_ne _ _ _ _ hfx]
    | cons s bs =>
      by_cases hsx : s = x
      · subst hsx
        simp only [getNode] at hb
        cases hc : mapGet root.FileInfos s with
        | none => simp [hc] at hb
        | some c =>
          obtain ⟨hd, hw1⟩ := hcx c hc
          simp only [hc, hd, if_true] at hb
          obtain ⟨e1, he1, hf1, hrest⟩ := ih bs c cx1 d e hw1 hb
          obtain ⟨_, hcf⟩ := walk_getNode _ _ _ _ _ hw1
          refine ⟨e1, by simp [getNode, mapGet_mapSet_self, hcf, hd, he1], hf1, ?_⟩
          intro f hf
          simp only [passesThrough, decide_True, Bool.true_and] at hf
          exact hrest f hf
      · refine ⟨e, ?_, rfl, fun _ _ => rfl⟩
        simp only [getNode, FileInfos_setChild, mapGet_mapSet_ne _ _ _ _ hsx] at hb ⊢
        exact hb

/-- Frame of a resolution, on the node a pointer taken before it points to. -/
theorem findPath_frame (create : Bool) (filePtr fp1 : fileHandle) (path : String)
    (info b : List String) (dir e : fileInfo)
    (hres : findPath filePtr path create = .ok (fp1, info, dir))
    (hb : getNode b filePtr.root = some e) :
    ∃ e1, getNode b fp1.root = some e1 ∧ e1.fields = e.fields ∧
      ∀ f, passesThrough b f info = false → mapGet e1.FileInfos f = mapGet e.FileInfos f := by
  simp only [findPath] at hres
  cases hw : walk create (splitPath path) filePtr.root with
  | error e => simp [hw] at hres
  | ok p =>
    obtain ⟨r1, d1⟩ := p
    simp only [hw, Except.ok.injEq, Prod.mk.injEq] at hres
    obtain ⟨h1, h2, _⟩ := hres
    subst h1; subst h2
    exact walk_frame create _ b _ _ _ _ hw hb

/-- A resolution of a path that resolves already leaves the state as it is. -/
theorem findPath_same_of_resolves (create : Bool) (filePtr fp1 : fileHandle) (path : String)
    (info : List String) (dir : fileInfo)
    (hres : findPath filePtr path create = .ok (fp1, info, dir))
    (h : (getNode (splitPath path) filePtr.root).isSome = true) : fp1 = filePtr := by
  obtain ⟨d0, hd0⟩ := Option.isSome_iff_exists.1 h
  rw [findPath_of_getNode create filePtr path d0 hd0] at hres
  simp only [Except.ok.injEq, Prod.mk.injEq] at hres
  exact hres.1.symm

/-- C14 (as amended). IO-failure atomicity. When `WriteFile` fails, `fileUpload` leaves the
state exactly as it was, and (its error text being non-empty) answers a failure. When
`CopyFile` fails in `fileCheck` or in `fileAction`, the handler answers a failure, installs
or replaces no record and registers nothing: the state after the call is the state as the
resolution of the destination left it, that is the state before the call when the
destination path resolved already, with the same index in any case. -/
theorem C14_io_failure_state (config : Config) (env : Env) (filePtr : fileHandle) :
    (∀ (req : fileUploadReq) (err : String), env.writeErr = some err →
      (fileUpload config env filePtr req).st = filePtr
      ∧ ∀ info dir file u,
          ¬ (req.path = "" ∨ req.filename = "" ∨ req.md5 = "" ∨ req.current = "") →
          findPath filePtr req.path false = .ok (filePtr, info, dir) →
          mapGet dir.FileInfos req.filename = some file →
          file.fields.Upload = some u → u.MD5 = req.md5 →
          mapGet u.UpSlice req.current = none → env.formErr = none →
          (fileUpload config env filePtr req).out = [{ Ok := decide (err = ""), Message := err }]
            ∧ (fileUpload config env filePtr req).io =
                [Effect.writePart file.fields.AbsPath req.current])
    ∧ (∀ (req : fileCheckReq) (fp1 : fileHandle) (info : List String) (dir : fileInfo)
        (files : md5File) (src err : String),
      ¬ (req.Path = "" ∨ req.Filename = "" ∨ req.MD5 = "" ∨ req.Size = 0 ∨ req.Total = 0) →
      findPath filePtr req.Path true = .ok (fp1, info, dir) →
      mapGet dir.FileInfos req.Filename = none →
      mapGet filePtr.MD5Files req.MD5 = some files →
      config.SaveFileMultiple = true → files.Ptr.head? = some src →
      env.copyErr = some err →
      (fileCheck config env filePtr req).out =
          [{ Ok := false, Message := err, Need := false, Upload := none }]
        ∧ (fileCheck config env filePtr req).st = fp1
        ∧ fp1.MD5Files = filePtr.MD5Files
        ∧ ((getNode (splitPath req.Path) filePtr.root).isSome = true → fp1 = filePtr))
    ∧ (∀ (req : fileActionReq) (fp1 fp2 : fileHandle) (srcInfo destInfo : List String)
        (srcDir destDir srcDir2 srcFile : fileInfo) (files : md5File) (src err : String),
      findPath filePtr req.src false = .ok (fp1, srcInfo, srcDir) →
      findPath fp1 req.dest true = .ok (fp2, destInfo, destDir) →
      getNode srcInfo fp2.root = some srcDir2 →
      mapGet srcDir2.FileInfos req.filename = some srcFile →
      mapGet filePtr.MD5Files srcFile.fields.FileMD5 = some files →
      config.SaveFileMultiple = true → files.Ptr.head? = some src →
      env.copyErr = some err →
      (fileAction config env filePtr req).out =
          [{ Ok := false, Message := "copy file failed, " ++ err }]
        ∧ (fileAction config env filePtr req).st = fp2
        ∧ fp2.MD5Files = filePtr.MD5Files
        ∧ ((getNode (splitPath req.dest) filePtr.root).isSome = true → fp2 = filePtr)) := by
  refine ⟨?_, ?_, ?_⟩
  · intro req err hw
    refine ⟨?_, ?_⟩
    · rcases fileUpload_st_eq_or_ingest config env filePtr req with h | ⟨_, _, _, _, _, _, _, _, _, _, _, h⟩
      · exact h
      · rw [hw] at h; simp at h
    · intro info dir file u hacc hres hfile hup hmd5 hrec hform
      simp [fileUpload, hacc, hres, hfile, hup, hmd5, hrec, hform, hw, respResult]
  · intro req fp1 info dir files src err hacc hres hnew hidx hm hptr he
    obtain ⟨hmd5, _, _⟩ := findPath_ok _ _ _ _ _ _ hres
    rw [← hmd5] at hidx
    refine ⟨?_, ?_, hmd5, findPath_same_of_resolves _ _ _ _ _ _ hres⟩
    · simp [fileCheck, hacc, hres, hnew, hidx, copyIfMultiple, hm, hptr, he, respFileCheck]
    · simp [fileCheck, hacc, hres, hnew, hidx, copyIfMultiple, hm, hptr, he]
  · intro req fp1 fp2 srcInfo destInfo srcDir destDir srcDir2 srcFile files src err
      hsrc hdest hsrc2 hfile hidx hm hptr he
    obtain ⟨hfp1, _, _⟩ := findPath_false _ _ _ _ _ hsrc
    rw [hfp1] at hsrc hdest
    obtain ⟨hmd5, _, _⟩ := findPath_ok _ _ _ _ _ _ hdest
    rw [← hmd5] at hidx
    have hne : ("copy file failed, " ++ err = "") = False := by
      apply eq_false
      intro h
      have := congrArg String.length h
      simp only [String.length_append] at this
      have h2 : (18 : Nat) + err.length = 0 := this
      omega
    refine ⟨?_, ?_, hmd5, findPath_same_of_resolves _ _ _ _ _ _ hdest⟩
    · simp [fileAction, hsrc, hdest, hsrc2, hfile, hidx, copyIfMultiple, hm, hptr, he,
        respResult, hne]
    · simp [fileAction, hsrc, hdest, hsrc2, hfile, hidx, copyIfMultiple, hm, hptr, he]

theorem C14_io_failure_state_witness :
    (fileUpload { SaveFileMultiple := false }
        { now := "t1", copyErr := none, formErr := none, writeErr := some "disk full" } exState
        { path := "/docs", filename := "b.bin", md5 := "h2", current := "1" }).st = exState
      ∧ (fileCheck { SaveFileMultiple := true }
        { now := "t1", copyErr := some "disk full", formErr := none, writeErr := none } exState
        { Path := "/docs", Filename := "c.txt", MD5 := "h1", Total := 1, Size := 10 }).st
          = exState :=
  have h := C14_io_failure_state
  ⟨((h { SaveFileMultiple := false }
      { now := "t1", copyErr := none, formErr := none, writeErr := some "disk full" } exState).1
      { path := "/docs", filename := "b.bin", md5 := "h2", current := "1" } "disk full" rfl).1,
   ((h { SaveFileMultiple := true }
      { now := "t1", copyErr := some "disk full", formErr := none, writeErr := none }
      exState).2.1
      { Path := "/docs", Filename := "c.txt", MD5 := "h1", Total := 1, Size := 10 }
      exState ["docs"] exDocs
      { File := "/data/docs/a.txt", Size := 10, Ptr := ["/data/docs/a.txt"] }
      "/data/docs/a.txt" "disk full"
      (by decide) (by rfl) (by rfl) (by rfl) rfl rfl rfl).2.1⟩

/-- C14, as stated, fails: in independent-copy mode a pre-upload check for the known hash
`h1` under the new path `/pics` meets a failing `CopyFile`; it answers the failure, and the
directory `/pics`, which did not exist before the call, exists after it. -/
theorem C14_io_failure_state_counterexample :
    (fileCheck { SaveFileMultiple := true }
        { now := "t1", copyErr := some "disk full", formErr := none, writeErr := none } exState
        { Path := "/pics", Filename := "c.txt", MD5 := "h1", Total := 1, Size := 10 }).out =
        [{ Ok := false, Message := "disk full", Need := false, Upload := none }]
      ∧ getNode ["pics"] exState.root = none
      ∧ (getNode ["pics"] (fileCheck { SaveFileMultiple := true }
          { now := "t1", copyErr := some "disk full", formErr := none, writeErr := none } exState
          { Path := "/pics", Filename := "c.txt", MD5 := "h1", Total := 1, Size := 10 }).st.root).map
            fileInfo.fields =
          some { Name := "pics", AbsPath := "/data/pics", IsDir := true } := by
  refine ⟨by rfl, by rfl, by rfl⟩

/-- C15 (as amended). For a `fileAction` request whose source directory resolves and has no
child named filename, the destination not lying at or below a child of that name,
`fileAction` answers the failure envelope, calls no file primitive, installs no record and
registers nothing: the state after the call is the state as the resolution of the
destination left it, that is the state before the call when the destination path resolved
already, with the same index in any case. -/
theorem C15_fileAction_missing_source (config : Config) (env : Env)
    (filePtr fp1 fp2 : fileHandle) (req : fileActionReq) (srcInfo destInfo : List String)
    (srcDir destDir : fileInfo)
    (hsrc : findPath filePtr req.src false = .ok (fp1, srcInfo, srcDir))
    (hdest : findPath fp1 req.dest true = .ok (fp2, destInfo, destDir))
    (hno : mapGet srcDir.FileInfos req.filename = none)
    (hthru : passesThrough srcInfo req.filename destInfo = false) :
    (fileAction config env filePtr req).out =
        [{ Ok := false, Message := "request argument failed" }]
      ∧ (fileAction config env filePtr req).io = []
      ∧ (fileAction config env filePtr req).crashed = false
      ∧ (fileAction config env filePtr req).st = fp2
      ∧ fp2.MD5Files = filePtr.MD5Files
      ∧ ((getNode (splitPath req.dest) filePtr.root).isSome = true → fp2 = filePtr) := by
  obtain ⟨hfp1, _, hsnode⟩ := findPath_false _ _ _ _ _ hsrc
  rw [hfp1] at hsrc hdest
  obtain ⟨hmd5, _, _⟩ := findPath_ok _ _ _ _ _ _ hdest
  obtain ⟨s2, hs2, _, hrest⟩ := findPath_frame _ _ _ _ _ srcInfo _ srcDir hdest hsnode
  have hno2 : mapGet s2.FileInfos req.filename = none := by
    rw [hrest req.filename hthru, hno]
  refine ⟨?_, ?_, ?_, ?_, hmd5, findPath_same_of_resolves _ _ _ _ _ _ hdest⟩
  · simp [fileAction, hsrc, hdest, hs2, hno2, respResult]
  · simp [fileAction, hsrc, hdest, hs2, hno2]
  · simp [fileAction, hsrc, hdest, hs2, hno2]
  · simp [fileAction, hsrc, hdest, hs2, hno2]

theorem C15_fileAction_missing_source_witness :
    (fileAction { SaveFileMultiple := false } exEnv exState
        { action := "move", filename := "nope.txt", src := "/docs", dest := "/docs/sub" }).out =
        [{ Ok := false, Message := "request argument failed" }]
      ∧ (fileAction { SaveFileMultiple := false } exEnv exState
        { action := "move", filename := "nope.txt", src := "/docs", dest := "/docs/sub" }).st
          = exState :=
  have h := C15_fileAction_missing_source { SaveFileMultiple := false } exEnv exState exState
    exState { action := "move", filename := "nope.txt", src := "/docs", dest := "/docs/sub" }
    ["docs"] ["docs", "sub"] exDocs
    (.mk { Path := "docs", Name := "sub", AbsPath := "/data/docs/sub", IsDir := true } [])
    (by rfl) (by rfl) (by rfl) (by rfl)
  ⟨h.1, h.2.2.2.1⟩

/-- C15, as stated, fails: a move of `nope.txt`, which `/docs` does not hold, to the path
`/newdir`, which does not exist, is answered by the failure, and the directory `/newdir`
exists after the call. -/
theorem C15_fileAction_missing_source_counterexample :
    (fileAction { SaveFileMultiple := false } exEnv exState
        { action := "move", filename := "nope.txt", src := "/docs", dest := "/newdir" }).out =
        [{ Ok := false, Message := "request argument failed" }]
      ∧ getNode ["newdir"] exState.root = none
      ∧ (getNode ["newdir"] (fileAction { SaveFileMultiple := false } exEnv exState
          { action := "move", filename := "nope.txt", src := "/docs", dest := "/newdir" }).st.root).map
            fileInfo.fields =
          some { Name := "newdir", AbsPath := "/data/newdir", IsDir := true } := by
  refine ⟨by rfl, by rfl, by rfl⟩

/-! ## C16, C19: `fileAction` on a source record that is not Complete -/

/-- C16 (evaluation at a failing input). In shared-copy mode, after a pre-upload check has
created the Pending record `/docs/a.txt` (unknown hash, no chunk received), a copy of
`a.txt` to `/x` is answered by a success and installs in `/x` a record with FileOk = true;
the listing of `/x` then returns an item for `a.txt`, while the source record is still
Pending with an empty received set. -/
theorem C16_fileAction_exposes_pending :
    (fileList (fileAction { SaveFileMultiple := false } exEnv
        (fileCheck { SaveFileMultiple := false } exEnv exEmpty
          { Path := "/docs", Filename := "a.txt", MD5 := "deadbeef", Total := 3, Size := 300 }).st
        { action := "copy", filename := "a.txt", src := "/docs", dest := "/x" }).st "/x").out =
        [{ Ok := true, Total := 0, Count := 1,
           Items := some [("a.txt", { Filename := "a.txt", IsDir := false, Size := 0,
                                      Date := "t1" })] }]
      ∧ (fileAction { SaveFileMultiple := false } exEnv
        (fileCheck { SaveFileMultiple := false } exEnv exEmpty
          { Path := "/docs", Filename := "a.txt", MD5 := "deadbeef", Total := 3, Size := 300 }).st
        { action := "copy", filename := "a.txt", src := "/docs", dest := "/x" }).out =
        [{ Ok := true, Message := "" }]
      ∧ ((getNode ["docs"] (fileAction { SaveFileMultiple := false } exEnv
          (fileCheck { SaveFileMultiple := false } exEnv exEmpty
            { Path := "/docs", Filename := "a.txt", MD5 := "deadbeef", Total := 3,
              Size := 300 }).st
          { action := "copy", filename := "a.txt", src := "/docs", dest := "/x" }).st.root).bind
            (fun d => mapGet d.FileInfos "a.txt")).map
              (fun f => (f.fields.FileOk, f.fields.Upload)) =
          some (false, some { Size := 300, MD5 := "deadbeef", SliceCnt := 3, UpSlice := [] }) := by
  refine ⟨by rfl, by rfl, by rfl⟩

/-- C19 (evaluation at a failing input). In independent-copy mode, after a pre-upload check
has created the Pending record `/docs/a.txt`, whose hash has no index entry, a copy of
`a.txt` to `/x` reads `files.Ptr[0]` on the missing entry: `fileAction` stops on the
run-time error and writes no envelope. The same happens for the directory record `docs` of
the root, whose hash is empty. -/
theorem C19_fileAction_reads_missing_entry :
    mapGet (fileCheck { SaveFileMultiple := true } exEnv exEmpty
        { Path := "/docs", Filename := "a.txt", MD5 := "deadbeef", Total := 3, Size := 300 }
      ).st.MD5Files "deadbeef" = none
      ∧ (fileAction { SaveFileMultiple := true } exEnv
        (fileCheck { SaveFileMultiple := true } exEnv exEmpty
          { Path := "/docs", Filename := "a.txt", MD5 := "deadbeef", Total := 3, Size := 300 }).st
        { action := "copy", filename := "a.txt", src := "/docs", dest := "/x" }).crashed = true
      ∧ (fileAction { SaveFileMultiple := true } exEnv
        (fileCheck { SaveFileMultiple := true } exEnv exEmpty
          { Path := "/docs", Filename := "a.txt", MD5 := "deadbeef", Total := 3, Size := 300 }).st
        { action := "copy", filename := "a.txt", src := "/docs", dest := "/x" }).out = []
      ∧ (fileAction { SaveFileMultiple := true } exEnv
        (fileCheck { SaveFileMultiple := true } exEnv exEmpty
          { Path := "/docs", Filename := "a.txt", MD5 := "deadbeef", Total := 3, Size := 300 }).st
        { action := "copy", filename := "docs", src := "/", dest := "/x" }).crashed = true := by
  refine ⟨by rfl, by rfl, by rfl, by rfl⟩

/-! ## Record invariants: lemmas -/

theorem mem_of_mapGet {α : Type} (m : List (String × α)) (k : String) (v : α)
    (h : mapGet m k = some v) : (k, v) ∈ m := by
  induction m with
  | nil => simp [mapGet] at h
  | cons hd t ih =>
    obtain ⟨a, b⟩ := hd
    by_cases hak : a = k
    · simp only [mapGet, hak, if_true, Option.some.injEq] at h
      subst h; subst hak
      exact List.mem_cons_self _ _
    · simp only [mapGet, hak, if_false] at h
      exact List.mem_cons_of_mem _ (ih h)

theorem mem_mapSet {α : Type} (m : List (String × α)) (k : String) (v : α) (kv : String × α)
    (h : kv ∈ mapSet m k v) : kv ∈ m ∨ kv = (k, v) := by
  induction m with
  | nil => simpa [mapSet] using h
  | cons hd t ih =>
    obtain ⟨a, b⟩ := hd
    by_cases hak : a = k
    · simp only [mapSet, hak, if_true, List.mem_cons] at h
      rcases h with h | h
      · exact Or.inr h
      · exact Or.inl (List.mem_cons_of_mem _ h)
    · simp only [mapSet, hak, if_false, List.mem_cons] at h
      rcases h with h | h
      · exact Or.inl (by rw [h]; exact List.mem_cons_self _ _)
      · rcases ih h with h1 | h1
        · exact Or.inl (List.mem_cons_of_mem _ h1)
        · exact Or.inr h1

theorem mem_mapDel {α : Type} (m : List (String × α)) (k : String) (kv : String × α)
    (h : kv ∈ mapDel m k) : kv ∈ m := by
  induction m with
  | nil => simp [mapDel] at h
  | cons hd t ih =>
    obtain ⟨a, b⟩ := hd
    by_cases hak : a = k
    · simp only [mapDel, hak, if_true] at h
      exact List.mem_cons_of_mem _ (ih h)
    · simp only [mapDel, hak, if_false, List.mem_cons] at h
      rcases h with h | h
      · rw [h]; exact List.mem_cons_self _ _
      · exact List.mem_cons_of_mem _ (ih h)

theorem mem_mapKeys_mapSet {α : Type} (m : List (String × α)) (k : String) (v : α) (x : String) :
    x ∈ mapKeys (mapSet m k v) ↔ x ∈ mapKeys m ∨ x = k := by
  induction m with
  | nil => simp [mapSet, mapKeys]
  | cons hd t ih =>
    obtain ⟨a, b⟩ := hd
    by_cases hak : a = k
    · subst hak
      simp only [mapSet, if_true, mapKeys, List.map_cons, List.mem_cons]
      tauto
    · simp only [mapKeys] at ih
      simp only [mapSet, hak, if_false, mapKeys, List.map_cons, List.mem_cons, ih]
      tauto

/-- Registration keeps every key of the index and makes the registered hash a key. -/
theorem mem_mapKeys_addMD5File (config : Config) (m : List (String × md5File)) (md5 : String)
    (info : fileFields) :
    (∀ k, k ∈ mapKeys m → k ∈ mapKeys (addMD5File config m md5 info))
      ∧ md5 ∈ mapKeys (addMD5File config m md5 info) := by
  unfold addMD5File
  cases hg : mapGet m md5 with
  | none =>
    simp only []
    exact ⟨fun k hk => (mem_mapKeys_mapSet _ _ _ _).2 (Or.inl hk),
      (mem_mapKeys_mapSet _ _ _ _).2 (Or.inr rfl)⟩
  | some e =>
    simp only []
    have hmem : md5 ∈ mapKeys m := by
      by_contra hn
      rw [(mapGet_eq_none_iff _ _).2 hn] at hg
      simp at hg
    by_cases hm : config.SaveFileMultiple = true
    · simp only [hm, if_true]
      exact ⟨fun k hk => (mem_mapKeys_mapSet _ _ _ _).2 (Or.inl hk),
        (mem_mapKeys_mapSet _ _ _ _).2 (Or.inr rfl)⟩
    · simp only [hm, Bool.false_eq_true, if_false]
      exact ⟨fun k hk => hk, hmem⟩

theorem AllRecs_iff (P : fileFields → Prop) (n : fileInfo) :
    AllRecs P n ↔ ∀ kv ∈ n.FileInfos, P kv.2.fields ∧ AllRecs P kv.2 := by
  constructor
  · intro h
    cases h with
    | mk f kids h1 h2 => exact fun kv hkv => ⟨h1 kv hkv, h2 kv hkv⟩
  · intro h
    cases n with
    | mk f kids => exact AllRecs.mk f kids (fun kv hkv => (h kv hkv).1) (fun kv hkv => (h kv hkv).2)

theorem AllRecs_mono (P Q : fileFields → Prop) (hPQ : ∀ r, P r → Q r) (n : fileInfo)
    (h : AllRecs P n) : AllRecs Q n := by
  induction h with
  | mk f kids h1 _ ih => exact AllRecs.mk f kids (fun kv hkv => hPQ _ (h1 kv hkv)) ih

theorem AllRecs_child (P : fileFields → Prop) (n : fileInfo) (k : String) (c : fileInfo)
    (h : AllRecs P n) (hc : mapGet n.FileInfos k = some c) : P c.fields ∧ AllRecs P c :=
  (AllRecs_iff P n).1 h (k, c) (mem_of_mapGet _ _ _ hc)

theorem AllRecs_withFields (P : fileFields → Prop) (n : fileInfo) (f : fileFields)
    (h : AllRecs P n) : AllRecs P (n.withFields f) := by
  rw [AllRecs_iff] at h ⊢
  exact h

theorem AllRecs_leaf (P : fileFields → Prop) (f : fileFields) : AllRecs P (.mk f []) :=
  AllRecs.mk f [] (fun _ h => by simp at h) (fun _ h => by simp at h)

theorem AllRecs_setChild (P : fileFields → Prop) (n : fileInfo) (k : String) (c : fileInfo)
    (h : AllRecs P n) (hc : P c.fields) (hcs : AllRecs P c) : AllRecs P (n.setChild k c) := by
  rw [AllRecs_iff] at h ⊢
  intro kv hkv
  rcases mem_mapSet _ _ _ _ hkv with h1 | h1
  · exact h kv h1
  · subst h1
    exact ⟨hc, hcs⟩

theorem AllRecs_delChild (P : fileFields → Prop) (n : fileInfo) (k : String)
    (h : AllRecs P n) : AllRecs P (n.delChild k) := by
  rw [AllRecs_iff] at h ⊢
  intro kv hkv
  exact h kv (mem_mapDel _ _ _ hkv)

theorem AllRecs_getNode (P : fileFields → Prop) (a : List String) :
    ∀ (root d : fileInfo), AllRecs P root → getNode a root = some d → AllRecs P d := by
  induction a with
  | nil =>
    intro root d h hg
    simp only [getNode, Option.some.injEq] at hg
    subst hg
    exact h
  | cons s rest ih =>
    intro root d h hg
    simp only [getNode] at hg
    cases hc : mapGet root.FileInfos s with
    | none => simp [hc] at hg
    | some c =>
      simp only [hc] at hg
      by_cases hd : c.fields.IsDir = true
      · simp only [hd, if_true] at hg
        exact ih c d (AllRecs_child P root s c h hc).2 hg
      · simp [hd] at hg

/-- A write through a pointer keeps a property of all records, when the write keeps the
scalar fields of the node it is applied to and keeps the property below it. -/
theorem AllRecs_modifyAt (P : fileFields → Prop) (g : fileInfo → fileInfo)
    (hgf : ∀ d, (g d).fields = d.fields) (hg : ∀ d, AllRecs P d → AllRecs P (g d))
    (a : List String) : ∀ (root : fileInfo), AllRecs P root → AllRecs P (modifyAt g a root) := by
  induction a with
  | nil => intro root h; exact hg root h
  | cons s rest ih =>
    intro root h
    simp only [modifyAt]
    cases hc : mapGet root.FileInfos s with
    | none => exact h
    | some c =>
      simp only []
      by_cases hd : c.fields.IsDir = true
      · simp only [hd, if_true]
        obtain ⟨hpc, hac⟩ := AllRecs_child P root s c h hc
        have hf : (modifyAt g rest c).fields = c.fields := by
          cases rest with
          | nil => exact hgf c
          | cons s1 r1 =>
            simp only [modifyAt]
            cases mapGet c.FileInfos s1 with
            | none => rfl
            | some c1 =>
              simp only []
              by_cases hd1 : c1.fields.IsDir = true
              · simp [hd1]
              · simp [hd1]
        exact AllRecs_setChild P root s _ h (by rw [hf]; exact hpc) (ih c hac)
      · simp only [hd, Bool.false_eq_true, if_false]
        exact h

/-- Installing a record through a pointer keeps a property of all records that the record
and the records below it have. -/
theorem AllRecs_setChildAt (P : fileFields → Prop) (root : fileInfo) (info : List String)
    (k : String) (c : fileInfo) (h : AllRecs P root) (hc : P c.fields) (hcs : AllRecs P c) :
    AllRecs P (setChildAt root info k c) :=
  AllRecs_modifyAt P (fun n => n.setChild k c) (fun _ => rfl)
    (fun d hd => AllRecs_setChild P d k c hd hc hcs) info root h

/-- A walk keeps a property of all records that the directories it creates have. -/
theorem AllRecs_walk (P : fileFields → Prop)
    (hdir : ∀ r, r.FileOk = false → r.IsDir = true → r.Upload = none → P r)
    (create : Bool) (a : List String) :
    ∀ (n n1 d : fileInfo), AllRecs P n → walk create a n = .ok (n1, d) → AllRecs P n1 := by
  induction a with
  | nil =>
    intro n n1 d h hw
    simp only [walk, Except.ok.injEq, Prod.mk.injEq] at hw
    rw [← hw.1]
    exact h
  | cons s rest ih =>
    intro n n1 d h hw
    simp only [walk] at hw
    cases hc : mapGet n.FileInfos s with
    | some c =>
      simp only [hc] at hw
      by_cases hd : c.fields.IsDir = true
      · simp only [hd, if_true] at hw
        cases hw1 : walk create rest c with
        | error e => simp [hw1] at hw
        | ok p =>
          obtain ⟨c1, d1⟩ := p
          simp only [hw1, Except.ok.injEq, Prod.mk.injEq] at hw
          rw [← hw.1]
          obtain ⟨hpc, hac⟩ := AllRecs_child P n s c h hc
          obtain ⟨_, hf⟩ := walk_getNode _ _ _ _ _ hw1
          exact AllRecs_setChild P n s c1 h (by rw [hf]; exact hpc) (ih c c1 d1 hac hw1)
      · simp [hd] at hw
    | none =>
      simp only [hc] at hw
      cases create with
      | false => simp at hw
      | true =>
        simp only [if_true] at hw
        cases hw1 : walk true rest (newDir n s) with
        | error e => simp [hw1] at hw
        | ok p =>
          obtain ⟨c1, d1⟩ := p
          simp only [hw1, Except.ok.injEq, Prod.mk.injEq] at hw
          rw [← hw.1]
          obtain ⟨_, hf⟩ := walk_getNode _ _ _ _ _ hw1
          exact AllRecs_setChild P n s c1 h (by rw [hf]; exact hdir _ rfl rfl rfl)
            (ih (newDir n s) c1 d1 (AllRecs_leaf P _) hw1)

/-- A resolution keeps an invariant of all records, and the node it returns is in the tree
it returns. -/
theorem AllRecs_findPath (P : List (String × md5File) → fileFields → Prop)
    (hP : RecordInvariant P) (create : Bool) (filePtr fp1 : fileHandle) (path : String)
    (info : List String) (dir : fileInfo)
    (h : AllRecs (P filePtr.MD5Files) filePtr.root)
    (hres : findPath filePtr path create = .ok (fp1, info, dir)) :
    AllRecs (P filePtr.MD5Files) fp1.root ∧ fp1.MD5Files = filePtr.MD5Files
      ∧ getNode info fp1.root = some dir ∧ AllRecs (P filePtr.MD5Files) dir := by
  obtain ⟨hmd5, _, hnode⟩ := findPath_ok _ _ _ _ _ _ hres
  have hall : AllRecs (P filePtr.MD5Files) fp1.root := by
    simp only [findPath] at hres
    cases hw : walk create (splitPath path) filePtr.root with
    | error e => simp [hw] at hres
    | ok p =>
      obtain ⟨r1, d1⟩ := p
      simp only [hw, Except.ok.injEq, Prod.mk.injEq] at hres
      rw [← hres.1]
      exact AllRecs_walk _ (hP.directory _) create _ _ _ _ h hw
  exact ⟨hall, hmd5, hnode, AllRecs_getNode _ _ _ _ hall hnode⟩

/-- A write through a pointer depends on the writing function at the pointed node only. -/
theorem modifyAt_congr (g h : fileInfo → fileInfo) (a : List String) :
    ∀ (root d : fileInfo), getNode a root = some d → g d = h d →
      modifyAt g a root = modifyAt h a root := by
  induction a with
  | nil =>
    intro root d hg hgh
    simp only [getNode, Option.some.injEq] at hg
    subst hg
    simpa [modifyAt] using hgh
  | cons s rest ih =>
    intro root d hg hgh
    simp only [getNode] at hg
    cases hc : mapGet root.FileInfos s with
    | none => simp [hc] at hg
    | some c =>
      simp only [hc] at hg
      by_cases hd : c.fields.IsDir = true
      · simp only [hd, if_true] at hg
        simp only [modifyAt, hc, hd, if_true, ih c d hg hgh]
      · simp [hd] at hg

/-- A removal through a pointer keeps a property of all records. -/
theorem AllRecs_removeAt (P : fileFields → Prop) (root root1 : fileInfo) (info : List String)
    (filename : String) (h : AllRecs P root)
    (hrem : removeAt root info filename = .ok root1) : AllRecs P root1 := by
  simp only [removeAt] at hrem
  cases hn : getNode info root with
  | none => simp [hn] at hrem
  | some n =>
    simp only [hn] at hrem
    cases hr : remove n filename with
    | error e => simp [hr] at hrem
    | ok n1 =>
      simp only [hr, Except.ok.injEq] at hrem
      have hn1 : n1 = n.delChild filename := by
        simp only [remove] at hr
        cases hc : mapGet n.FileInfos filename with
        | none => simp [hc] at hr
        | some c =>
          simp only [hc] at hr
          by_cases hd : (c.fields.IsDir && !c.FileInfos.isEmpty) = true
          · simp [hd] at hr
          · simp only [hd, Bool.false_eq_true, if_false, Except.ok.injEq] at hr
            exact hr.symm
      rw [← hrem, modifyAt_congr (fun _ => n1) (fun x => x.delChild filename) info root n hn hn1]
      exact AllRecs_modifyAt P (fun x => x.delChild filename) (fun _ => rfl)
        (fun d hd => AllRecs_delChild P d filename hd) info root h

/-! ## Record invariants: the handlers -/

/-- Installing a record, the index growing or staying, keeps a record invariant. -/
theorem TreeInv_install (P : List (String × md5File) → fileFields → Prop)
    (hP : RecordInvariant P) (root : fileInfo) (m m1 : List (String × md5File))
    (info : List String) (k : String) (c : fileInfo)
    (h : AllRecs (P m) root) (hm : ∀ x, x ∈ mapKeys m → x ∈ mapKeys m1)
    (hc : P m1 c.fields) (hcs : AllRecs (P m1) c) :
    TreeInv P ⟨setChildAt root info k c, m1⟩ :=
  AllRecs_setChildAt _ _ _ _ _ (AllRecs_mono _ _ (fun r hr => hP.mono m m1 r hm hr) root h) hc hcs

/-- The merge keeps a record invariant of the record it is applied to and of the records
below it, relative to the index it returns, which keeps every key. -/
theorem mergeUpload_inv (P : List (String × md5File) → fileFields → Prop)
    (hP : RecordInvariant P) (config : Config) (now : String) (m : List (String × md5File))
    (file : fileInfo) (hf : P m file.fields) (hfs : AllRecs (P m) file) :
    (∀ x, x ∈ mapKeys m → x ∈ mapKeys (mergeUpload config now m file).2.1)
      ∧ P (mergeUpload config now m file).2.1 (mergeUpload config now m file).1.fields
      ∧ AllRecs (P (mergeUpload config now m file).2.1) (mergeUpload config now m file).1 := by
  unfold mergeUpload
  cases hu : file.fields.Upload with
  | none => exact ⟨fun _ h => h, hf, hfs⟩
  | some u =>
    simp only []
    by_cases hc : (u.UpSlice.length : Int) = u.SliceCnt
    · simp only [hc, if_true]
      obtain ⟨hkeys, hnew⟩ := mem_mapKeys_addMD5File config m u.MD5
        { file.fields with
          FileMD5 := u.MD5, FileOk := true, FileSize := u.Size, FileDate := now, Upload := none }
      refine ⟨hkeys, hP.complete _ _ rfl rfl hnew, ?_⟩
      exact AllRecs_withFields _ _ _
        (AllRecs_mono _ _ (fun r hr => hP.mono _ _ r hkeys hr) file hfs)
    · simp only [hc, if_false]
      exact ⟨fun _ h => h, hf, hfs⟩

/-- Marking a new chunk index and merging keeps a record invariant of the record, relative
to the index the merge returns, which keeps every key. -/
theorem markReceived_mergeUpload_inv (P : List (String × md5File) → fileFields → Prop)
    (hP : RecordInvariant P) (config : Config) (now : String) (m : List (String × md5File))
    (file : fileInfo) (u : upload) (c : String)
    (hf : P m file.fields) (hfs : AllRecs (P m) file)
    (hup : file.fields.Upload = some u) (hc : c ≠ "") (hrec : mapGet u.UpSlice c = none) :
    (∀ x, x ∈ mapKeys m → x ∈ mapKeys (mergeUpload config now m (markReceived file u c)).2.1)
      ∧ P (mergeUpload config now m (markReceived file u c)).2.1
          (mergeUpload config now m (markReceived file u c)).1.fields
      ∧ AllRecs (P (mergeUpload config now m (markReceived file u c)).2.1)
          (mergeUpload config now m (markReceived file u c)).1 := by
  by_cases hfull : ((mapSet u.UpSlice c "").length : Int) = u.SliceCnt
  · have hmerge : mergeUpload config now m (markReceived file u c) =
        ((markReceived file u c).withFields
          { (markReceived file u c).fields with
            FileMD5 := u.MD5, FileOk := true, FileSize := u.Size, FileDate := now,
            Upload := none },
         addMD5File config m u.MD5
          { (markReceived file u c).fields with
            FileMD5 := u.MD5, FileOk := true, FileSize := u.Size, FileDate := now,
            Upload := none },
         [Effect.mergeParts file.fields.AbsPath (mapKeys (mapSet u.UpSlice c ""))]) := by
      simp [mergeUpload, markReceived, hfull]
    rw [hmerge]
    obtain ⟨hkeys, hnew⟩ := mem_mapKeys_addMD5File config m u.MD5
      { (markReceived file u c).fields with
        FileMD5 := u.MD5, FileOk := true, FileSize := u.Size, FileDate := now, Upload := none }
    refine ⟨hkeys, hP.complete _ _ rfl rfl hnew, ?_⟩
    exact AllRecs_withFields _ _ _ (AllRecs_withFields _ _ _
      (AllRecs_mono _ _ (fun r hr => hP.mono _ _ r hkeys hr) file hfs))
  · have hmerge : mergeUpload config now m (markReceived file u c) =
        (markReceived file u c, m, []) := by
      simp [mergeUpload, markReceived, hfull]
    rw [hmerge]
    exact ⟨fun _ h => h, hP.mark _ _ u c hup hc hrec hfull hf, AllRecs_withFields _ _ _ hfs⟩

theorem fileList_st (filePtr : fileHandle) (filePath : String) :
    (fileList filePtr filePath).st = filePtr := by
  cases hres : findPath filePtr filePath false with
  | error e => simp [fileList, hres]
  | ok p =>
    obtain ⟨fp1, info, dir⟩ := p
    obtain ⟨hfp, _, _⟩ := findPath_false _ _ _ _ _ hres
    simp [fileList, hres, hfp]

theorem fileMkdir_st (filePtr : fileHandle) (filePath : String) :
    (fileMkdir filePtr filePath).st = filePtr := by
  by_cases hp : filePath = ""
  · simp [fileMkdir, hp]
  · cases hres : findPath filePtr filePath false with
    | error e => simp [fileMkdir, hp, hres]
    | ok p =>
      obtain ⟨fp1, info, dir⟩ := p
      obtain ⟨hfp, _, _⟩ := findPath_false _ _ _ _ _ hres
      simp [fileMkdir, hp, hres, hfp]

/-- `fileDelete` keeps every record invariant. -/
theorem TreeInv_fileDelete (P : List (String × md5File) → fileFields → Prop)
    (filePtr : fileHandle) (filePath filename : String) (h : TreeInv P filePtr) :
    TreeInv P (fileDelete filePtr filePath filename).st := by
  by_cases hf : filename = ""
  · simpa [fileDelete, hf] using h
  · cases hres : findPath filePtr filePath false with
    | error e => simpa [fileDelete, hf, hres] using h
    | ok p =>
      obtain ⟨fp1, info, dir⟩ := p
      obtain ⟨hfp, _, _⟩ := findPath_false _ _ _ _ _ hres
      subst hfp
      cases hrem : removeAt fp1.root info filename with
      | error e => simpa [fileDelete, hf, hres, hrem] using h
      | ok root1 =>
        simp only [fileDelete, hf, if_false, hres, hrem]
        exact AllRecs_removeAt _ _ _ _ _ h hrem

/-- `fileUpload` keeps every record invariant. -/
theorem TreeInv_fileUpload (P : List (String × md5File) → fileFields → Prop)
    (hP : RecordInvariant P) (config : Config) (env : Env) (filePtr : fileHandle)
    (req : fileUploadReq) (h : TreeInv P filePtr) :
    TreeInv P (fileUpload config env filePtr req).st := by
  rcases fileUpload_st_eq_or_ingest config env filePtr req with
    hst | ⟨hacc, info, dir, file, u, hres, hfile, hup, hmd5, hrec, hf, hw⟩
  · rw [hst]; exact h
  · obtain ⟨_, _, _, hdir⟩ := AllRecs_findPath P hP _ _ _ _ _ _ h hres
    obtain ⟨hpf, haf⟩ := AllRecs_child _ _ _ _ hdir hfile
    have hcur : req.current ≠ "" := fun hc => hacc (Or.inr (Or.inr (Or.inr hc)))
    obtain ⟨hk, hp2, ha2⟩ := markReceived_mergeUpload_inv P hP config env.now
      filePtr.MD5Files file u req.current hpf haf hup hcur hrec
    rw [fileUpload_ingest config env filePtr req info dir file u _ _ _
      hacc hres hfile hup hmd5 hrec hf hw rfl]
    exact TreeInv_install P hP _ _ _ _ _ _ h hk hp2 ha2

/-- `fileCheck` keeps every record invariant. -/
theorem TreeInv_fileCheck (P : List (String × md5File) → fileFields → Prop)
    (hP : RecordInvariant P) (config : Config) (env : Env) (filePtr : fileHandle)
    (req : fileCheckReq) (h : TreeInv P filePtr) :
    TreeInv P (fileCheck config env filePtr req).st := by
  by_cases hacc : req.Path = "" ∨ req.Filename = "" ∨ req.MD5 = "" ∨ req.Size = 0 ∨ req.Total = 0
  · simpa [fileCheck, hacc] using h
  · cases hres : findPath filePtr req.Path true with
    | error e => simpa [fileCheck, hacc, hres] using h
    | ok p =>
      obtain ⟨fp1, info, dir⟩ := p
      obtain ⟨h1, hmd5, _, hdir⟩ := AllRecs_findPath P hP _ _ _ _ _ _ h hres
      rw [← hmd5] at h1 hdir
      have hfp1 : TreeInv P fp1 := h1
      have htot : req.Total ≠ 0 := fun ht => hacc (Or.inr (Or.inr (Or.inr (Or.inr ht))))
      cases hfile : mapGet dir.FileInfos req.Filename with
      | none =>
        cases hidx : mapGet fp1.MD5Files req.MD5 with
        | none =>
          have hst : (fileCheck config env filePtr req).st =
              ⟨setChildAt fp1.root info req.Filename
                (.mk { Path := filepathJoin dir.fields.Path dir.fields.Name,
                       Name := req.Filename,
                       AbsPath := filepathJoin dir.fields.AbsPath req.Filename,
                       FileMD5 := req.MD5,
                       Upload := some { Size := req.Size, MD5 := req.MD5,
                                        SliceCnt := req.Total, UpSlice := [] } } []),
               fp1.MD5Files⟩ := by
            simp only [fileCheck, hacc, if_false, hres, hfile, hidx]
          rw [hst]
          exact TreeInv_install P hP _ _ _ _ _ _ h1 (fun _ hx => hx)
            (hP.pending _ _ _ rfl rfl rfl htot) (AllRecs_leaf _ _)
        | some files =>
          cases hstep : copyIfMultiple config env (some files)
              (filepathJoin dir.fields.AbsPath req.Filename) with
          | nilDeref =>
            have hst : (fileCheck config env filePtr req).st = fp1 := by
              simp only [fileCheck, hacc, if_false, hres, hfile, hidx, hstep]
            rw [hst]; exact hfp1
          | failed err io =>
            have hst : (fileCheck config env filePtr req).st = fp1 := by
              simp only [fileCheck, hacc, if_false, hres, hfile, hidx, hstep]
            rw [hst]; exact hfp1
          | done io =>
            have hst : (fileCheck config env filePtr req).st =
                ⟨setChildAt fp1.root info req.Filename
                  (.mk { Path := filepathJoin dir.fields.Path dir.fields.Name,
                         Name := req.Filename,
                         AbsPath := filepathJoin dir.fields.AbsPath req.Filename,
                         FileMD5 := req.MD5, FileOk := true, FileSize := files.Size,
                         FileDate := env.now } []),
                 addMD5File config fp1.MD5Files req.MD5
                  { Path := filepathJoin dir.fields.Path dir.fields.Name,
                    Name := req.Filename,
                    AbsPath := filepathJoin dir.fields.AbsPath req.Filename,
                    FileMD5 := req.MD5, FileOk := true, FileSize := files.Size,
                    FileDate := env.now }⟩ := by
              simp only [fileCheck, hacc, if_false, hres, hfile, hidx, hstep]
            rw [hst]
            obtain ⟨hk, hnew⟩ := mem_mapKeys_addMD5File config fp1.MD5Files req.MD5
              { Path := filepathJoin dir.fields.Path dir.fields.Name, Name := req.Filename,
                AbsPath := filepathJoin dir.fields.AbsPath req.Filename, FileMD5 := req.MD5,
                FileOk := true, FileSize := files.Size, FileDate := env.now }
            exact TreeInv_install P hP _ _ _ _ _ _ h1 hk (hP.complete _ _ rfl rfl hnew)
              (AllRecs_leaf _ _)
      | some file =>
        obtain ⟨hpf, haf⟩ := AllRecs_child _ _ _ _ hdir hfile
        have hattach : TreeInv P ⟨setChildAt fp1.root info req.Filename
            (file.withFields { file.fields with
              Upload := some { Size := req.Size, MD5 := req.MD5, SliceCnt := req.Total,
                               UpSlice := [] } }), fp1.MD5Files⟩ :=
          TreeInv_install P hP _ _ _ _ _ _ h1 (fun _ hx => hx) (hP.attach _ _ _ rfl htot hpf)
            (AllRecs_withFields _ _ _ haf)
        have hclear : ∀ u, file.fields.Upload = some u →
            clearUpload file = (file.withFields { file.fields with Upload := none },
              [Effect.removeParts file.fields.AbsPath (mapKeys u.UpSlice)]) := by
          intro u hu
          simp [clearUpload, hu]
        cases hd : file.fields.IsDir with
        | true =>
          have hst : (fileCheck config env filePtr req).st = fp1 := by
            simp only [fileCheck, hacc, if_false, hres, hfile, hd, if_true]
          rw [hst]; exact hfp1
        | false =>
          cases hup : file.fields.Upload with
          | none =>
            by_cases hsame : file.fields.FileMD5 = req.MD5
            · have hst : (fileCheck config env filePtr req).st = fp1 := by
                simp only [fileCheck, hacc, if_false, hres, hfile, hd, hup]
                simp [hsame]
              rw [hst]; exact hfp1
            · have hst : (fileCheck config env filePtr req).st =
                  ⟨setChildAt fp1.root info req.Filename
                    (file.withFields { file.fields with
                      Upload := some { Size := req.Size, MD5 := req.MD5,
                                       SliceCnt := req.Total, UpSlice := [] } }),
                   fp1.MD5Files⟩ := by
                simp only [fileCheck, hacc, if_false, hres, hfile, hd, hup]
                simp [hsame]
              rw [hst]; exact hattach
          | some u =>
            by_cases hm : u.MD5 = req.MD5
            · by_cases hsame : file.fields.FileMD5 = req.MD5
              · have hst : (fileCheck config env filePtr req).st = fp1 := by
                  simp only [fileCheck, hacc, if_false, hres, hfile, hd, hup, hm]
                  simp [hsame]
                rw [hst]; exact hfp1
              · obtain ⟨hk, hp2, ha2⟩ :=
                  mergeUpload_inv P hP config env.now fp1.MD5Files file hpf haf
                have hst : (fileCheck config env filePtr req).st =
                    ⟨setChildAt fp1.root info req.Filename
                      (mergeUpload config env.now fp1.MD5Files file).1,
                     (mergeUpload config env.now fp1.MD5Files file).2.1⟩ := by
                  simp only [fileCheck, hacc, if_false, hres, hfile, hd, hup, hm]
                  simp only [ne_eq, hsame, not_false_eq_true, if_true, Bool.false_eq_true,
                    if_false]
                  cases (mergeUpload config env.now fp1.MD5Files file).1.fields.Upload with
                  | none => rfl
                  | some u1 => rfl
                rw [hst]
                exact TreeInv_install P hP _ _ _ _ _ _ h1 hk hp2 ha2
            · have hst : (fileCheck config env filePtr req).st =
                  ⟨setChildAt fp1.root info req.Filename
                    (file.withFields { file.fields with
                      Upload := some { Size := req.Size, MD5 := req.MD5,
                                       SliceCnt := req.Total, UpSlice := [] } }),
                   fp1.MD5Files⟩ := by
                by_cases hsame : file.fields.FileMD5 = req.MD5
                · simp only [fileCheck, hacc, if_false, hres, hfile, hd, hup, hm, hclear u hup]
                  simp [hsame, fileInfo.withFields]
                · simp only [fileCheck, hacc, if_false, hres, hfile, hd, hup, hm, hclear u hup]
                  simp [hsame, fileInfo.withFields]
              rw [hst]; exact hattach

/-- `fileAction` keeps every record invariant. -/
theorem TreeInv_fileAction (P : List (String × md5File) → fileFields → Prop)
    (hP : RecordInvariant P) (config : Config) (env : Env) (filePtr : fileHandle)
    (req : fileActionReq) (h : TreeInv P filePtr) :
    TreeInv P (fileAction config env filePtr req).st := by
  cases hsrc : findPath filePtr req.src false with
  | error e => simpa [fileAction, hsrc] using h
  | ok p =>
    obtain ⟨fp1, srcInfo, srcDir⟩ := p
    obtain ⟨hfp1, _, _⟩ := findPath_false _ _ _ _ _ hsrc
    subst hfp1
    cases hdest : findPath fp1 req.dest true with
    | error e => simpa [fileAction, hsrc, hdest] using h
    | ok q =>
      obtain ⟨fp2, destInfo, destDir⟩ := q
      obtain ⟨h2, hmd5, _, _⟩ := AllRecs_findPath P hP _ _ _ _ _ _ h hdest
      rw [← hmd5] at h2
      have hfp2 : TreeInv P fp2 := h2
      cases hfile : mapGet ((getNode srcInfo fp2.root).getD srcDir).FileInfos req.filename with
      | none =>
        have hst : (fileAction config env fp1 req).st = fp2 := by
          simp only [fileAction, hsrc, hdest, hfile]
        rw [hst]; exact hfp2
      | some srcFile =>
        cases hstep : copyIfMultiple config env (mapGet fp2.MD5Files srcFile.fields.FileMD5)
            (filepathJoin destDir.fields.AbsPath req.filename) with
        | nilDeref =>
          have hst : (fileAction config env fp1 req).st = fp2 := by
            simp only [fileAction, hsrc, hdest, hfile, hstep]
          rw [hst]; exact hfp2
        | failed err io =>
          have hst : (fileAction config env fp1 req).st = fp2 := by
            simp only [fileAction, hsrc, hdest, hfile, hstep]
          rw [hst]; exact hfp2
        | done io =>
          obtain ⟨hk, hnew⟩ := mem_mapKeys_addMD5File config fp2.MD5Files
            srcFile.fields.FileMD5
            { Path := filepathJoin destDir.fields.Path destDir.fields.Name,
              Name := req.filename,
              AbsPath := filepathJoin destDir.fields.AbsPath req.filename,
              FileMD5 := srcFile.fields.FileMD5, FileOk := true,
              FileSize := srcFile.fields.FileSize, FileDate := env.now }
          have h3 : TreeInv P ⟨setChildAt fp2.root destInfo req.filename
              (.mk { Path := filepathJoin destDir.fields.Path destDir.fields.Name,
                     Name := req.filename,
                     AbsPath := filepathJoin destDir.fields.AbsPath req.filename,
                     FileMD5 := srcFile.fields.FileMD5, FileOk := true,
                     FileSize := srcFile.fields.FileSize, FileDate := env.now } []),
              addMD5File config fp2.MD5Files srcFile.fields.FileMD5
                { Path := filepathJoin destDir.fields.Path destDir.fields.Name,
                  Name := req.filename,
                  AbsPath := filepathJoin destDir.fields.AbsPath req.filename,
                  FileMD5 := srcFile.fields.FileMD5, FileOk := true,
                  FileSize := srcFile.fields.FileSize, FileDate := env.now }⟩ :=
            TreeInv_install P hP _ _ _ _ _ _ h2 hk (hP.complete _ _ rfl rfl hnew)
              (AllRecs_leaf _ _)
          by_cases hmove : req.action = "move"
          · cases hrem : removeAt (setChildAt fp2.root destInfo req.filename
                (.mk { Path := filepathJoin destDir.fields.Path destDir.fields.Name,
                       Name := req.filename,
                       AbsPath := filepathJoin destDir.fields.AbsPath req.filename,
                       FileMD5 := srcFile.fields.FileMD5, FileOk := true,
                       FileSize := srcFile.fields.FileSize, FileDate := env.now } []))
                srcInfo req.filename with
            | error e =>
              simp only [fileAction, hsrc, hdest, hfile, hstep, hmove, if_true, hrem]
              exact h3
            | ok root4 =>
              simp only [fileAction, hsrc, hdest, hfile, hstep, hmove, if_true, hrem]
              exact AllRecs_removeAt _ _ _ _ _ h3 hrem
          · by_cases hcopy : req.action = "copy"
            · simp only [fileAction, hsrc, hdest, hfile, hstep, hmove, if_false, hcopy, if_true]
              exact h3
            · simp only [fileAction, hsrc, hdest, hfile, hstep, hmove, if_false, hcopy]
              exact h3

/-- The three record invariants. -/
theorem hashKnown_invariant : RecordInvariant hashKnown where
  mono := fun _ _ _ hm h hok => hm _ (h hok)
  complete := fun _ _ _ _ hk _ => hk
  pending := fun _ _ _ hno _ _ _ hok => by rw [hno] at hok; simp at hok
  attach := fun _ _ _ _ _ h hok => h hok
  mark := fun _ _ _ _ _ _ _ _ h hok => h hok
  directory := fun _ _ hno _ _ hok => by rw [hno] at hok; simp at hok

theorem settled_invariant : RecordInvariant settled where
  mono := fun _ _ _ _ h => h
  complete := fun _ _ hok _ _ _ => Or.inl hok
  pending := fun _ _ _ _ hup _ _ _ => Or.inr (by rw [hup]; simp)
  attach := fun _ _ _ _ _ _ _ => Or.inr (by simp)
  mark := fun _ _ _ _ _ _ _ _ _ _ => Or.inr (by simp)
  directory := fun _ _ _ hd _ hnd => by rw [hd] at hnd; simp at hnd

theorem openUpload_invariant : RecordInvariant openUpload where
  mono := fun _ _ _ _ h => h
  complete := fun _ _ _ hno _ u hu => by rw [hno] at hu; simp at hu
  pending := fun _ _ u _ hup hsl hcnt u1 hu1 => by
    rw [hup] at hu1
    simp only [Option.some.injEq] at hu1
    subst hu1
    rw [hsl]
    exact ⟨hcnt, by simpa using fun h => hcnt h.symm, by simp [mapKeys], by simp [mapKeys]⟩
  attach := fun _ _ u hsl hcnt _ u1 hu1 => by
    simp only [Option.some.injEq] at hu1
    subst hu1
    rw [hsl]
    exact ⟨hcnt, by simpa using fun h => hcnt h.symm, by simp [mapKeys], by simp [mapKeys]⟩
  mark := fun _ r u c hup hc hrec hlen h u1 hu1 => by
    simp only [Option.some.injEq] at hu1
    subst hu1
    obtain ⟨hcnt, _, hnd, hne⟩ := h u hup
    have hnot : c ∉ mapKeys u.UpSlice := (mapGet_eq_none_iff _ _).1 hrec
    refine ⟨hcnt, hlen, ?_, ?_⟩
    · simp only [mapSet_of_not_mem _ _ _ hnot, mapKeys, List.map_append, List.map_cons,
        List.map_nil]
      refine List.Nodup.append hnd (List.nodup_singleton _) ?_
      simpa [mapKeys] using hnot
    · intro k hk
      rcases (mem_mapKeys_mapSet _ _ _ _).1 hk with h1 | h1
      · exact hne k h1
      · rw [h1]; exact hc
  directory := fun _ _ _ _ hno u hu => by rw [hno] at hu; simp at hu

/-- A record invariant holds of every record of every reachable state. -/
theorem Reachable_TreeInv (P : List (String × md5File) → fileFields → Prop)
    (hP : RecordInvariant P) (config : Config) (st : fileHandle) (h : Reachable config st) :
    TreeInv P st := by
  induction h with
  | empty f => exact AllRecs_leaf _ _
  | list st filePath _ ih => rw [fileList_st]; exact ih
  | delete st filePath filename _ ih => exact TreeInv_fileDelete P st filePath filename ih
  | mkdir st filePath _ ih => rw [fileMkdir_st]; exact ih
  | check st env req _ ih => exact TreeInv_fileCheck P hP config env st req ih
  | upload st env req _ ih => exact TreeInv_fileUpload P hP config env st req ih
  | action st env req _ ih => exact TreeInv_fileAction P hP config env st req ih

/-- A record invariant of the tree, read at a record given by its directory and name. -/
theorem TreeInv_at (P : List (String × md5File) → fileFields → Prop) (st : fileHandle)
    (a : List String) (d : fileInfo) (k : String) (rec : fileInfo) (h : TreeInv P st)
    (hd : getNode a st.root = some d) (hk : mapGet d.FileInfos k = some rec) :
    P st.MD5Files rec.fields :=
  (AllRecs_child _ _ _ _ (AllRecs_getNode _ _ _ _ h hd) hk).1

/-! ## C13: invariants of the reachable states -/

/-- When `fileCheck` answers ok = true with need = false on a state whose records satisfy
the two record invariants, the record for the requested filename exists after the call with
FileOk = true and a hash that is an index key. -/
theorem fileCheck_no_need (config : Config) (env : Env) (filePtr : fileHandle)
    (req : fileCheckReq) (hk : TreeInv hashKnown filePtr) (hs : TreeInv settled filePtr)
    (r : fileCheckResp) (hr : r ∈ (fileCheck config env filePtr req).out)
    (hok : r.Ok = true) (hneed : r.Need = false) :
    ∃ d rec, getNode (splitPath req.Path) (fileCheck config env filePtr req).st.root = some d
      ∧ mapGet d.FileInfos req.Filename = some rec
      ∧ rec.fields.FileOk = true
      ∧ rec.fields.FileMD5 ∈ mapKeys (fileCheck config env filePtr req).st.MD5Files := by
  by_cases hacc : req.Path = "" ∨ req.Filename = "" ∨ req.MD5 = "" ∨ req.Size = 0 ∨ req.Total = 0
  · simp only [fileCheck, hacc, if_true, respFileCheck, List.mem_singleton] at hr
    subst hr; simp at hok
  · cases hres : findPath filePtr req.Path true with
    | error e =>
      simp only [fileCheck, hacc, if_false, hres, respFileCheck, List.mem_singleton] at hr
      subst hr; simp at hok
    | ok p =>
      obtain ⟨fp1, info, dir⟩ := p
      obtain ⟨hk1, hmd5, hnode, hkdir⟩ :=
        AllRecs_findPath hashKnown hashKnown_invariant _ _ _ _ _ _ hk hres
      obtain ⟨_, _, _, hsdir⟩ :=
        AllRecs_findPath settled settled_invariant _ _ _ _ _ _ hs hres
      obtain ⟨_, hinfo, _⟩ := findPath_ok _ _ _ _ _ _ hres
      subst hinfo
      cases hfile : mapGet dir.FileInfos req.Filename with
      | none =>
        cases hidx : mapGet fp1.MD5Files req.MD5 with
        | none =>
          simp only [fileCheck, hacc, if_false, hres, hfile, hidx, respFileCheck,
            List.mem_singleton] at hr
          subst hr; simp at hneed
        | some files =>
          cases hstep : copyIfMultiple config env (some files)
              (filepathJoin dir.fields.AbsPath req.Filename) with
          | nilDeref =>
            simp [fileCheck, hacc, hres, hfile, hidx, hstep] at hr
          | failed err io =>
            simp only [fileCheck, hacc, if_false, hres, hfile, hidx, hstep, respFileCheck,
              List.mem_singleton] at hr
            subst hr; simp at hok
          | done io =>
            have hrun : fileCheck config env filePtr req =
                ⟨⟨setChildAt fp1.root (splitPath req.Path) req.Filename
                  (.mk { Path := filepathJoin dir.fields.Path dir.fields.Name,
                         Name := req.Filename,
                         AbsPath := filepathJoin dir.fields.AbsPath req.Filename,
                         FileMD5 := req.MD5, FileOk := true, FileSize := files.Size,
                         FileDate := env.now } []),
                 addMD5File config fp1.MD5Files req.MD5
                  { Path := filepathJoin dir.fields.Path dir.fields.Name,
                    Name := req.Filename,
                    AbsPath := filepathJoin dir.fields.AbsPath req.Filename,
                    FileMD5 := req.MD5, FileOk := true, FileSize := files.Size,
                    FileDate := env.now }⟩,
                 [respFileCheck none false none], io, false⟩ := by
              simp only [fileCheck, hacc, if_false, hres, hfile, hidx, hstep]
            rw [hrun]
            exact ⟨_, _, getNode_setChildAt _ _ _ _ _ hnode, mapGet_mapSet_self _ _ _, rfl,
              (mem_mapKeys_addMD5File config fp1.MD5Files req.MD5 _).2⟩
      | some file =>
        obtain ⟨hkf, _⟩ := AllRecs_child _ _ _ _ hkdir hfile
        obtain ⟨hsf, _⟩ := AllRecs_child _ _ _ _ hsdir hfile
        cases hd : file.fields.IsDir with
        | true =>
          simp only [fileCheck, hacc, if_false, hres, hfile, hd, if_true, respFileCheck,
            List.mem_singleton] at hr
          subst hr; simp at hok
        | false =>
          cases hup : file.fields.Upload with
          | none =>
            by_cases hsame : file.fields.FileMD5 = req.MD5
            · have hrun : fileCheck config env filePtr req =
                  ⟨fp1, [respFileCheck none false none], [], false⟩ := by
                simp only [fileCheck, hacc, if_false, hres, hfile, hd, hup]
                simp [hsame]
              rw [hrun]
              have hfok : file.fields.FileOk = true := by
                rcases hsf hd with h1 | h1
                · exact h1
                · exact absurd hup h1
              exact ⟨dir, file, hnode, hfile, hfok, by rw [hmd5]; exact hkf hfok⟩
            · have hout : (fileCheck config env filePtr req).out =
                  [respFileCheck none true none] := by
                simp only [fileCheck, hacc, if_false, hres, hfile, hd, hup]
                simp [hsame]
              rw [hout] at hr
              simp only [respFileCheck, List.mem_singleton] at hr
              subst hr; simp at hneed
          | some u =>
            have hout : ∀ x, x ∈ (fileCheck config env filePtr req).out → x.Need = true := by
              intro x hx
              by_cases hm : u.MD5 = req.MD5
              · by_cases hsame : file.fields.FileMD5 = req.MD5
                · simp only [fileCheck, hacc, if_false, hres, hfile, hd, hup, hm] at hx
                  simp [hsame, respFileCheck] at hx
                  rw [hx]
                · simp only [fileCheck, hacc, if_false, hres, hfile, hd, hup, hm] at hx
                  simp only [ne_eq, hsame, not_false_eq_true, if_true, Bool.false_eq_true,
                    if_false] at hx
                  cases hu1 : (mergeUpload config env.now fp1.MD5Files file).1.fields.Upload with
                  | none => simp [hu1] at hx
                  | some u1 =>
                    simp [hu1, respFileCheck] at hx
                    rw [hx]
              · by_cases hsame : file.fields.FileMD5 = req.MD5
                · simp only [fileCheck, hacc, if_false, hres, hfile, hd, hup, hm] at hx
                  simp [hsame, respFileCheck] at hx
                  rw [hx]
                · simp only [fileCheck, hacc, if_false, hres, hfile, hd, hup, hm] at hx
                  simp [hsame, respFileCheck] at hx
                  rw [hx]
            rw [hout r hr] at hneed
            simp at hneed

/-- C13 (as amended). Record invariant: in every state reachable from the empty tree through
the handlers, every record with FileOk = true has a content hash that is a key of the
content store index; and each of `fileCheck`, `fileUpload`, `fileAction`, `fileMkdir` and
`fileDelete` keeps this true of every record of the tree, from any state in which it is. -/
theorem C13_record_invariant (config : Config) :
    (∀ st, Reachable config st →
      ∀ (a : List String) (d : fileInfo) (k : String) (rec : fileInfo),
        getNode a st.root = some d → mapGet d.FileInfos k = some rec →
        rec.fields.FileOk = true → rec.fields.FileMD5 ∈ mapKeys st.MD5Files)
    ∧ (∀ st, TreeInv hashKnown st →
        (∀ env req, TreeInv hashKnown (fileCheck config env st req).st)
        ∧ (∀ env req, TreeInv hashKnown (fileUpload config env st req).st)
        ∧ (∀ env req, TreeInv hashKnown (fileAction config env st req).st)
        ∧ (∀ filePath, TreeInv hashKnown (fileMkdir st filePath).st)
        ∧ (∀ filePath filename, TreeInv hashKnown (fileDelete st filePath filename).st)) := by
  refine ⟨?_, ?_⟩
  · intro st hst a d k rec hd hk hok
    exact TreeInv_at hashKnown st a d k rec
      (Reachable_TreeInv hashKnown hashKnown_invariant config st hst) hd hk hok
  · intro st h
    exact ⟨fun env req => TreeInv_fileCheck _ hashKnown_invariant config env st req h,
      fun env req => TreeInv_fileUpload _ hashKnown_invariant config env st req h,
      fun env req => TreeInv_fileAction _ hashKnown_invariant config env st req h,
      fun filePath => by rw [fileMkdir_st]; exact h,
      fun filePath filename => TreeInv_fileDelete _ st filePath filename h⟩

theorem C13_record_invariant_witness :
    "deadbeef" ∈ mapKeys (fileUpload { SaveFileMultiple := false } exEnv
        (fileCheck { SaveFileMultiple := false } exEnv exEmpty
          { Path := "/docs", Filename := "a.txt", MD5 := "deadbeef", Total := 1, Size := 10 }).st
        { path := "/docs", filename := "a.txt", md5 := "deadbeef", current := "0" }).st.MD5Files :=
  (C13_record_invariant { SaveFileMultiple := false }).1 _
    (Reachable.upload _ exEnv
      { path := "/docs", filename := "a.txt", md5 := "deadbeef", current := "0" }
      (Reachable.check _ exEnv
        { Path := "/docs", Filename := "a.txt", MD5 := "deadbeef", Total := 1, Size := 10 }
        (Reachable.empty { AbsPath := "/data", IsDir := true })))
    ["docs"]
    (.mk { Name := "docs", AbsPath := "/data/docs", IsDir := true }
      [("a.txt", .mk { Path := "docs", Name := "a.txt", AbsPath := "/data/docs/a.txt",
                       FileMD5 := "deadbeef", FileOk := true, FileSize := 10,
                       FileDate := "t1" } [])])
    "a.txt"
    (.mk { Path := "docs", Name := "a.txt", AbsPath := "/data/docs/a.txt",
           FileMD5 := "deadbeef", FileOk := true, FileSize := 10, FileDate := "t1" } [])
    (by rfl) (by rfl) rfl

/-- C13, as stated, fails in reachable states. After `/docs/a.txt` has been uploaded whole,
a pre-upload check declaring another hash for it attaches an UploadState and keeps
FileOk = true. And, in shared-copy mode, a copy of the directory record `docs` of the root
to `/x` installs a record with FileOk = true whose content hash is empty. -/
theorem C13_record_invariant_counterexample :
    Reachable { SaveFileMultiple := false }
        (fileCheck { SaveFileMultiple := false } exEnv
          (fileUpload { SaveFileMultiple := false } exEnv
            (fileCheck { SaveFileMultiple := false } exEnv exEmpty
              { Path := "/docs", Filename := "a.txt", MD5 := "deadbeef", Total := 1,
                Size := 10 }).st
            { path := "/docs", filename := "a.txt", md5 := "deadbeef", current := "0" }).st
          { Path := "/docs", Filename := "a.txt", MD5 := "cafe", Total := 2, Size := 20 }).st
      ∧ ((getNode ["docs"] (fileCheck { SaveFileMultiple := false } exEnv
          (fileUpload { SaveFileMultiple := false } exEnv
            (fileCheck { SaveFileMultiple := false } exEnv exEmpty
              { Path := "/docs", Filename := "a.txt", MD5 := "deadbeef", Total := 1,
                Size := 10 }).st
            { path := "/docs", filename := "a.txt", md5 := "deadbeef", current := "0" }).st
          { Path := "/docs", Filename := "a.txt", MD5 := "cafe", Total := 2,
            Size := 20 }).st.root).bind
            (fun d => mapGet d.FileInfos "a.txt")).map
              (fun f => (f.fields.FileOk, f.fields.Upload)) =
          some (true, some { Size := 20, MD5 := "cafe", SliceCnt := 2, UpSlice := [] })
      ∧ Reachable { SaveFileMultiple := false }
        (fileAction { SaveFileMultiple := false } exEnv
          (fileCheck { SaveFileMultiple := false } exEnv exEmpty
            { Path := "/docs", Filename := "a.txt", MD5 := "deadbeef", Total := 1,
              Size := 10 }).st
          { action := "copy", filename := "docs", src := "/", dest := "/x" }).st
      ∧ ((getNode ["x"] (fileAction { SaveFileMultiple := false } exEnv
          (fileCheck { SaveFileMultiple := false } exEnv exEmpty
            { Path := "/docs", Filename := "a.txt", MD5 := "deadbeef", Total := 1,
              Size := 10 }).st
          { action := "copy", filename := "docs", src := "/", dest := "/x" }).st.root).bind
            (fun d => mapGet d.FileInfos "docs")).map
              (fun f => (f.fields.FileOk, f.fields.FileMD5)) = some (true, "") := by
  refine ⟨?_, by rfl, ?_, by rfl⟩
  · exact Reachable.check _ _ _ (Reachable.upload _ _ _
      (Reachable.check _ _ _ (Reachable.empty { AbsPath := "/data", IsDir := true })))
  · exact Reachable.action _ _ _
      (Reachable.check _ _ _ (Reachable.empty { AbsPath := "/data", IsDir := true }))

/-! ## C3: resume, in the reachable states -/

/-- C3. Resume: in every state reachable from the empty tree through the handlers, when the
destination directory's record for filename is a non-directory whose UploadState targets the
declared hash (whether the record's stored hash equals the declared hash or differs from
it), `fileCheck` responds ok = true, need = true with a resume set equal to the
UploadState's received-chunk set as it was before the call, calls no file primitive, and
leaves the whole state, hence the received set, unchanged. -/
theorem C3_fileCheck_resume (config : Config) (env : Env) (filePtr fp1 : fileHandle)
    (req : fileCheckReq) (info : List String) (dir file : fileInfo) (u : upload)
    (hreach : Reachable config filePtr)
    (hacc : ¬ (req.Path = "" ∨ req.Filename = "" ∨ req.MD5 = "" ∨ req.Size = 0 ∨ req.Total = 0))
    (hres : findPath filePtr req.Path true = .ok (fp1, info, dir))
    (hfile : mapGet dir.FileInfos req.Filename = some file)
    (hdir : file.fields.IsDir = false)
    (hup : file.fields.Upload = some u)
    (hmd5 : u.MD5 = req.MD5) :
    (fileCheck config env filePtr req).out =
        [{ Ok := true, Message := "", Need := true, Upload := some u.UpSlice }]
      ∧ (fileCheck config env filePtr req).crashed = false
      ∧ (fileCheck config env filePtr req).io = []
      ∧ (fileCheck config env filePtr req).st = filePtr := by
  have hfp : fp1 = filePtr :=
    findPath_same_of_child true filePtr fp1 req.Path info dir req.Filename file hres hfile
  obtain ⟨_, _, hnode⟩ := findPath_ok _ _ _ _ _ _ hres
  have hinv : TreeInv openUpload fp1 := by
    rw [hfp]; exact Reachable_TreeInv openUpload openUpload_invariant config filePtr hreach
  obtain ⟨_, hcnt, _, _⟩ :=
    TreeInv_at openUpload fp1 info dir req.Filename file hinv hnode hfile u hup
  by_cases hsame : file.fields.FileMD5 = req.MD5
  · have hrun : fileCheck config env filePtr req =
        ⟨fp1, [respFileCheck none true (some u.UpSlice)], [], false⟩ := by
      simp only [fileCheck, hacc, if_false, hres, hfile, hdir, hsame, hup, hmd5]
      simp
    rw [hrun]
    exact ⟨by simp [respFileCheck], rfl, rfl, hfp⟩
  · have hmerge := mergeUpload_pending config env.now fp1.MD5Files file u hup hcnt
    have hrun : fileCheck config env filePtr req =
        ⟨{ root := setChildAt fp1.root info req.Filename file, MD5Files := fp1.MD5Files },
          [respFileCheck none true (some u.UpSlice)], [], false⟩ := by
      simp only [fileCheck, hacc, if_false, hres, hfile, hdir, hup, hmd5, hmerge]
      simp [hsame]
    rw [hrun, setChildAt_same _ _ _ _ _ hnode hfile]
    exact ⟨by simp [respFileCheck], rfl, rfl, hfp⟩

theorem C3_fileCheck_resume_witness :
    ((fileCheck { SaveFileMultiple := false } exEnv exResume
        { Path := "/docs", Filename := "b.bin", MD5 := "h2", Total := 4, Size := 40 }).out =
        [{ Ok := true, Message := "", Need := true, Upload := some [("0", ""), ("2", "")] }]
      ∧ (fileCheck { SaveFileMultiple := false } exEnv exResume
        { Path := "/docs", Filename := "b.bin", MD5 := "h2", Total := 4, Size := 40 }).st =
          exResume)
    ∧ ((fileCheck { SaveFileMultiple := false } exEnv exChanged
        { Path := "/docs", Filename := "a.txt", MD5 := "cafe", Total := 2, Size := 20 }).out =
        [{ Ok := true, Message := "", Need := true, Upload := some [("1", "")] }]
      ∧ (fileCheck { SaveFileMultiple := false } exEnv exChanged
        { Path := "/docs", Filename := "a.txt", MD5 := "cafe", Total := 2, Size := 20 }).st =
          exChanged) :=
  ⟨(fun h => ⟨h.1, h.2.2.2⟩)
    (C3_fileCheck_resume { SaveFileMultiple := false } exEnv exResume exResume
      { Path := "/docs", Filename := "b.bin", MD5 := "h2", Total := 4, Size := 40 }
      ["docs"]
      (.mk { Name := "docs", AbsPath := "/data/docs", IsDir := true }
        [("b.bin", .mk { Path := "docs", Name := "b.bin", AbsPath := "/data/docs/b.bin",
                         FileMD5 := "h2",
                         Upload := some { Size := 40, MD5 := "h2", SliceCnt := 4,
                                          UpSlice := [("0", ""), ("2", "")] } } [])])
      (.mk { Path := "docs", Name := "b.bin", AbsPath := "/data/docs/b.bin", FileMD5 := "h2",
             Upload := some { Size := 40, MD5 := "h2", SliceCnt := 4,
                              UpSlice := [("0", ""), ("2", "")] } } [])
      { Size := 40, MD5 := "h2", SliceCnt := 4, UpSlice := [("0", ""), ("2", "")] }
      (Reachable.upload _ exEnv _ (Reachable.upload _ exEnv _ (Reachable.check _ exEnv _
        (Reachable.empty { AbsPath := "/data", IsDir := true }))))
      (by decide) (by rfl) (by rfl) (by rfl) (by rfl) (by rfl)),
   (fun h => ⟨h.1, h.2.2.2⟩)
    (C3_fileCheck_resume { SaveFileMultiple := false } exEnv exChanged exChanged
      { Path := "/docs", Filename := "a.txt", MD5 := "cafe", Total := 2, Size := 20 }
      ["docs"]
      (.mk { Name := "docs", AbsPath := "/data/docs", IsDir := true }
        [("a.txt", .mk { Path := "docs", Name := "a.txt", AbsPath := "/data/docs/a.txt",
                         FileMD5 := "deadbeef", FileOk := true, FileSize := 10,
                         FileDate := "t1",
                         Upload := some { Size := 20, MD5 := "cafe", SliceCnt := 2,
                                          UpSlice := [("1", "")] } } [])])
      (.mk { Path := "docs", Name := "a.txt", AbsPath := "/data/docs/a.txt",
             FileMD5 := "deadbeef", FileOk := true, FileSize := 10, FileDate := "t1",
             Upload := some { Size := 20, MD5 := "cafe", SliceCnt := 2,
                              UpSlice := [("1", "")] } } [])
      { Size := 20, MD5 := "cafe", SliceCnt := 2, UpSlice := [("1", "")] }
      (Reachable.upload _ exEnv _ (Reachable.check _ exEnv _
        (Reachable.upload _ exEnv _ (Reachable.check _ exEnv _
          (Reachable.empty { AbsPath := "/data", IsDir := true })))))
      (by decide) (by rfl) (by rfl) (by rfl) (by rfl) (by rfl))⟩

/-! ## C9: a move within one directory -/

/-- C9, at a move whose source and destination are the same directory. In the state reached
from the empty tree by a pre-upload check of `/docs/a.txt` and the ingestion of its single
chunk, `a.txt` is a Complete record of `/docs`. A move of `a.txt` from `/docs` to `/docs` is
answered by a success, and afterwards `/docs`, which is the destination, holds no record
named `a.txt`, while the index still lists its hash: the record installed at line 479 is
the one the removal of line 485 drops. The same move to another directory, `/pics`, leaves
the filename absent from `/docs` and present in `/pics` as a Complete record with the
source record's hash and size. -/
theorem C9_fileAction_move_same_directory :
    Reachable { SaveFileMultiple := false } exUploaded
      ∧ ((getNode ["docs"] exUploaded.root).bind (fun d => mapGet d.FileInfos "a.txt")).map
          (fun f => (f.fields.IsDir, f.fields.FileOk, f.fields.FileMD5, f.fields.FileSize,
            f.fields.Upload)) = some (false, true, "deadbeef", 10, none)
      ∧ (fileAction { SaveFileMultiple := false } exEnv exUploaded
          { action := "move", filename := "a.txt", src := "/docs", dest := "/docs" }).out =
          [{ Ok := true, Message := "" }]
      ∧ (fileAction { SaveFileMultiple := false } exEnv exUploaded
          { action := "move", filename := "a.txt", src := "/docs", dest := "/docs" }).crashed
            = false
      ∧ (getNode ["docs"] (fileAction { SaveFileMultiple := false } exEnv exUploaded
          { action := "move", filename := "a.txt", src := "/docs", dest := "/docs" }).st.root).map
            (fun d => (mapGet d.FileInfos "a.txt").map fileInfo.fields) = some none
      ∧ mapKeys (fileAction { SaveFileMultiple := false } exEnv exUploaded
          { action := "move", filename := "a.txt", src := "/docs", dest := "/docs" }).st.MD5Files
            = ["deadbeef"]
      ∧ (fileAction { SaveFileMultiple := false } exEnv exUploaded
          { action := "move", filename := "a.txt", src := "/docs", dest := "/pics" }).out =
          [{ Ok := true, Message := "" }]
      ∧ (getNode ["docs"] (fileAction { SaveFileMultiple := false } exEnv exUploaded
          { action := "move", filename := "a.txt", src := "/docs", dest := "/pics" }).st.root).map
            (fun d => (mapGet d.FileInfos "a.txt").map fileInfo.fields) = some none
      ∧ ((getNode ["pics"] (fileAction { SaveFileMultiple := false } exEnv exUploaded
          { action := "move", filename := "a.txt", src := "/docs", dest := "/pics" }).st.root).bind
            (fun d => mapGet d.FileInfos "a.txt")).map
              (fun f => (f.fields.FileOk, f.fields.FileMD5, f.fields.FileSize)) =
          some (true, "deadbeef", 10) := by
  refine ⟨?_, by rfl, by rfl, by rfl, by rfl, by rfl, by rfl, by rfl, by rfl⟩
  exact Reachable.upload _ exEnv _ (Reachable.check _ exEnv _
    (Reachable.empty { AbsPath := "/data", IsDir := true }))

/-! ## C18: "no upload needed" for content that was never received -/

/-- C18, at a reachable state in which the index lists a hash no content of which was ever
received. In shared-copy mode, a pre-upload check creates the Pending record `/docs/a.txt`
(hash `deadbeef`, 3 chunks) and a copy of `a.txt` to `/x` follows; neither call touches a
file, no chunk is ever ingested, and yet the index then lists `deadbeef`, with size 0 and
the path `/data/x/a.txt`. A pre-upload check of the new file `/docs/b.txt` with that hash
is answered ok = true, need = false without any file primitive being called, and leaves
`b.txt` with FileOk = true and size 0; a pre-upload check of `/x/a.txt` with that hash is
answered need = false as well. The source record `a.txt` is still Pending, with an empty
received set. -/
theorem C18_no_need_without_content :
    Reachable { SaveFileMultiple := false } exCopied
      ∧ (fileCheck { SaveFileMultiple := false } exEnv exEmpty
          { Path := "/docs", Filename := "a.txt", MD5 := "deadbeef", Total := 3,
            Size := 300 }).io = []
      ∧ (fileAction { SaveFileMultiple := false } exEnv
          (fileCheck { SaveFileMultiple := false } exEnv exEmpty
            { Path := "/docs", Filename := "a.txt", MD5 := "deadbeef", Total := 3,
              Size := 300 }).st
          { action := "copy", filename := "a.txt", src := "/docs", dest := "/x" }).io = []
      ∧ ((getNode ["docs"] exCopied.root).bind (fun d => mapGet d.FileInfos "a.txt")).map
          (fun f => (f.fields.FileOk, f.fields.Upload)) =
          some (false, some { Size := 300, MD5 := "deadbeef", SliceCnt := 3, UpSlice := [] })
      ∧ mapGet exCopied.MD5Files "deadbeef" =
          some { File := "/data/x/a.txt", Size := 0, Ptr := ["/data/x/a.txt"] }
      ∧ (fileCheck { SaveFileMultiple := false } exEnv exCopied
          { Path := "/docs", Filename := "b.txt", MD5 := "deadbeef", Total := 3,
            Size := 300 }).out = [{ Ok := true, Message := "", Need := false, Upload := none }]
      ∧ (fileCheck { SaveFileMultiple := false } exEnv exCopied
          { Path := "/docs", Filename := "b.txt", MD5 := "deadbeef", Total := 3,
            Size := 300 }).io = []
      ∧ ((getNode ["docs"] (fileCheck { SaveFileMultiple := false } exEnv exCopied
          { Path := "/docs", Filename := "b.txt", MD5 := "deadbeef", Total := 3,
            Size := 300 }).st.root).bind (fun d => mapGet d.FileInfos "b.txt")).map
              (fun f => (f.fields.FileOk, f.fields.FileMD5, f.fields.FileSize,
                f.fields.Upload)) = some (true, "deadbeef", 0, none)
      ∧ (fileCheck { SaveFileMultiple := false } exEnv exCopied
          { Path := "/x", Filename := "a.txt", MD5 := "deadbeef", Total := 3,
            Size := 300 }).out = [{ Ok := true, Message := "", Need := false, Upload := none }]
      ∧ (fileCheck { SaveFileMultiple := false } exEnv exCopied
          { Path := "/x", Filename := "a.txt", MD5 := "deadbeef", Total := 3,
            Size := 300 }).io = [] := by
  refine ⟨?_, by rfl, by rfl, by rfl, by rfl, by rfl, by rfl, by rfl, by rfl, by rfl⟩
  exact Reachable.action _ exEnv _ (Reachable.check _ exEnv _
    (Reachable.empty { AbsPath := "/data", IsDir := true }))

/-! ## C20: when the merge fires, and which chunk counts a check stores -/

/-- The record read under `k` after `info.FileInfos[k] = c` is `c`. -/
theorem record_of_setChildAt (root : fileInfo) (info : List String) (k : String)
    (c dir d rec : fileInfo) (hg : getNode info root = some dir)
    (hd : getNode info (setChildAt root info k c) = some d)
    (hrec : mapGet d.FileInfos k = some rec) : rec = c := by
  rw [getNode_setChildAt root info k c dir hg] at hd
  simp only [Option.some.injEq] at hd
  subst hd
  simp only [FileInfos_setChild, mapGet_mapSet_self, Option.some.injEq] at hrec
  exact hrec.symm

/-- The UploadState that the record for the requested filename holds after `fileCheck`,
whatever the state and the request, is either the one this record held before the call, or
a fresh one: no chunk received, and the declared chunk count, which is not zero. This covers
every place where `fileCheck` attaches an UploadState (handler.go 251, 263, 273, 288). -/
theorem fileCheck_upload_state (config : Config) (env : Env) (filePtr : fileHandle)
    (req : fileCheckReq) (d rec : fileInfo) (u : upload)
    (hd : getNode (splitPath req.Path) (fileCheck config env filePtr req).st.root = some d)
    (hrec : mapGet d.FileInfos req.Filename = some rec)
    (hu : rec.fields.Upload = some u) :
    (u.SliceCnt = req.Total ∧ req.Total ≠ 0 ∧ u.UpSlice = [])
      ∨ (∃ d0 rec0, getNode (splitPath req.Path) filePtr.root = some d0
          ∧ mapGet d0.FileInfos req.Filename = some rec0 ∧ rec0.fields.Upload = some u) := by
  by_cases hacc : req.Path = "" ∨ req.Filename = "" ∨ req.MD5 = "" ∨ req.Size = 0 ∨ req.Total = 0
  · have hst : (fileCheck config env filePtr req).st = filePtr := by
      simp only [fileCheck, hacc, if_true]
    rw [hst] at hd
    exact Or.inr ⟨d, rec, hd, hrec, hu⟩
  · have htot : req.Total ≠ 0 := fun ht => hacc (Or.inr (Or.inr (Or.inr (Or.inr ht))))
    cases hres : findPath filePtr req.Path true with
    | error e =>
      have hst : (fileCheck config env filePtr req).st = filePtr := by
        simp only [fileCheck, hacc, if_false, hres]
      rw [hst] at hd
      exact Or.inr ⟨d, rec, hd, hrec, hu⟩
    | ok p =>
      obtain ⟨fp1, info, dir⟩ := p
      obtain ⟨_, hinfo, hnode⟩ := findPath_ok _ _ _ _ _ _ hres
      subst hinfo
      cases hfile : mapGet dir.FileInfos req.Filename with
      | none =>
        cases hidx : mapGet fp1.MD5Files req.MD5 with
        | none =>
          have hst : (fileCheck config env filePtr req).st.root =
              setChildAt fp1.root (splitPath req.Path) req.Filename
                (.mk { Path := filepathJoin dir.fields.Path dir.fields.Name,
                       Name := req.Filename,
                       AbsPath := filepathJoin dir.fields.AbsPath req.Filename,
                       FileMD5 := req.MD5,
                       Upload := some { Size := req.Size, MD5 := req.MD5,
                                        SliceCnt := req.Total, UpSlice := [] } } []) := by
            simp only [fileCheck, hacc, if_false, hres, hfile, hidx]
          rw [hst] at hd
          have hr := record_of_setChildAt _ _ _ _ _ _ _ hnode hd hrec
          subst hr
          simp only [fileInfo.fields, Option.some.injEq] at hu
          subst hu
          exact Or.inl ⟨rfl, htot, rfl⟩
        | some files =>
          cases hstep : copyIfMultiple config env (some files)
              (filepathJoin dir.fields.AbsPath req.Filename) with
          | nilDeref =>
            have hst : (fileCheck config env filePtr req).st = fp1 := by
              simp only [fileCheck, hacc, if_false, hres, hfile, hidx, hstep]
            rw [hst, hnode] at hd
            simp only [Option.some.injEq] at hd
            subst hd
            rw [hfile] at hrec
            simp at hrec
          | failed err io =>
            have hst : (fileCheck config env filePtr req).st = fp1 := by
              simp only [fileCheck, hacc, if_false, hres, hfile, hidx, hstep]
            rw [hst, hnode] at hd
            simp only [Option.some.injEq] at hd
            subst hd
            rw [hfile] at hrec
            simp at hrec
          | done io =>
            have hst : (fileCheck config env filePtr req).st.root =
                setChildAt fp1.root (splitPath req.Path) req.Filename
                  (.mk { Path := filepathJoin dir.fields.Path dir.fields.Name,
                         Name := req.Filename,
                         AbsPath := filepathJoin dir.fields.AbsPath req.Filename,
                         FileMD5 := req.MD5, FileOk := true, FileSize := files.Size,
                         FileDate := env.now } []) := by
              simp only [fileCheck, hacc, if_false, hres, hfile, hidx, hstep]
            rw [hst] at hd
            have hr := record_of_setChildAt _ _ _ _ _ _ _ hnode hd hrec
            subst hr
            simp [fileInfo.fields] at hu
      | some file =>
        have hfp : fp1 = filePtr :=
          findPath_same_of_child true filePtr fp1 req.Path _ dir req.Filename file hres hfile
        have hold : ∀ u0, file.fields.Upload = some u0 →
            ∃ d0 rec0, getNode (splitPath req.Path) filePtr.root = some d0
              ∧ mapGet d0.FileInfos req.Filename = some rec0
              ∧ rec0.fields.Upload = some u0 := by
          intro u0 h0
          exact ⟨dir, file, by rw [← hfp]; exact hnode, hfile, h0⟩
        have hsame_st : (fileCheck config env filePtr req).st = fp1 →
            ∃ d0 rec0, getNode (splitPath req.Path) filePtr.root = some d0
              ∧ mapGet d0.FileInfos req.Filename = some rec0
              ∧ rec0.fields.Upload = some u := by
          intro hst
          rw [hst, hnode] at hd
          simp only [Option.some.injEq] at hd
          subst hd
          rw [hfile] at hrec
          simp only [Option.some.injEq] at hrec
          subst hrec
          exact hold u hu
        have hfresh : ∀ file2 : fileInfo,
            file2.fields.Upload = some { Size := req.Size, MD5 := req.MD5,
                                         SliceCnt := req.Total, UpSlice := [] } →
            (fileCheck config env filePtr req).st.root =
              setChildAt fp1.root (splitPath req.Path) req.Filename file2 →
            u.SliceCnt = req.Total ∧ req.Total ≠ 0 ∧ u.UpSlice = [] := by
          intro file2 h2 hst
          rw [hst] at hd
          have hr := record_of_setChildAt _ _ _ _ _ _ _ hnode hd hrec
          subst hr
          rw [h2] at hu
          simp only [Option.some.injEq] at hu
          subst hu
          exact ⟨rfl, htot, rfl⟩
        cases hdir : file.fields.IsDir with
        | true =>
          exact Or.inr (hsame_st (by
            simp only [fileCheck, hacc, if_false, hres, hfile, hdir, if_true]))
        | false =>
          by_cases hsame : file.fields.FileMD5 = req.MD5
          · cases hup : file.fields.Upload with
            | none =>
              exact Or.inr (hsame_st (by
                simp only [fileCheck, hacc, if_false, hres, hfile, hdir, hup]
                simp [hsame]))
            | some u0 =>
              by_cases hm : u0.MD5 = req.MD5
              · exact Or.inr (hsame_st (by
                  simp only [fileCheck, hacc, if_false, hres, hfile, hdir, hup, hm]
                  simp [hsame]))
              · exact Or.inl (hfresh
                  ((clearUpload file).1.withFields
                    { (clearUpload file).1.fields with
                      Upload := some { Size := req.Size, MD5 := req.MD5,
                                       SliceCnt := req.Total, UpSlice := [] } })
                  rfl (by
                    simp only [fileCheck, hacc, if_false, hres, hfile, hdir, hup, hm]
                    simp [hsame]))
          · cases hup : file.fields.Upload with
            | none =>
              exact Or.inl (hfresh
                (file.withFields
                  { file.fields with
                    Upload := some { Size := req.Size, MD5 := req.MD5,
                                     SliceCnt := req.Total, UpSlice := [] } })
                rfl (by
                  simp only [fileCheck, hacc, if_false, hres, hfile, hdir, hup]
                  simp [hsame]))
            | some u0 =>
              by_cases hm : u0.MD5 = req.MD5
              · have hst : (fileCheck config env filePtr req).st.root =
                    setChildAt fp1.root (splitPath req.Path) req.Filename
                      (mergeUpload config env.now fp1.MD5Files file).1 := by
                  simp only [fileCheck, hacc, if_false, hres, hfile, hdir, hup, hm]
                  simp only [ne_eq, hsame, not_false_eq_true, if_true, Bool.false_eq_true,
                    if_false]
                  cases hu1 : (mergeUpload config env.now fp1.MD5Files file).1.fields.Upload
                    <;> simp [hu1]
                rw [hst] at hd
                have hr := record_of_setChildAt _ _ _ _ _ _ _ hnode hd hrec
                subst hr
                rcases mergeUpload_cases config env.now fp1.MD5Files file with h1 | h1
                · rw [h1] at hu
                  exact Or.inr (hold u hu)
                · rw [h1] at hu
                  simp at hu
              · exact Or.inl (hfresh
                  ((clearUpload file).1.withFields
                    { (clearUpload file).1.fields with
                      Upload := some { Size := req.Size, MD5 := req.MD5,
                                       SliceCnt := req.Total, UpSlice := [] } })
                  rfl (by
                    simp only [fileCheck, hacc, if_false, hres, hfile, hdir, hup, hm]
                    simp [hsame]))

/-- Marking a new non-empty index keeps the received indices distinct and non-empty. -/
theorem mapKeys_mapSet_new (m : List (String × String)) (c : String)
    (hnd : (mapKeys m).Nodup) (hne : ∀ k ∈ mapKeys m, k ≠ "") (hc : c ≠ "")
    (hrec : mapGet m c = none) :
    (mapKeys (mapSet m c "")).Nodup ∧ (∀ k ∈ mapKeys (mapSet m c ""), k ≠ "")
      ∧ (mapKeys (mapSet m c "")).length = (mapSet m c "").length := by
  have hnot : c ∉ mapKeys m := (mapGet_eq_none_iff _ _).1 hrec
  refine ⟨?_, ?_, by simp [mapKeys]⟩
  · simp only [mapSet_of_not_mem _ _ _ hnot, mapKeys, List.map_append, List.map_cons,
      List.map_nil]
    refine List.Nodup.append hnd (List.nodup_singleton _) ?_
    simpa [mapKeys] using hnot
  · intro k hk
    rcases (mem_mapKeys_mapSet _ _ _ _).1 hk with h1 | h1
    · exact hne k h1
    · rw [h1]; exact hc

/-- C20 (as amended). (1) In every state reachable from the empty tree through the handlers,
every UploadState has a chunk count that is not zero, received indices that are distinct
non-empty strings, and a number of received indices that differs from the chunk count.
(2) When `fileUpload` ingests a chunk on such a state (any non-empty index string not yet
received, for a record whose UploadState targets the declared hash, read and written without
error), the received indices, the new one included, are distinct non-empty strings; the
record becomes Complete (FileOk = true, UploadState = nil) exactly when their number equals
the chunk count n, which is then positive, the merge being run on these n indices; otherwise
the record keeps its UploadState with the index added and no merge is run. (3) Whatever the
state and the request, the UploadState that the requested record holds after `fileCheck` is
the one it held before or a fresh one with an empty received set and the declared chunk
count, which is not zero. (4) `fileCheck` and `fileUpload` keep (1) true of every record of
the tree, from any state in which it is. -/
theorem C20_merge_on_count (config : Config) :
    (∀ st, Reachable config st →
      ∀ (a : List String) (d : fileInfo) (k : String) (rec : fileInfo) (u : upload),
        getNode a st.root = some d → mapGet d.FileInfos k = some rec →
        rec.fields.Upload = some u →
        u.SliceCnt ≠ 0 ∧ (u.UpSlice.length : Int) ≠ u.SliceCnt
          ∧ (mapKeys u.UpSlice).Nodup ∧ ∀ c ∈ mapKeys u.UpSlice, c ≠ "")
    ∧ (∀ st, Reachable config st →
      ∀ (env : Env) (req : fileUploadReq) (info : List String) (dir file : fileInfo)
        (u : upload),
      ¬ (req.path = "" ∨ req.filename = "" ∨ req.md5 = "" ∨ req.current = "") →
      findPath st req.path false = .ok (st, info, dir) →
      mapGet dir.FileInfos req.filename = some file →
      file.fields.Upload = some u → u.MD5 = req.md5 →
      mapGet u.UpSlice req.current = none →
      env.formErr = none → env.writeErr = none →
      (mapKeys (mapSet u.UpSlice req.current "")).Nodup
      ∧ (∀ c ∈ mapKeys (mapSet u.UpSlice req.current ""), c ≠ "")
      ∧ ∃ dir1 rec,
        getNode info (fileUpload config env st req).st.root = some dir1
        ∧ mapGet dir1.FileInfos req.filename = some rec
        ∧ ((((mapKeys (mapSet u.UpSlice req.current "")).length : Int) = u.SliceCnt
              ∧ 0 < u.SliceCnt
              ∧ rec.fields.FileOk = true ∧ rec.fields.Upload = none
              ∧ (fileUpload config env st req).io =
                  [Effect.writePart file.fields.AbsPath req.current,
                   Effect.mergeParts file.fields.AbsPath
                    (mapKeys (mapSet u.UpSlice req.current ""))])
          ∨ (((mapKeys (mapSet u.UpSlice req.current "")).length : Int) ≠ u.SliceCnt
              ∧ rec.fields.FileOk = file.fields.FileOk
              ∧ rec.fields.Upload =
                  some { u with UpSlice := mapSet u.UpSlice req.current "" }
              ∧ (fileUpload config env st req).io =
                  [Effect.writePart file.fields.AbsPath req.current])))
    ∧ (∀ (st : fileHandle) (env : Env) (req : fileCheckReq) (d rec : fileInfo) (u : upload),
      getNode (splitPath req.Path) (fileCheck config env st req).st.root = some d →
      mapGet d.FileInfos req.Filename = some rec →
      rec.fields.Upload = some u →
      (u.SliceCnt = req.Total ∧ req.Total ≠ 0 ∧ u.UpSlice = [])
        ∨ (∃ d0 rec0, getNode (splitPath req.Path) st.root = some d0
            ∧ mapGet d0.FileInfos req.Filename = some rec0
            ∧ rec0.fields.Upload = some u))
    ∧ (∀ st, TreeInv openUpload st →
        (∀ env req, TreeInv openUpload (fileCheck config env st req).st)
        ∧ (∀ env req, TreeInv openUpload (fileUpload config env st req).st)) := by
  refine ⟨?_, ?_, ?_, ?_⟩
  · intro st hst a d k rec u hd hk hu
    exact TreeInv_at openUpload st a d k rec
      (Reachable_TreeInv openUpload openUpload_invariant config st hst) hd hk u hu
  · intro st hst env req info dir file u hacc hres hfile hup hmd5 hrec hform hwrite
    obtain ⟨_, _, hnode⟩ := findPath_ok _ _ _ _ _ _ hres
    obtain ⟨_, _, hnd, hne⟩ := TreeInv_at openUpload st info dir req.filename file
      (Reachable_TreeInv openUpload openUpload_invariant config st hst) hnode hfile u hup
    have hcur : req.current ≠ "" := fun hc => hacc (Or.inr (Or.inr (Or.inr hc)))
    obtain ⟨hnd1, hne1, hlen⟩ := mapKeys_mapSet_new u.UpSlice req.current hnd hne hcur hrec
    refine ⟨hnd1, hne1, ?_⟩
    rw [hlen]
    by_cases hfull : ((mapSet u.UpSlice req.current "").length : Int) = u.SliceCnt
    · have hmerge : mergeUpload config env.now st.MD5Files
          (markReceived file u req.current) =
          ((markReceived file u req.current).withFields
            { (markReceived file u req.current).fields with
              FileMD5 := u.MD5, FileOk := true, FileSize := u.Size, FileDate := env.now,
              Upload := none },
           addMD5File config st.MD5Files u.MD5
            { (markReceived file u req.current).fields with
              FileMD5 := u.MD5, FileOk := true, FileSize := u.Size, FileDate := env.now,
              Upload := none },
           [Effect.mergeParts file.fields.AbsPath (mapKeys (mapSet u.UpSlice req.current ""))]) := by
        simp [mergeUpload, markReceived, hfull]
      have hpos : 0 < u.SliceCnt := by
        have h1 : 0 < (mapSet u.UpSlice req.current "").length := by
          rw [mapSet_of_not_mem _ _ _ ((mapGet_eq_none_iff _ _).1 hrec)]
          simp
        omega
      rw [fileUpload_ingest config env st req info dir file u _ _ _
        hacc hres hfile hup hmd5 hrec hform hwrite hmerge]
      exact ⟨_, _, getNode_setChildAt _ _ _ _ _ hnode, mapGet_mapSet_self _ _ _,
        Or.inl ⟨hfull, hpos, rfl, rfl, rfl⟩⟩
    · have hmerge : mergeUpload config env.now st.MD5Files
          (markReceived file u req.current) =
          (markReceived file u req.current, st.MD5Files, []) := by
        simp [mergeUpload, markReceived, hfull]
      rw [fileUpload_ingest config env st req info dir file u _ _ _
        hacc hres hfile hup hmd5 hrec hform hwrite hmerge]
      exact ⟨_, _, getNode_setChildAt _ _ _ _ _ hnode, mapGet_mapSet_self _ _ _,
        Or.inr ⟨hfull, rfl, rfl, rfl⟩⟩
  · intro st env req d rec u hd hrec hu
    exact fileCheck_upload_state config env st req d rec u hd hrec hu
  · intro st h
    exact ⟨fun env req => TreeInv_fileCheck _ openUpload_invariant config env st req h,
      fun env req => TreeInv_fileUpload _ openUpload_invariant config env st req h⟩

theorem C20_merge_on_count_witness :
    ((4 : Int) ≠ 0 ∧ (([("0", ""), ("2", "")] : List (String × String)).length : Int) ≠ 4
        ∧ (mapKeys ([("0", ""), ("2", "")] : List (String × String))).Nodup
        ∧ ∀ c ∈ mapKeys ([("0", ""), ("2", "")] : List (String × String)), c ≠ "")
    ∧ (∃ dir1 rec,
        getNode ["docs"] (fileUpload { SaveFileMultiple := false } exEnv
          (fileCheck { SaveFileMultiple := false } exEnv exEmpty
            { Path := "/docs", Filename := "a.txt", MD5 := "deadbeef", Total := 1,
              Size := 10 }).st
          { path := "/docs", filename := "a.txt", md5 := "deadbeef",
            current := "0" }).st.root = some dir1
        ∧ mapGet dir1.FileInfos "a.txt" = some rec
        ∧ rec.fields.FileOk = true ∧ rec.fields.Upload = none) :=
  ⟨(C20_merge_on_count { SaveFileMultiple := false }).1 exResume
      (Reachable.upload _ exEnv _ (Reachable.upload _ exEnv _ (Reachable.check _ exEnv _
        (Reachable.empty { AbsPath := "/data", IsDir := true }))))
      ["docs"]
      (.mk { Name := "docs", AbsPath := "/data/docs", IsDir := true }
        [("b.bin", .mk { Path := "docs", Name := "b.bin", AbsPath := "/data/docs/b.bin",
                         FileMD5 := "h2",
                         Upload := some { Size := 40, MD5 := "h2", SliceCnt := 4,
                                          UpSlice := [("0", ""), ("2", "")] } } [])])
      "b.bin"
      (.mk { Path := "docs", Name := "b.bin", AbsPath := "/data/docs/b.bin", FileMD5 := "h2",
             Upload := some { Size := 40, MD5 := "h2", SliceCnt := 4,
                              UpSlice := [("0", ""), ("2", "")] } } [])
      { Size := 40, MD5 := "h2", SliceCnt := 4, UpSlice := [("0", ""), ("2", "")] }
      (by rfl) (by rfl) (by rfl),
   match ((C20_merge_on_count { SaveFileMultiple := false }).2.1
      (fileCheck { SaveFileMultiple := false } exEnv exEmpty
        { Path := "/docs", Filename := "a.txt", MD5 := "deadbeef", Total := 1, Size := 10 }).st
      (Reachable.check _ exEnv _ (Reachable.empty { AbsPath := "/data", IsDir := true }))
      exEnv
      { path := "/docs", filename := "a.txt", md5 := "deadbeef", current := "0" }
      ["docs"]
      (.mk { Name := "docs", AbsPath := "/data/docs", IsDir := true }
        [("a.txt", .mk { Path := "docs", Name := "a.txt", AbsPath := "/data/docs/a.txt",
                         FileMD5 := "deadbeef",
                         Upload := some { Size := 10, MD5 := "deadbeef", SliceCnt := 1,
                                          UpSlice := [] } } [])])
      (.mk { Path := "docs", Name := "a.txt", AbsPath := "/data/docs/a.txt",
             FileMD5 := "deadbeef",
             Upload := some { Size := 10, MD5 := "deadbeef", SliceCnt := 1,
                              UpSlice := [] } } [])
      { Size := 10, MD5 := "deadbeef", SliceCnt := 1, UpSlice := [] }
      (by decide) (by rfl) (by rfl) (by rfl) (by rfl) (by rfl) (by rfl) (by rfl)).2.2 with
   | ⟨d, r, h1, h2, Or.inl h⟩ => ⟨d, r, h1, h2, h.2.2.1, h.2.2.2.1⟩
   | ⟨_, _, _, _, Or.inr h⟩ => absurd (by rfl) h.1⟩

/-- C20, as stated, fails: after a pre-upload check with chunk count 1, the chunk index `x`,
which is not the decimal form of an integer, is marked received and the merge fires on the
received set holding `x` alone, the record becoming Complete; and a pre-upload check
declaring the chunk count -1 is accepted and attaches an UploadState whose chunk count is
-1. -/
theorem C20_merge_on_count_counterexample :
    (fileUpload { SaveFileMultiple := false } exEnv
        (fileCheck { SaveFileMultiple := false } exEnv exEmpty
          { Path := "/docs", Filename := "a.txt", MD5 := "deadbeef", Total := 1, Size := 10 }).st
        { path := "/docs", filename := "a.txt", md5 := "deadbeef", current := "x" }).io =
        [Effect.writePart "/data/docs/a.txt" "x", Effect.mergeParts "/data/docs/a.txt" ["x"]]
      ∧ ((getNode ["docs"] (fileUpload { SaveFileMultiple := false } exEnv
          (fileCheck { SaveFileMultiple := false } exEnv exEmpty
            { Path := "/docs", Filename := "a.txt", MD5 := "deadbeef", Total := 1,
              Size := 10 }).st
          { path := "/docs", filename := "a.txt", md5 := "deadbeef", current := "x" }).st.root).bind
            (fun d => mapGet d.FileInfos "a.txt")).map
              (fun f => (f.fields.FileOk, f.fields.Upload)) = some (true, none)
      ∧ (fileCheck { SaveFileMultiple := false } exEnv exEmpty
          { Path := "/docs", Filename := "a.txt", MD5 := "deadbeef", Total := -1,
            Size := 10 }).out = [{ Ok := true, Message := "", Need := true, Upload := none }]
      ∧ ((getNode ["docs"] (fileCheck { SaveFileMultiple := false } exEnv exEmpty
          { Path := "/docs", Filename := "a.txt", MD5 := "deadbeef", Total := -1,
            Size := 10 }).st.root).bind
            (fun d => mapGet d.FileInfos "a.txt")).map (fun f => f.fields.Upload) =
          some (some { Size := 10, MD5 := "deadbeef", SliceCnt := -1, UpSlice := [] }) := by
  refine ⟨by rfl, by rfl, by rfl, by rfl⟩

end Server
